import Mathlib

/-!
# SnAPI.AssetPipeline — formal model and verification

A shallow embedding of the SNPAK v1 pack container (writer and reader),
the runtime asset cache, the asset-manager mount list, the incremental
cache rebuild checks and the async-loader cancellation tokens, translated
from the C++ sources under `src/`.  Machine integers are modelled as `Nat`
(with explicit truncation through fixed-width little-endian encodings where
the code stores them on disk); byte strings are `List Nat`; fallible code
returns `Except String`.

External libraries (xxhash, LZ4/Zstd) are not part of the repository; they
are modelled as abstract deterministic function bundles (`HashModel`,
`CodecModel`) whose contracts (determinism, compression round-trip) are
carried as structure fields.
-/

namespace SnPak

/-! ## Little-endian byte encodings

`encLE n k` is the `k`-byte little-endian encoding of `n` (truncating at
`2^(8*k)` exactly as a C++ `uintN_t` store does); `decLE l k` reads the
first `k` bytes of `l` back into a `Nat`. -/

def encLE : Nat → Nat → List Nat
  | _, 0 => []
  | n, k + 1 => n % 256 :: encLE (n / 256) k

def decLE : List Nat → Nat → Nat
  | _, 0 => 0
  | [], _ + 1 => 0
  | b :: rest, k + 1 => b % 256 + 256 * decLE rest k

/-! ## Sequential field parsers

The reader interprets fixed-size packed structs field by field; `pN k`
consumes a `k`-byte little-endian integer, `pB k` consumes `k` raw bytes. -/

abbrev Bytes := List Nat

def pN (k : Nat) (l : Bytes) : Nat × Bytes := (decLE l k, l.drop k)

def pB (k : Nat) (l : Bytes) : Bytes × Bytes := (l.take k, l.drop k)

/-! ## On-disk structures (`src/src/Pack/SnPakFormat.h`)

Byte-packed little-endian structs.  Field order and widths follow the
C++ declarations exactly; `static_assert`ed sizes (180/40/88/128/56/80)
are proved as length lemmas on the encoders. -/

def kSnPakMagic : Bytes := [83, 78, 80, 65, 75, 0, 0, 0]
def kChunkMagic : Bytes := [67, 72, 78, 75]
def kIndexMagic : Bytes := [73, 78, 68, 88]
def kStringMagic : Bytes := [83, 84, 82, 83]
def kEndianMarker : Nat := 0x01020304
def kSnPakVersion : Nat := 1
def kVariantNone : Nat := 0xFFFFFFFF
def kFlagHasBulk : Nat := 1
def kFlagHasTrailingIndex : Nat := 1

/-- `SnPakHeaderV1` (180 bytes). -/
structure PakHeader where
  magic : Bytes
  version : Nat
  headerSize : Nat
  endianMarker : Nat
  fileSize : Nat
  indexOffset : Nat
  indexSize : Nat
  stringTableOffset : Nat
  stringTableSize : Nat
  typeTableOffset : Nat
  typeTableSize : Nat
  indexHashHi : Nat
  indexHashLo : Nat
  flags : Nat
  reserved0 : Nat
  previousIndexOffset : Nat
  previousIndexSize : Nat
  reserved : Bytes
  deriving Repr, DecidableEq

def encPakHeader (h : PakHeader) : Bytes :=
  h.magic ++ (encLE h.version 4 ++ (encLE h.headerSize 4 ++ (encLE h.endianMarker 4 ++
  (encLE h.fileSize 8 ++ (encLE h.indexOffset 8 ++ (encLE h.indexSize 8 ++
  (encLE h.stringTableOffset 8 ++ (encLE h.stringTableSize 8 ++ (encLE h.typeTableOffset 8 ++
  (encLE h.typeTableSize 8 ++ (encLE h.indexHashHi 8 ++ (encLE h.indexHashLo 8 ++
  (encLE h.flags 4 ++ (encLE h.reserved0 4 ++ (encLE h.previousIndexOffset 8 ++
  (encLE h.previousIndexSize 8 ++ h.reserved))))))))))))))))

def parsePakHeader (l : Bytes) : PakHeader :=
  let (magic, l) := pB 8 l
  let (version, l) := pN 4 l
  let (headerSize, l) := pN 4 l
  let (endianMarker, l) := pN 4 l
  let (fileSize, l) := pN 8 l
  let (indexOffset, l) := pN 8 l
  let (indexSize, l) := pN 8 l
  let (stringTableOffset, l) := pN 8 l
  let (stringTableSize, l) := pN 8 l
  let (typeTableOffset, l) := pN 8 l
  let (typeTableSize, l) := pN 8 l
  let (indexHashHi, l) := pN 8 l
  let (indexHashLo, l) := pN 8 l
  let (flags, l) := pN 4 l
  let (reserved0, l) := pN 4 l
  let (previousIndexOffset, l) := pN 8 l
  let (previousIndexSize, l) := pN 8 l
  let (reserved, _) := pB 64 l
  { magic, version, headerSize, endianMarker, fileSize, indexOffset, indexSize,
    stringTableOffset, stringTableSize, typeTableOffset, typeTableSize,
    indexHashHi, indexHashLo, flags, reserved0, previousIndexOffset,
    previousIndexSize, reserved }

/-- Well-formedness: magic is 8 bytes, the reserved pad is 64 bytes, every
integer field fits its on-disk width. -/
def PakHeader.WF (h : PakHeader) : Prop :=
  h.magic.length = 8 ∧ h.reserved.length = 64 ∧
  h.version < 2 ^ 32 ∧ h.headerSize < 2 ^ 32 ∧ h.endianMarker < 2 ^ 32 ∧
  h.fileSize < 2 ^ 64 ∧ h.indexOffset < 2 ^ 64 ∧ h.indexSize < 2 ^ 64 ∧
  h.stringTableOffset < 2 ^ 64 ∧ h.stringTableSize < 2 ^ 64 ∧
  h.typeTableOffset < 2 ^ 64 ∧ h.typeTableSize < 2 ^ 64 ∧
  h.indexHashHi < 2 ^ 64 ∧ h.indexHashLo < 2 ^ 64 ∧
  h.flags < 2 ^ 32 ∧ h.reserved0 < 2 ^ 32 ∧
  h.previousIndexOffset < 2 ^ 64 ∧ h.previousIndexSize < 2 ^ 64

instance (h : PakHeader) : Decidable h.WF := by unfold PakHeader.WF; infer_instance

/-- `SnPakStrBlockHeaderV1` (40 bytes). -/
structure StrHeader where
  magic : Bytes
  version : Nat
  blockSize : Nat
  stringCount : Nat
  reserved0 : Nat
  hashHi : Nat
  hashLo : Nat
  deriving Repr, DecidableEq

def encStrHeader (h : StrHeader) : Bytes :=
  h.magic ++ (encLE h.version 4 ++ (encLE h.blockSize 8 ++ (encLE h.stringCount 4 ++
  (encLE h.reserved0 4 ++ (encLE h.hashHi 8 ++ encLE h.hashLo 8)))))

def parseStrHeader (l : Bytes) : StrHeader :=
  let (magic, l) := pB 4 l
  let (version, l) := pN 4 l
  let (blockSize, l) := pN 8 l
  let (stringCount, l) := pN 4 l
  let (reserved0, l) := pN 4 l
  let (hashHi, l) := pN 8 l
  let (hashLo, _) := pN 8 l
  { magic, version, blockSize, stringCount, reserved0, hashHi, hashLo }

def StrHeader.WF (h : StrHeader) : Prop :=
  h.magic.length = 4 ∧ h.version < 2 ^ 32 ∧ h.blockSize < 2 ^ 64 ∧
  h.stringCount < 2 ^ 32 ∧ h.reserved0 < 2 ^ 32 ∧ h.hashHi < 2 ^ 64 ∧ h.hashLo < 2 ^ 64

instance (h : StrHeader) : Decidable h.WF := by unfold StrHeader.WF; infer_instance

/-- `SnPakIndexHeaderV1` (88 bytes). -/
structure IdxHeader where
  magic : Bytes
  version : Nat
  blockSize : Nat
  entryCount : Nat
  bulkEntryCount : Nat
  entriesHashHi : Nat
  entriesHashLo : Nat
  previousIndexOffset : Nat
  previousIndexSize : Nat
  reserved : Bytes
  deriving Repr, DecidableEq

def encIdxHeader (h : IdxHeader) : Bytes :=
  h.magic ++ (encLE h.version 4 ++ (encLE h.blockSize 8 ++ (encLE h.entryCount 4 ++
  (encLE h.bulkEntryCount 4 ++ (encLE h.entriesHashHi 8 ++ (encLE h.entriesHashLo 8 ++
  (encLE h.previousIndexOffset 8 ++ (encLE h.previousIndexSize 8 ++ h.reserved))))))))

def parseIdxHeader (l : Bytes) : IdxHeader :=
  let (magic, l) := pB 4 l
  let (version, l) := pN 4 l
  let (blockSize, l) := pN 8 l
  let (entryCount, l) := pN 4 l
  let (bulkEntryCount, l) := pN 4 l
  let (entriesHashHi, l) := pN 8 l
  let (entriesHashLo, l) := pN 8 l
  let (previousIndexOffset, l) := pN 8 l
  let (previousIndexSize, l) := pN 8 l
  let (reserved, _) := pB 32 l
  { magic, version, blockSize, entryCount, bulkEntryCount, entriesHashHi,
    entriesHashLo, previousIndexOffset, previousIndexSize, reserved }

def IdxHeader.WF (h : IdxHeader) : Prop :=
  h.magic.length = 4 ∧ h.reserved.length = 32 ∧ h.version < 2 ^ 32 ∧
  h.blockSize < 2 ^ 64 ∧ h.entryCount < 2 ^ 32 ∧ h.bulkEntryCount < 2 ^ 32 ∧
  h.entriesHashHi < 2 ^ 64 ∧ h.entriesHashLo < 2 ^ 64 ∧
  h.previousIndexOffset < 2 ^ 64 ∧ h.previousIndexSize < 2 ^ 64

instance (h : IdxHeader) : Decidable h.WF := by unfold IdxHeader.WF; infer_instance

/-- `SnPakIndexEntryV1` (128 bytes). -/
structure IdxEntry where
  assetId : Bytes
  assetKind : Bytes
  cookedPayloadType : Bytes
  cookedSchemaVersion : Nat
  nameStringId : Nat
  nameHash64 : Nat
  variantStringId : Nat
  variantHash64 : Nat
  payloadChunkOffset : Nat
  payloadChunkSizeCompressed : Nat
  payloadChunkSizeUncompressed : Nat
  compression : Nat
  flags : Nat
  reserved0 : Nat
  bulkFirstIndex : Nat
  bulkCount : Nat
  payloadHashHi : Nat
  payloadHashLo : Nat
  deriving Repr, DecidableEq

def encIdxEntry (e : IdxEntry) : Bytes :=
  e.assetId ++ (e.assetKind ++ (e.cookedPayloadType ++ (encLE e.cookedSchemaVersion 4 ++
  (encLE e.nameStringId 4 ++ (encLE e.nameHash64 8 ++ (encLE e.variantStringId 4 ++
  (encLE e.variantHash64 8 ++ (encLE e.payloadChunkOffset 8 ++
  (encLE e.payloadChunkSizeCompressed 8 ++ (encLE e.payloadChunkSizeUncompressed 8 ++
  (encLE e.compression 1 ++ (encLE e.flags 1 ++ (encLE e.reserved0 2 ++
  (encLE e.bulkFirstIndex 4 ++ (encLE e.bulkCount 4 ++ (encLE e.payloadHashHi 8 ++
  encLE e.payloadHashLo 8))))))))))))))))

def parseIdxEntry (l : Bytes) : IdxEntry :=
  let (assetId, l) := pB 16 l
  let (assetKind, l) := pB 16 l
  let (cookedPayloadType, l) := pB 16 l
  let (cookedSchemaVersion, l) := pN 4 l
  let (nameStringId, l) := pN 4 l
  let (nameHash64, l) := pN 8 l
  let (variantStringId, l) := pN 4 l
  let (variantHash64, l) := pN 8 l
  let (payloadChunkOffset, l) := pN 8 l
  let (payloadChunkSizeCompressed, l) := pN 8 l
  let (payloadChunkSizeUncompressed, l) := pN 8 l
  let (compression, l) := pN 1 l
  let (flags, l) := pN 1 l
  let (reserved0, l) := pN 2 l
  let (bulkFirstIndex, l) := pN 4 l
  let (bulkCount, l) := pN 4 l
  let (payloadHashHi, l) := pN 8 l
  let (payloadHashLo, _) := pN 8 l
  { assetId, assetKind, cookedPayloadType, cookedSchemaVersion, nameStringId,
    nameHash64, variantStringId, variantHash64, payloadChunkOffset,
    payloadChunkSizeCompressed, payloadChunkSizeUncompressed, compression,
    flags, reserved0, bulkFirstIndex, bulkCount, payloadHashHi, payloadHashLo }

def IdxEntry.WF (e : IdxEntry) : Prop :=
  e.assetId.length = 16 ∧ e.assetKind.length = 16 ∧ e.cookedPayloadType.length = 16 ∧
  e.cookedSchemaVersion < 2 ^ 32 ∧ e.nameStringId < 2 ^ 32 ∧ e.nameHash64 < 2 ^ 64 ∧
  e.variantStringId < 2 ^ 32 ∧ e.variantHash64 < 2 ^ 64 ∧
  e.payloadChunkOffset < 2 ^ 64 ∧ e.payloadChunkSizeCompressed < 2 ^ 64 ∧
  e.payloadChunkSizeUncompressed < 2 ^ 64 ∧ e.compression < 2 ^ 8 ∧
  e.flags < 2 ^ 8 ∧ e.reserved0 < 2 ^ 16 ∧ e.bulkFirstIndex < 2 ^ 32 ∧
  e.bulkCount < 2 ^ 32 ∧ e.payloadHashHi < 2 ^ 64 ∧ e.payloadHashLo < 2 ^ 64

instance (e : IdxEntry) : Decidable e.WF := by unfold IdxEntry.WF; infer_instance

/-- `SnPakBulkEntryV1` (56 bytes).  `Semantic` is stored as a 4-byte field
(an `EBulkSemantic` as u32 LE); `Reserved0` is 7 bytes with the compression
level in its first byte. -/
structure BulkEntry where
  semantic : Nat
  subIndex : Nat
  chunkOffset : Nat
  sizeCompressed : Nat
  sizeUncompressed : Nat
  compression : Nat
  reserved0 : Bytes
  hashHi : Nat
  hashLo : Nat
  deriving Repr, DecidableEq

def encBulkEntry (e : BulkEntry) : Bytes :=
  encLE e.semantic 4 ++ (encLE e.subIndex 4 ++ (encLE e.chunkOffset 8 ++
  (encLE e.sizeCompressed 8 ++ (encLE e.sizeUncompressed 8 ++ (encLE e.compression 1 ++
  (e.reserved0 ++ (encLE e.hashHi 8 ++ encLE e.hashLo 8)))))))

def parseBulkEntry (l : Bytes) : BulkEntry :=
  let (semantic, l) := pN 4 l
  let (subIndex, l) := pN 4 l
  let (chunkOffset, l) := pN 8 l
  let (sizeCompressed, l) := pN 8 l
  let (sizeUncompressed, l) := pN 8 l
  let (compression, l) := pN 1 l
  let (reserved0, l) := pB 7 l
  let (hashHi, l) := pN 8 l
  let (hashLo, _) := pN 8 l
  { semantic, subIndex, chunkOffset, sizeCompressed, sizeUncompressed,
    compression, reserved0, hashHi, hashLo }

def BulkEntry.WF (e : BulkEntry) : Prop :=
  e.semantic < 2 ^ 32 ∧ e.subIndex < 2 ^ 32 ∧ e.chunkOffset < 2 ^ 64 ∧
  e.sizeCompressed < 2 ^ 64 ∧ e.sizeUncompressed < 2 ^ 64 ∧
  e.compression < 2 ^ 8 ∧ e.reserved0.length = 7 ∧ e.hashHi < 2 ^ 64 ∧ e.hashLo < 2 ^ 64

instance (e : BulkEntry) : Decidable e.WF := by unfold BulkEntry.WF; infer_instance

/-- `SnPakChunkHeaderV1` (80 bytes). -/
structure ChunkHeader where
  magic : Bytes
  version : Nat
  assetId : Bytes
  payloadType : Bytes
  schemaVersion : Nat
  compression : Nat
  chunkKind : Nat
  reserved0 : Nat
  sizeCompressed : Nat
  sizeUncompressed : Nat
  hashHi : Nat
  hashLo : Nat
  deriving Repr, DecidableEq

def encChunkHeader (h : ChunkHeader) : Bytes :=
  h.magic ++ (encLE h.version 4 ++ (h.assetId ++ (h.payloadType ++
  (encLE h.schemaVersion 4 ++ (encLE h.compression 1 ++ (encLE h.chunkKind 1 ++
  (encLE h.reserved0 2 ++ (encLE h.sizeCompressed 8 ++ (encLE h.sizeUncompressed 8 ++
  (encLE h.hashHi 8 ++ encLE h.hashLo 8))))))))))

def parseChunkHeader (l : Bytes) : ChunkHeader :=
  let (magic, l) := pB 4 l
  let (version, l) := pN 4 l
  let (assetId, l) := pB 16 l
  let (payloadType, l) := pB 16 l
  let (schemaVersion, l) := pN 4 l
  let (compression, l) := pN 1 l
  let (chunkKind, l) := pN 1 l
  let (reserved0, l) := pN 2 l
  let (sizeCompressed, l) := pN 8 l
  let (sizeUncompressed, l) := pN 8 l
  let (hashHi, l) := pN 8 l
  let (hashLo, _) := pN 8 l
  { magic, version, assetId, payloadType, schemaVersion, compression,
    chunkKind, reserved0, sizeCompressed, sizeUncompressed, hashHi, hashLo }

def ChunkHeader.WF (h : ChunkHeader) : Prop :=
  h.magic.length = 4 ∧ h.version < 2 ^ 32 ∧ h.assetId.length = 16 ∧
  h.payloadType.length = 16 ∧ h.schemaVersion < 2 ^ 32 ∧ h.compression < 2 ^ 8 ∧
  h.chunkKind < 2 ^ 8 ∧ h.reserved0 < 2 ^ 16 ∧ h.sizeCompressed < 2 ^ 64 ∧
  h.sizeUncompressed < 2 ^ 64 ∧ h.hashHi < 2 ^ 64 ∧ h.hashLo < 2 ^ 64

instance (h : ChunkHeader) : Decidable h.WF := by unfold ChunkHeader.WF; infer_instance

/-! ## External collaborators: hashing and compression

xxhash and LZ4/Zstd are third-party libraries, not repository code.  They
are modelled as abstract deterministic functions; the only contracts the
repository relies on are determinism (a pure function), the 64-bit output
range, and the compression round-trip. -/

/-- Model of XXH3-64 / XXH3-128 (`xxhash`, external). -/
structure HashModel where
  h64 : Bytes → Nat
  h128hi : Bytes → Nat
  h128lo : Bytes → Nat
  h64_lt : ∀ b, h64 b < 2 ^ 64
  h128hi_lt : ∀ b, h128hi b < 2 ^ 64
  h128lo_lt : ∀ b, h128lo b < 2 ^ 64

/-- Model of the configured compression codec.  `mode` is the stored
`ESnPakCompression` byte (0 = None); `compressBody` is the non-trivial
branch of `Pack::Compress` for that mode, `decompressD m` is
`Pack::Decompress` dispatched on a stored mode byte `m ≠ 0`
(`none` models a thrown codec error).  `roundtrip`/`roundtrip_empty`
are the external library's decompress-of-compress contract for exactly
the byte strings the writer stores. -/
structure CodecModel where
  mode : Nat
  level : Nat
  compressBody : Bytes → Bytes
  decompressD : Nat → Bytes → Nat → Option Bytes
  mode_lt : mode < 2 ^ 8
  level_lt : level < 2 ^ 8
  roundtrip : ∀ b, b ≠ [] → decompressD mode (compressBody b) b.length = some b
  roundtrip_empty : decompressD mode [] 0 = some []

/-- `Pack::Compress` (`src/src/Pack/Compression.cpp`): mode `None` or a
zero-length input short-circuits to a plain copy. -/
def compressWithMode (c : CodecModel) (m : Nat) (b : Bytes) : Bytes :=
  if m = 0 ∨ b.length = 0 then b else c.compressBody b

/-- The writer's `m_Impl->CompressData` (configured mode). -/
def packCompress (c : CodecModel) (b : Bytes) : Bytes :=
  compressWithMode c c.mode b

/-! ## Writer-side data model (`src/include/AssetPackWriter.h`,
`src/include/IAssetCooker.h`, `src/include/TypedPayload.h`)

`TypedPayload Cooked` is flattened into the three `cooked*` fields.
`BulkChunk.subIndex` is the authored value; `Write` overwrites it with the
array position (`BulkEntry.SubIndex = BulkIdx`).  The per-chunk
`CompressionOverride`/`CompressionLevelOverride` optionals are ignored by
the writer (as in the source) and omitted. -/

structure BulkChunk where
  semantic : Nat
  subIndex : Nat
  bCompress : Bool
  bytes : Bytes
  deriving Repr, DecidableEq

structure AssetPackEntry where
  id : Bytes
  assetKind : Bytes
  name : Bytes
  variantKey : Bytes
  cookedPayloadType : Bytes
  cookedSchemaVersion : Nat
  cookedBytes : Bytes
  bulk : List BulkChunk
  deriving Repr, DecidableEq

/-! ## The writer (`src/src/Pack/AssetPackWriter.cpp`) -/

/-- The string-table `AddString` lambda: dedup by exact content, dense
first-seen ids. -/
def addString (tbl : List Bytes) (s : Bytes) : List Bytes :=
  if s ∈ tbl then tbl else tbl ++ [s]

/-- String-collection loop over queued assets: `AddString(Name)`, then
`AddString(VariantKey)` when the variant key is non-empty. -/
def collectStrings (assets : List AssetPackEntry) : List Bytes :=
  assets.foldl
    (fun tbl a =>
      let tbl := addString tbl a.name
      if a.variantKey ≠ [] then addString tbl a.variantKey else tbl)
    []

/-- The `GetStringId` lookup (first index of `s`); the source throws on a
miss, which is unreachable after the collection loop, so the model returns
the out-of-table index `tbl.length` there. -/
def strId : List Bytes → Bytes → Nat
  | [], _ => 0
  | t :: ts, s => if t = s then 0 else strId ts s + 1

def catBytes (ls : List Bytes) : Bytes := ls.foldr (· ++ ·) []

/-- Offset array of `Impl::BuildStringTableBlock`: running sums of
`len + 1` (NUL terminators included). -/
def strOffsets : List Bytes → Nat → List Nat
  | [], _ => []
  | s :: ss, acc => acc :: strOffsets ss (acc + (s.length + 1))

/-- The string-block header `Impl::BuildStringTableBlock` serializes. -/
def strHeaderOf (H : HashModel) (tbl : List Bytes) : StrHeader :=
  { magic := kStringMagic, version := 1,
    blockSize := 40 + 4 * tbl.length + (catBytes (tbl.map (· ++ [0]))).length,
    stringCount := tbl.length, reserved0 := 0,
    hashHi := H.h128hi (catBytes (tbl.map (· ++ [0]))),
    hashLo := H.h128lo (catBytes (tbl.map (· ++ [0]))) }

/-- `Impl::BuildStringTableBlock`: 40-byte header, u32 offset array,
NUL-terminated string data; the block hash covers the string data only. -/
def buildStringBlock (H : HashModel) (tbl : List Bytes) : Bytes :=
  encStrHeader (strHeaderOf H tbl) ++ catBytes ((strOffsets tbl 0).map (encLE · 4)) ++
    catBytes (tbl.map (· ++ [0]))

/-- The index header `Impl::BuildIndexBlock` serializes. -/
def idxHeaderOf (H : HashModel) (entries : List IdxEntry) (bulks : List BulkEntry)
    (prevOff prevSize : Nat) : IdxHeader :=
  { magic := kIndexMagic, version := 1,
    blockSize := 88 + entries.length * 128 + bulks.length * 56,
    entryCount := entries.length, bulkEntryCount := bulks.length,
    entriesHashHi := H.h128hi (catBytes (entries.map encIdxEntry) ++
      catBytes (bulks.map encBulkEntry)),
    entriesHashLo := H.h128lo (catBytes (entries.map encIdxEntry) ++
      catBytes (bulks.map encBulkEntry)),
    previousIndexOffset := prevOff, previousIndexSize := prevSize,
    reserved := List.replicate 32 0 }

/-- `Impl::BuildIndexBlock`: 88-byte header, dense entry array, dense bulk
array; `EntriesHash` covers the two arrays (header excluded). -/
def buildIndexBlock (H : HashModel) (entries : List IdxEntry) (bulks : List BulkEntry)
    (prevOff prevSize : Nat) : Bytes :=
  encIdxHeader (idxHeaderOf H entries bulks prevOff prevSize) ++
    catBytes (entries.map encIdxEntry) ++ catBytes (bulks.map encBulkEntry)

/-- Effective compression mode of a bulk chunk (`bCompress ? Compression : None`). -/
def bulkMode (c : CodecModel) (bc : Bool) : Nat := if bc then c.mode else 0

/-- Effective compression level of a bulk chunk. -/
def bulkLevel (c : CodecModel) (bc : Bool) : Nat := if bc then c.level else 0

def bulkCompressed (c : CodecModel) (b : BulkChunk) : Bytes :=
  compressWithMode c (bulkMode c b.bCompress) b.bytes

/-- The main-payload `SnPakChunkHeaderV1` the writer emits for an asset. -/
def payloadChunkHeaderOf (c : CodecModel) (H : HashModel) (a : AssetPackEntry) : ChunkHeader :=
  { magic := kChunkMagic, version := 1, assetId := a.id,
    payloadType := a.cookedPayloadType, schemaVersion := a.cookedSchemaVersion,
    compression := c.mode, chunkKind := 0, reserved0 := c.level,
    sizeCompressed := (packCompress c a.cookedBytes).length,
    sizeUncompressed := a.cookedBytes.length,
    hashHi := H.h128hi a.cookedBytes, hashLo := H.h128lo a.cookedBytes }

/-- The bulk `SnPakChunkHeaderV1` (same AssetId and PayloadType as the
parent asset, `SchemaVersion = 0`, `ChunkKind = Bulk`). -/
def bulkChunkHeaderOf (c : CodecModel) (H : HashModel) (a : AssetPackEntry)
    (b : BulkChunk) : ChunkHeader :=
  { magic := kChunkMagic, version := 1, assetId := a.id,
    payloadType := a.cookedPayloadType, schemaVersion := 0,
    compression := bulkMode c b.bCompress, chunkKind := 1,
    reserved0 := bulkLevel c b.bCompress,
    sizeCompressed := (bulkCompressed c b).length,
    sizeUncompressed := b.bytes.length,
    hashHi := H.h128hi b.bytes, hashLo := H.h128lo b.bytes }

/-- The `SnPakIndexEntryV1` the writer records for an asset whose payload
chunk starts at `off` and whose bulk entries start at global index
`bulkStart`. -/
def mkIndexEntry (c : CodecModel) (H : HashModel) (tbl : List Bytes)
    (a : AssetPackEntry) (off bulkStart : Nat) : IdxEntry :=
  { assetId := a.id, assetKind := a.assetKind,
    cookedPayloadType := a.cookedPayloadType,
    cookedSchemaVersion := a.cookedSchemaVersion,
    nameStringId := strId tbl a.name, nameHash64 := H.h64 a.name,
    variantStringId := if a.variantKey ≠ [] then strId tbl a.variantKey else kVariantNone,
    variantHash64 := if a.variantKey ≠ [] then H.h64 a.variantKey else 0,
    payloadChunkOffset := off,
    payloadChunkSizeCompressed := 80 + (packCompress c a.cookedBytes).length,
    payloadChunkSizeUncompressed := a.cookedBytes.length,
    compression := c.mode,
    flags := if a.bulk ≠ [] then kFlagHasBulk else 0,
    reserved0 := c.level,
    bulkFirstIndex := if a.bulk ≠ [] then bulkStart else 0,
    bulkCount := if a.bulk ≠ [] then a.bulk.length else 0,
    payloadHashHi := H.h128hi a.cookedBytes, payloadHashLo := H.h128lo a.cookedBytes }

/-- The `SnPakBulkEntryV1` for bulk chunk `b` at array position `i`, chunk
at file offset `off`.  `SubIndex` is forced to the array position
(`BulkEntry.SubIndex = BulkIdx`); the compression level is stored in the
first reserved byte. -/
def mkBulkEntry (c : CodecModel) (H : HashModel) (b : BulkChunk)
    (i off : Nat) : BulkEntry :=
  { semantic := b.semantic, subIndex := i, chunkOffset := off,
    sizeCompressed := 80 + (bulkCompressed c b).length,
    sizeUncompressed := b.bytes.length,
    compression := bulkMode c b.bCompress,
    reserved0 := bulkLevel c b.bCompress :: List.replicate 6 0,
    hashHi := H.h128hi b.bytes, hashLo := H.h128lo b.bytes }

/-- Byte footprint of an asset's bulk chunks (`sizeof(ChunkHeader) +
compressed size` each, as `CurrentOffset` advances). -/
def bulkSizes (c : CodecModel) (bs : List BulkChunk) : Nat :=
  (bs.map (fun b => 80 + (bulkCompressed c b).length)).sum

/-- Byte footprint of an asset (payload chunk plus bulk chunks). -/
def assetSize (c : CodecModel) (a : AssetPackEntry) : Nat :=
  80 + (packCompress c a.cookedBytes).length + bulkSizes c a.bulk

/-- Bulk-chunk emission loop: chunk bytes plus bulk entries, threading the
array position `i` and the file offset `off`. -/
def writeBulks (c : CodecModel) (H : HashModel) (a : AssetPackEntry) :
    List BulkChunk → Nat → Nat → Bytes × List BulkEntry
  | [], _, _ => ([], [])
  | b :: rest, i, off =>
    let comp := bulkCompressed c b
    let chunk := encChunkHeader (bulkChunkHeaderOf c H a b) ++ comp
    let (tailBytes, tailEntries) := writeBulks c H a rest (i + 1) (off + (80 + comp.length))
    (chunk ++ tailBytes, mkBulkEntry c H b i off :: tailEntries)

/-- Main writer loop over queued assets: chunk bytes, index entries and
bulk entries, threading `CurrentOffset` and `BulkEntries.size()`. -/
def writeAssets (c : CodecModel) (H : HashModel) (tbl : List Bytes) :
    List AssetPackEntry → Nat → Nat → Bytes × List IdxEntry × List BulkEntry
  | [], _, _ => ([], [], [])
  | a :: rest, off, bulkAcc =>
    let comp := packCompress c a.cookedBytes
    let payload := encChunkHeader (payloadChunkHeaderOf c H a) ++ comp
    let (bulkBytes, bulkEs) := writeBulks c H a a.bulk 0 (off + (80 + comp.length))
    let (restBytes, restIdx, restBulk) :=
      writeAssets c H tbl rest (off + assetSize c a) (bulkAcc + a.bulk.length)
    (payload ++ bulkBytes ++ restBytes,
     mkIndexEntry c H tbl a off bulkAcc :: restIdx,
     bulkEs ++ restBulk)

/-- The pack header `Write` emits (fresh write: no previous index, zero
flags, zero type table). -/
def freshHeader (H : HashModel) (strBlockLen chunksLen indexLen : Nat)
    (indexBlock : Bytes) : PakHeader :=
  { magic := kSnPakMagic, version := kSnPakVersion, headerSize := 180,
    endianMarker := kEndianMarker,
    fileSize := 180 + strBlockLen + chunksLen + indexLen,
    indexOffset := 180 + strBlockLen + chunksLen, indexSize := indexLen,
    stringTableOffset := 180, stringTableSize := strBlockLen,
    typeTableOffset := 0, typeTableSize := 0,
    indexHashHi := H.h128hi indexBlock, indexHashLo := H.h128lo indexBlock,
    flags := 0, reserved0 := 0,
    previousIndexOffset := 0, previousIndexSize := 0,
    reserved := List.replicate 64 0 }

/-- `AssetPackWriter::Write`: header, string block, chunks, index block.
File-system plumbing (temp file, atomic rename) is outside the model; the
result is the byte content of the produced pack. -/
def snWrite (c : CodecModel) (H : HashModel) (assets : List AssetPackEntry) : Bytes :=
  let tbl := collectStrings assets
  let strBlock := buildStringBlock H tbl
  let (chunkBytes, entries, bulks) := writeAssets c H tbl assets (180 + strBlock.length) 0
  let indexBlock := buildIndexBlock H entries bulks 0 0
  let hdr := freshHeader H strBlock.length chunkBytes.length indexBlock.length indexBlock
  encPakHeader hdr ++ strBlock ++ chunkBytes ++ indexBlock

/-! ## The reader (`src/src/Pack/AssetPackReader.cpp`)

The reader's file accesses (the `Open`-time stream and the per-chunk
private streams) all target the same on-disk file; the model carries the
file's byte content in the reader state. -/

instance : Inhabited IdxEntry :=
  ⟨{ assetId := [], assetKind := [], cookedPayloadType := [], cookedSchemaVersion := 0,
     nameStringId := 0, nameHash64 := 0, variantStringId := 0, variantHash64 := 0,
     payloadChunkOffset := 0, payloadChunkSizeCompressed := 0,
     payloadChunkSizeUncompressed := 0, compression := 0, flags := 0, reserved0 := 0,
     bulkFirstIndex := 0, bulkCount := 0, payloadHashHi := 0, payloadHashLo := 0 }⟩

instance : Inhabited BulkEntry :=
  ⟨{ semantic := 0, subIndex := 0, chunkOffset := 0, sizeCompressed := 0,
     sizeUncompressed := 0, compression := 0, reserved0 := [], hashHi := 0, hashLo := 0 }⟩

def kMaxStringCount : Nat := 10000000
def kMaxBlockSize : Nat := 1000000000
def kMaxEntryCount : Nat := 10000000
def kMaxBulkEntryCount : Nat := 100000000

/-- `Impl::CheckRange`: every offset/size pair is validated against the
authoritative (validated) file size, with the C++ unsigned-subtraction
overflow guard. -/
def checkRange (v off size : Nat) : Bool :=
  if size > v then false
  else if off > v - size then false
  else true

/-- `Impl::ReadExact` from a known stream position: succeeds iff the read
stays within the file. -/
def readExact (f : Bytes) (off n : Nat) : Option Bytes :=
  if off + n ≤ f.length then some ((f.drop off).take n) else none

/-- `Impl::SeekAndReadExact`: bounds check, then seek + exact read. -/
def seekAndReadExact (f : Bytes) (v off n : Nat) : Option Bytes :=
  if checkRange v off n then readExact f off n else none

/-- Parse `n` consecutive u32 values (the string-table offset array). -/
def parseU32sN : Nat → Bytes → List Nat
  | 0, _ => []
  | n + 1, l => decLE l 4 :: parseU32sN n (l.drop 4)

/-- Parse `n` consecutive 128-byte index entries. -/
def parseEntriesN : Nat → Bytes → List IdxEntry
  | 0, _ => []
  | n + 1, l => parseIdxEntry l :: parseEntriesN n (l.drop 128)

/-- Parse `n` consecutive 56-byte bulk entries. -/
def parseBulksN : Nat → Bytes → List BulkEntry
  | 0, _ => []
  | n + 1, l => parseBulkEntry l :: parseBulksN n (l.drop 56)

/-- Per-string parsing loop of `Impl::ReadStringTable`: each offset must be
inside the string data and a NUL terminator must exist in the remaining
bytes (`memchr`); the string is taken up to that terminator. -/
def parseStrings (data : Bytes) : List Nat → Except String (List Bytes)
  | [] => .ok []
  | off :: rest =>
    if off ≥ data.length then .error "String offset out of bounds"
    else if (data.drop off).findIdx (· = 0) = (data.drop off).length then
      .error "String missing null terminator"
    else
      match parseStrings data rest with
      | .error e => .error e
      | .ok tl => .ok ((data.drop off).take ((data.drop off).findIdx (· = 0)) :: tl)

/-- `Impl::ReadStringTable`. -/
def readStringTable (H : HashModel) (f : Bytes) (v : Nat) (hdr : PakHeader) :
    Except String (List Bytes) :=
  if ¬ checkRange v hdr.stringTableOffset hdr.stringTableSize then
    .error "String table offset/size exceeds file bounds"
  else if hdr.stringTableSize < 40 then .error "String table size too small for header"
  else
    match seekAndReadExact f v hdr.stringTableOffset 40 with
    | none => .error "Failed to read string table header"
    | some hb =>
      let sh := parseStrHeader hb
      if sh.magic ≠ kStringMagic then .error "Invalid string table magic"
      else if sh.version ≠ 1 then .error "Unsupported string table version"
      else if sh.blockSize ≠ hdr.stringTableSize then
        .error "String table BlockSize mismatch with header"
      else if sh.stringCount > kMaxStringCount then .error "String count exceeds sanity limit"
      else if sh.blockSize < 40 + 4 * sh.stringCount then
        .error "String table BlockSize too small for offset array"
      else if ¬ checkRange v hdr.stringTableOffset sh.blockSize then
        .error "String table block exceeds file bounds"
      else
        match readExact f (hdr.stringTableOffset + 40) (4 * sh.stringCount) with
        | none => .error "Failed to read string table offsets"
        | some offBytes =>
          let offsets := parseU32sN sh.stringCount offBytes
          let dataSize := sh.blockSize - 40 - 4 * sh.stringCount
          match readExact f (hdr.stringTableOffset + 40 + 4 * sh.stringCount) dataSize with
          | none => .error "Failed to read string data"
          | some data =>
            if H.h128hi data ≠ sh.hashHi ∨ H.h128lo data ≠ sh.hashLo then
              .error "String table hash mismatch - data corrupted"
            else parseStrings data offsets

/-- `Impl::ReadIndex`: returns the parsed entries and bulk entries.  Both
hashes are recomputed over the raw bytes that were read (the streaming
hash feeds the in-memory packed structs, which are exactly those bytes). -/
def readIndex (H : HashModel) (f : Bytes) (v : Nat) (hdr : PakHeader) :
    Except String (List IdxEntry × List BulkEntry) :=
  if ¬ checkRange v hdr.indexOffset hdr.indexSize then
    .error "Index offset/size exceeds file bounds"
  else if hdr.indexSize < 88 then .error "Index size too small for header"
  else
    match seekAndReadExact f v hdr.indexOffset 88 with
    | none => .error "Failed to read index header"
    | some hb =>
      let ih := parseIdxHeader hb
      if ih.magic ≠ kIndexMagic then .error "Invalid index magic"
      else if ih.version ≠ 1 then .error "Unsupported index version"
      else if ih.blockSize ≠ hdr.indexSize then .error "Index BlockSize mismatch with header"
      else if ih.entryCount > kMaxEntryCount then .error "Entry count exceeds sanity limit"
      else if ih.bulkEntryCount > kMaxBulkEntryCount then
        .error "Bulk entry count exceeds sanity limit"
      else if ih.blockSize ≠ 88 + ih.entryCount * 128 + ih.bulkEntryCount * 56 then
        .error "Index BlockSize does not match expected size for entry counts"
      else if ¬ checkRange v hdr.indexOffset ih.blockSize then
        .error "Index block exceeds file bounds"
      else
        match readExact f (hdr.indexOffset + 88) (ih.entryCount * 128) with
        | none => .error "Failed to read index entries"
        | some entriesBytes =>
          match readExact f (hdr.indexOffset + 88 + ih.entryCount * 128)
              (ih.bulkEntryCount * 56) with
          | none => .error "Failed to read bulk entries"
          | some bulkBytes =>
            if H.h128hi (entriesBytes ++ bulkBytes) ≠ ih.entriesHashHi ∨
                H.h128lo (entriesBytes ++ bulkBytes) ≠ ih.entriesHashLo then
              .error "Index entries hash mismatch - data corrupted"
            else if H.h128hi (hb ++ entriesBytes ++ bulkBytes) ≠ hdr.indexHashHi ∨
                H.h128lo (hb ++ entriesBytes ++ bulkBytes) ≠ hdr.indexHashLo then
              .error "Index block hash mismatch with header - data corrupted"
            else
              .ok (parseEntriesN ih.entryCount entriesBytes,
                   parseBulksN ih.bulkEntryCount bulkBytes)

/-- The `AssetIdToIndex` lookup.  `unordered_map` assignment in the build
loop means a later entry with the same id overwrites an earlier one. -/
def idLookupFrom (i : Nat) : List IdxEntry → Bytes → Option Nat
  | [], _ => none
  | e :: rest, id =>
    match idLookupFrom (i + 1) rest id with
    | some j => some j
    | none => if e.assetId = id then some i else none

def idLookup (entries : List IdxEntry) (id : Bytes) : Option Nat :=
  idLookupFrom 0 entries id

structure ReaderState where
  file : Bytes
  header : PakHeader
  stringTable : List Bytes
  indexEntries : List IdxEntry
  bulkEntries : List BulkEntry
  validatedFileSize : Nat

/-- `AssetPackReader::Open`. -/
def snOpen (H : HashModel) (f : Bytes) : Except String ReaderState :=
  if f.length < 180 then .error "File too small to contain header"
  else
    match readExact f 0 180 with
    | none => .error "Failed to read pack header"
    | some hb =>
      let hdr := parsePakHeader hb
      if hdr.magic ≠ kSnPakMagic then .error "Invalid pack file magic"
      else if hdr.version ≠ kSnPakVersion then .error "Unsupported pack version"
      else if hdr.headerSize ≠ 180 then .error "Header size mismatch"
      else if hdr.endianMarker ≠ kEndianMarker then .error "Endian mismatch"
      else if hdr.fileSize > f.length then .error "Header FileSize exceeds actual file size"
      else
        match readStringTable H f hdr.fileSize hdr with
        | .error e => .error ("Failed to read string table: " ++ e)
        | .ok tbl =>
          match readIndex H f hdr.fileSize hdr with
          | .error e => .error ("Failed to read index: " ++ e)
          | .ok (entries, bulks) =>
            .ok ⟨f, hdr, tbl, entries, bulks, hdr.fileSize⟩

/-- Reader-side `AssetInfo` (`src/include/AssetPackReader.h`). -/
structure AssetInfo where
  id : Bytes
  assetKind : Bytes
  cookedPayloadType : Bytes
  schemaVersion : Nat
  name : Bytes
  variantKey : Bytes
  bulkChunkCount : Nat
  deriving Repr, DecidableEq

/-- `TypedPayload` as returned by `LoadCookedPayload`. -/
structure TypedPayload where
  payloadType : Bytes
  schemaVersion : Nat
  bytes : Bytes
  deriving Repr, DecidableEq

def getAssetCount (st : ReaderState) : Nat := st.indexEntries.length

/-- `AssetPackReader::GetAssetInfo`: out-of-range string ids leave the
default-constructed (empty) `Name`/`VariantKey`. -/
def getAssetInfo (st : ReaderState) (i : Nat) : Except String AssetInfo :=
  if i ≥ st.indexEntries.length then .error "Index out of range"
  else
    let e := st.indexEntries.getD i default
    .ok { id := e.assetId, assetKind := e.assetKind,
          cookedPayloadType := e.cookedPayloadType,
          schemaVersion := e.cookedSchemaVersion,
          name :=
            if e.nameStringId < st.stringTable.length then
              st.stringTable.getD e.nameStringId []
            else [],
          variantKey :=
            if e.variantStringId ≠ kVariantNone ∧ e.variantStringId < st.stringTable.length then
              st.stringTable.getD e.variantStringId []
            else [],
          bulkChunkCount := e.bulkCount }

/-- `AssetPackReader::FindAsset`. -/
def findAsset (st : ReaderState) (id : Bytes) : Except String AssetInfo :=
  match idLookup st.indexEntries id with
  | none => .error "Asset not found"
  | some i => getAssetInfo st i

/-- `Impl::LoadChunk`: bounds check, chunk-header read, identity checks
against the index entry / bulk entry / parent asset id, decompression (or
direct read for mode `None`), and the decompressed-payload hash check. -/
def loadChunk (c : CodecModel) (H : HashModel) (st : ReaderState)
    (off totalSize usize : Nat) (expectedEntry : Option IdxEntry)
    (expectedBulk : Option BulkEntry) (expectedBulkAssetId : Option Bytes) :
    Except String Bytes :=
  if ¬ checkRange st.validatedFileSize off totalSize then
    .error "Chunk offset/size exceeds file bounds"
  else if totalSize < 80 then .error "Chunk total size too small for header"
  else
    match seekAndReadExact st.file st.validatedFileSize off 80 with
    | none => .error "Failed to read chunk header"
    | some chb =>
      let ch := parseChunkHeader chb
      if ch.magic ≠ kChunkMagic then .error "Invalid chunk magic"
      else if ch.version ≠ 1 then .error "Unsupported chunk version"
      else if ch.sizeUncompressed ≠ usize then
        .error "Chunk uncompressed size mismatch with index"
      else if ch.sizeCompressed ≠ totalSize - 80 then
        .error "Chunk compressed size mismatch with index"
      else if ch.sizeCompressed > kMaxBlockSize then
        .error "Chunk compressed size exceeds sanity limit"
      else if ch.sizeUncompressed > kMaxBlockSize then
        .error "Chunk uncompressed size exceeds sanity limit"
      else if (match expectedEntry with
               | some e =>
                 ch.chunkKind != 0 || ch.assetId != e.assetId ||
                 ch.payloadType != e.cookedPayloadType ||
                 ch.schemaVersion != e.cookedSchemaVersion ||
                 ch.compression != e.compression
               | none => false) then
        .error "Chunk identity mismatch with index entry"
      else if (match expectedBulk with
               | some be =>
                 ch.chunkKind != 1 || ch.compression != be.compression ||
                 (match expectedBulkAssetId with
                  | some aid => ch.assetId != aid
                  | none => false)
               | none => false) then
        .error "Bulk chunk identity mismatch"
      else if ch.compression = 0 then
        if ch.sizeCompressed ≠ ch.sizeUncompressed then
          .error "Uncompressed chunk has mismatched sizes"
        else
          match readExact st.file (off + 80) ch.sizeUncompressed with
          | none => .error "Failed to read chunk data"
          | some out =>
            if H.h128hi out ≠ ch.hashHi ∨ H.h128lo out ≠ ch.hashLo then
              .error "Chunk hash mismatch - data corrupted"
            else .ok out
      else
        match readExact st.file (off + 80) ch.sizeCompressed with
        | none => .error "Failed to read chunk compressed data"
        | some compData =>
          match c.decompressD ch.compression compData ch.sizeUncompressed with
          | none => .error "Decompression failed"
          | some out =>
            if H.h128hi out ≠ ch.hashHi ∨ H.h128lo out ≠ ch.hashLo then
              .error "Chunk hash mismatch - data corrupted"
            else .ok out

/-- `AssetPackReader::LoadCookedPayload`. -/
def loadCookedPayload (c : CodecModel) (H : HashModel) (st : ReaderState)
    (id : Bytes) : Except String TypedPayload :=
  match idLookup st.indexEntries id with
  | none => .error "Asset not found"
  | some i =>
    let e := st.indexEntries.getD i default
    match loadChunk c H st e.payloadChunkOffset e.payloadChunkSizeCompressed
        e.payloadChunkSizeUncompressed (some e) none none with
    | .error err => .error err
    | .ok bytes =>
      .ok { payloadType := e.cookedPayloadType,
            schemaVersion := e.cookedSchemaVersion, bytes := bytes }

/-- `AssetPackReader::LoadBulkChunk`.  Bit 0 of the entry flags is
`IndexEntryFlag_HasBulk`. -/
def loadBulkChunk (c : CodecModel) (H : HashModel) (st : ReaderState)
    (id : Bytes) (bulkIndex : Nat) : Except String Bytes :=
  match idLookup st.indexEntries id with
  | none => .error "Asset not found"
  | some i =>
    let e := st.indexEntries.getD i default
    if e.flags % 2 = 0 ∨ bulkIndex ≥ e.bulkCount then
      .error "Bulk chunk index out of range"
    else
      let g := e.bulkFirstIndex + bulkIndex
      if g ≥ st.bulkEntries.length then .error "Invalid bulk entry index"
      else
        let be := st.bulkEntries.getD g default
        if be.subIndex ≠ bulkIndex then .error "Bulk SubIndex mismatch"
        else
          loadChunk c H st be.chunkOffset be.sizeCompressed be.sizeUncompressed
            none (some be) (some e.assetId)

/-! ## Append-update (`AssetPackWriter::AppendUpdate`,
`src/src/Pack/AssetPackWriter.cpp:412-657`) -/

/-- A positioned `fstream` write: replace `d.length` bytes at `off`
(extending the file when writing at its end). -/
def writeAt (f : Bytes) (off : Nat) (d : Bytes) : Bytes :=
  f.take off ++ d ++ f.drop (off + d.length)

/-- `AssetPackWriter::AppendUpdate` on an existing pack file `old`:
validate the old header (magic, version, header size, endian marker, file
size), then seek to the end and append the new string block, the new
chunks and the new index block (which references the old index), and
finally rewrite the 180-byte header in place at offset 0.  The
missing-file fallback to `Write` is filesystem plumbing outside the
model. -/
def snAppendUpdate (c : CodecModel) (H : HashModel) (assets : List AssetPackEntry)
    (old : Bytes) : Except String Bytes :=
  match readExact old 0 180 with
  | none => .error "Failed to read existing pack header"
  | some hb =>
    let oldHdr := parsePakHeader hb
    if oldHdr.magic ≠ kSnPakMagic then .error "Invalid pack file magic"
    else if oldHdr.version ≠ kSnPakVersion then .error "Pack version mismatch"
    else if oldHdr.headerSize ≠ 180 then
      .error "Header size mismatch - pack may be from incompatible version"
    else if oldHdr.endianMarker ≠ kEndianMarker then
      .error "Endian mismatch - pack was created on different architecture"
    else if oldHdr.fileSize > old.length then
      .error "Header FileSize exceeds actual file size - pack may be truncated"
    else
      let tbl := collectStrings assets
      let strBlock := buildStringBlock H tbl
      let f1 := writeAt old old.length strBlock
      let (chunkBytes, entries, bulks) :=
        writeAssets c H tbl assets (old.length + strBlock.length) 0
      let f2 := writeAt f1 f1.length chunkBytes
      let newIndexOffset := old.length + strBlock.length + chunkBytes.length
      let indexBlock := buildIndexBlock H entries bulks oldHdr.indexOffset oldHdr.indexSize
      let f3 := writeAt f2 f2.length indexBlock
      let newHdr : PakHeader :=
        { oldHdr with
          fileSize := newIndexOffset + indexBlock.length
          indexOffset := newIndexOffset
          indexSize := indexBlock.length
          stringTableOffset := old.length
          stringTableSize := strBlock.length
          indexHashHi := H.h128hi indexBlock
          indexHashLo := H.h128lo indexBlock
          flags := oldHdr.flags ||| kFlagHasTrailingIndex
          previousIndexOffset := oldHdr.indexOffset
          previousIndexSize := oldHdr.indexSize }
      .ok (writeAt f3 0 (encPakHeader newHdr))

/-! ## Well-formedness of authored assets

In C++ these hold by construction (`AssetId`/`TypeId` are 16-byte arrays,
schema versions and semantics are 32-bit); the byte-list model carries
them as predicates. -/

instance : Inhabited AssetPackEntry :=
  ⟨{ id := [], assetKind := [], name := [], variantKey := [],
     cookedPayloadType := [], cookedSchemaVersion := 0, cookedBytes := [], bulk := [] }⟩

/-- Structural well-formedness of an authoring record, plus NUL-free
names/variant keys (an interior NUL would be truncated by the reader's
`memchr`-based string parsing). -/
def AssetPackEntry.WF (a : AssetPackEntry) : Prop :=
  a.id.length = 16 ∧ a.assetKind.length = 16 ∧ a.cookedPayloadType.length = 16 ∧
  a.cookedSchemaVersion < 2 ^ 32 ∧
  (∀ b ∈ a.name, b ≠ 0) ∧ (∀ b ∈ a.variantKey, b ≠ 0) ∧
  (∀ bc ∈ a.bulk, bc.semantic < 2 ^ 32)

instance (a : AssetPackEntry) : Decidable a.WF := by
  unfold AssetPackEntry.WF; infer_instance

/-- The reader's chunk-size sanity caps (`kMaxBlockSize`), which the
asset's payload and bulk data must respect for loads to succeed. -/
def sizeCaps (c : CodecModel) (a : AssetPackEntry) : Prop :=
  (packCompress c a.cookedBytes).length ≤ kMaxBlockSize ∧
  a.cookedBytes.length ≤ kMaxBlockSize ∧
  ∀ bc ∈ a.bulk, (bulkCompressed c bc).length ≤ kMaxBlockSize ∧
    bc.bytes.length ≤ kMaxBlockSize

instance (c : CodecModel) (a : AssetPackEntry) : Decidable (sizeCaps c a) := by
  unfold sizeCaps; infer_instance

/-- Total bulk-chunk count over the queued assets. -/
def totalBulk (assets : List AssetPackEntry) : Nat :=
  (assets.map (fun a => a.bulk.length)).sum

/-- Byte length of the NUL-terminated string data of a table. -/
def strDataLen (tbl : List Bytes) : Nat :=
  (tbl.map (fun s => s.length + 1)).sum

/-- The bulk-chunk bytes one asset contributes.  The array position and
file offset the emission loop threads only affect the recorded entries,
not the bytes, so they are fixed at zero here. -/
def bulkBytesOf (c : CodecModel) (H : HashModel) (a : AssetPackEntry) : Bytes :=
  (writeBulks c H a a.bulk 0 0).1

/-- The full byte segment `Write` emits for one asset: the payload chunk
(header plus compressed payload) followed by its bulk chunks. -/
def assetBytes (c : CodecModel) (H : HashModel) (a : AssetPackEntry) : Bytes :=
  encChunkHeader (payloadChunkHeaderOf c H a) ++ packCompress c a.cookedBytes ++
    bulkBytesOf c H a

end SnPak

namespace AsyncLoad

/-! ## Cancellation tokens (`src/include/AsyncLoader.h`,
`src/src/Runtime/AsyncLoader.cpp`)

A `CancellationToken` owns a `shared_ptr<atomic<bool>>`; the shared cells
are modelled as a world (`List Bool`) and a token as a cell index.
`CreateLinked` constructs a fresh token and cancels it immediately when
either parent is already cancelled; the token it returns keeps no parent
references (the source's documented limitation). -/

/-- `CancellationToken()` — allocate a fresh `atomic<bool>{false}` cell. -/
def ctNew (w : List Bool) : List Bool × Nat := (w ++ [false], w.length)

/-- `Cancel()` — `m_Cancelled->store(true)`. -/
def ctCancel (w : List Bool) (t : Nat) : List Bool := w.set t true

/-- `IsCancelled()` — `m_Cancelled->load()`. -/
def ctIsCancelled (w : List Bool) (t : Nat) : Bool := w.getD t false

/-- `CancellationToken::CreateLinked(A, B)`
(`src/src/Runtime/AsyncLoader.cpp:9-62`): construct `Linked`; if either
parent is cancelled right now, `Linked.Cancel()`; return `Linked`.  No
parent references are retained. -/
def ctCreateLinked (w : List Bool) (a b : Nat) : List Bool × Nat :=
  let (w1, l) := ctNew w
  (if ctIsCancelled w1 a || ctIsCancelled w1 b then ctCancel w1 l else w1, l)

end AsyncLoad

namespace IncCache

/-! ## Incremental cache rebuild checks
(`src/src/Pipeline/IncrementalCache.cpp`)

The SQLite persistence is plumbing; the rebuild decisions are pure
functions of the stored entry, the recorded dependencies and the current
filesystem contents.  The filesystem is modelled as
`String → Option Nat` (`none` = file missing or unreadable, `some h` =
current content hash); the mod-time-gated `HashFile` cache is treated as
transparent (it returns the current content hash). -/

structure CacheEntry where
  sourceHash : Nat
  dependenciesHash : Nat
  intermediatePayloadHash : Nat
  cookedPayloadHash : Nat
  buildOptionsHash : Nat
  importerName : String
  importerPluginVersion : String
  cookerName : String
  cookerPluginVersion : String
  bValid : Bool
  deriving Repr, DecidableEq

structure DependencyInfo where
  filePath : String
  fileHash : Nat
  deriving Repr, DecidableEq

/-- `IncrementalCache::NeedsRebuild(NewEntry, OldEntry)`
(`IncrementalCache.cpp:502-535`): stored-field comparisons only. -/
def needsRebuild (n o : CacheEntry) : Bool :=
  if !o.bValid then true
  else if n.sourceHash != o.sourceHash then true
  else if n.dependenciesHash != o.dependenciesHash then true
  else if n.buildOptionsHash != o.buildOptionsHash then true
  else if n.importerName != o.importerName || n.importerPluginVersion != o.importerPluginVersion then
    true
  else if n.cookerName != o.cookerName || n.cookerPluginVersion != o.cookerPluginVersion then
    true
  else false

/-- `IncrementalCache::HasDependencyChanged` (`IncrementalCache.cpp:349-377`):
a recorded dependency changed iff its file vanished (or errors), or its
current hash differs from the recorded one. -/
def hasDependencyChanged (fs : String → Option Nat) (deps : List DependencyInfo) : Bool :=
  deps.any fun d =>
    match fs d.filePath with
    | none => true
    | some h => h != d.fileHash

/-- `IncrementalCache::NeedsRebuildWithDependencies`
(`IncrementalCache.cpp:538-576`).  `old` is `Get(Id)` and `deps` is
`GetDependencies(Id)`.  Note: it compares source/options hashes and
importer/cooker identity but not `deps_hash`, and then consults the live
dependency state. -/
def needsRebuildWithDependencies (fs : String → Option Nat) (old : CacheEntry)
    (deps : List DependencyInfo) (curSourceHash curOptionsHash : Nat)
    (impName impVer ckName ckVer : String) : Bool :=
  if !old.bValid then true
  else if curSourceHash != old.sourceHash then true
  else if curOptionsHash != old.buildOptionsHash then true
  else if impName != old.importerName || impVer != old.importerPluginVersion then true
  else if ckName != old.cookerName || ckVer != old.cookerPluginVersion then true
  else if hasDependencyChanged fs deps then true
  else false

end IncCache

namespace Cache

/-! ## Runtime asset cache (`src/src/Runtime/AssetCache.cpp`)

`m_Cache` (key → shared entry), `m_LruList` (entries, most recent first)
and `m_LruMap` are kept in lock-step by the source; the model collapses
them into one key-unique entry list in recency order plus the
`m_MemoryUsage` counter.  The cache key `(AssetId, type_index)` is an
opaque `Nat`.  Times are in seconds (`duration_cast<seconds>` granularity;
`MinAgeBeforeEviction` is an integral number of seconds). -/

structure CEntry where
  key : Nat
  refCount : Nat
  lastAccess : Nat
  sizeBytes : Nat
  deriving Repr, DecidableEq

/-- `AssetCacheConfig`, restricted to the fields `Evict`/`InsertEntry`
consult.  `targetUsage` is the C++ `MaxMemoryBytes * 0.7` target, carried
as the already-computed integer (the floating-point rounding of the
multiplication is outside the model and irrelevant to the claims). -/
structure CacheConfig where
  evictionThresholdBytes : Nat
  minAgeBeforeEviction : Nat
  bEvictOnlyUnreferenced : Bool
  targetUsage : Nat
  deriving Repr, DecidableEq

structure CacheState where
  entries : List CEntry
  memUsage : Nat
  deriving Repr, DecidableEq

/-- The `Evict` walk (`AssetCache.cpp:197-229`) over the LRU list from
oldest toward newest, given here the oldest-first list and the current
memory usage.  Returns (evicted entries, kept entries oldest-first, final
usage).  Referenced entries are skipped in place under the
evict-only-unreferenced policy; a too-young entry stops the walk (anything
newer is also young); otherwise the entry is evicted while usage exceeds
the target. -/
def evictLoop (cfg : CacheConfig) (now : Nat) :
    List CEntry → Nat → List CEntry × List CEntry × Nat
  | [], u => ([], [], u)
  | e :: rest, u =>
    if ¬ u > cfg.targetUsage then ([], e :: rest, u)
    else if cfg.bEvictOnlyUnreferenced ∧ e.refCount > 0 then
      let (ev, kept, u') := evictLoop cfg now rest u
      (ev, e :: kept, u')
    else if now - e.lastAccess < cfg.minAgeBeforeEviction then ([], e :: rest, u)
    else
      let (ev, kept, u') := evictLoop cfg now rest (u - e.sizeBytes)
      (e :: ev, kept, u')

/-- `AssetCache::Evict` (`AssetCache.cpp:184-232`): no-op below the
eviction threshold, otherwise run the walk; returns the evicted count. -/
def evict (cfg : CacheConfig) (now : Nat) (s : CacheState) : Nat × CacheState :=
  if s.memUsage < cfg.evictionThresholdBytes then (0, s)
  else
    let (ev, kept, u') := evictLoop cfg now s.entries.reverse s.memUsage
    (ev.length, ⟨kept.reverse, u'⟩)

/-- `m_Cache.find(Key)`. -/
def findKey : List CEntry → Nat → Option CEntry
  | [], _ => none
  | e :: rest, k => if e.key = k then some e else findKey rest k

/-- `m_Cache.erase(It)` plus the LRU erase for the found entry. -/
def removeKeyOnce : List CEntry → Nat → List CEntry
  | [], _ => []
  | e :: rest, k => if e.key = k then rest else e :: removeKeyOnce rest k

/-- `AssetCache::InsertEntry` (`AssetCache.cpp:38-72`): evict when the
would-be usage crosses the threshold; remove any existing entry under the
same key (no `RefCount` check), adjusting the counter by its size; insert
the new entry at the LRU front and add its size. -/
def insertEntry (cfg : CacheConfig) (now : Nat) (s : CacheState) (e : CEntry) :
    CacheState :=
  let s1 := if s.memUsage + e.sizeBytes > cfg.evictionThresholdBytes then
              (evict cfg now s).2 else s
  let s2 :=
    match findKey s1.entries e.key with
    | some old => (⟨removeKeyOnce s1.entries e.key, s1.memUsage - old.sizeBytes⟩ : CacheState)
    | none => s1
  ⟨e :: s2.entries, s2.memUsage + e.sizeBytes⟩

/-- Total `SizeBytes` over the cached entries. -/
def sizeSum (l : List CEntry) : Nat := (l.map CEntry.sizeBytes).sum

/-- Concrete configuration: threshold 100, age gate 5 s, evict only
unreferenced, walk target 70. -/
def cfgW : CacheConfig :=
  { evictionThresholdBytes := 100, minAgeBeforeEviction := 5,
    bEvictOnlyUnreferenced := true, targetUsage := 70 }

/-- An aged unreferenced entry of size 80 (usage below threshold). -/
def entSmall : CEntry := { key := 1, refCount := 0, lastAccess := 10, sizeBytes := 80 }

/-- An aged unreferenced entry of size 120 (usage above threshold). -/
def entBig : CEntry := { key := 1, refCount := 0, lastAccess := 10, sizeBytes := 120 }

/-- A still-referenced cached entry (RefCount 5) of size 10 under key 1. -/
def entRef : CEntry := { key := 1, refCount := 5, lastAccess := 0, sizeBytes := 10 }

/-- Replacement entry for key 1, size 4. -/
def entNew : CEntry := { key := 1, refCount := 0, lastAccess := 50, sizeBytes := 4 }

end Cache

namespace Manager

/-! ## Asset-manager mount list (`src/src/Runtime/AssetManager.cpp`)

A `MountedPack` is abstracted to its path, priority, mount point and the
set of asset names its reader resolves (`FindAssetsByName` returning a
non-empty result is name membership).  `Impl::SortPacks` uses `std::sort`
with `A.Options.Priority > B.Options.Priority`; `std::sort` guarantees a
sorted permutation but leaves the relative order of equal elements
unspecified, so sorting is modelled relationally. -/

structure MountedPack where
  path : String
  priority : Int
  mountPoint : List Nat
  names : List (List Nat)
  deriving Repr, DecidableEq

/-- The `std::sort` postcondition for the descending-priority comparator:
pairwise non-increasing priorities. -/
def sortedByPriority (l : List MountedPack) : Prop :=
  l.Pairwise fun a b => b.priority ≤ a.priority

instance (l : List MountedPack) : Decidable (sortedByPriority l) := by
  unfold sortedByPriority; infer_instance

/-- States of the mount list reachable by successful `MountPack` calls
mounting `ps` in order, starting from the empty list: each step rejects an
already-mounted path, appends (`push_back`), and re-sorts with `std::sort`
(any sorted permutation). -/
inductive ReachSeq : List MountedPack → List MountedPack → Prop
  | nil : ReachSeq [] []
  | step {ps s p s'} : ReachSeq ps s → (∀ q ∈ s, q.path ≠ p.path) →
      (s ++ [p]).Perm s' → sortedByPriority s' → ReachSeq (ps ++ [p]) s'

/-- Whether a pack resolves `name`: the mount-point prefix must match (and
is stripped) before consulting the pack's names
(`Impl::FindPackForAssetByName`, `AssetManager.cpp:76-102`). -/
def matchesName (p : MountedPack) (name : List Nat) : Bool :=
  if p.mountPoint ≠ [] then
    if p.mountPoint.isPrefixOf name then
      decide ((name.drop p.mountPoint.length) ∈ p.names)
    else false
  else decide (name ∈ p.names)

/-- `Impl::FindPackForAssetByName`: walk the mounted list in order, skip
packs whose mount point does not prefix the name, return the first pack
with a non-empty `FindAssetsByName` result. -/
def lookupName : List MountedPack → List Nat → Option MountedPack
  | [], _ => none
  | p :: rest, name =>
    if p.mountPoint ≠ [] then
      if p.mountPoint.isPrefixOf name then
        if (name.drop p.mountPoint.length) ∈ p.names then some p
        else lookupName rest name
      else lookupName rest name
    else if name ∈ p.names then some p else lookupName rest name

/-- Two packs with equal priority and distinct paths, used to exhibit a
legal unstable `std::sort` outcome. -/
def pA : MountedPack := { path := "a", priority := 5, mountPoint := [], names := [[1]] }

def pB : MountedPack := { path := "b", priority := 5, mountPoint := [], names := [[1]] }

end Manager

namespace SnPak

/-! ## Concrete model instances (for evaluating the model at concrete
inputs) -/

/-- A concrete deterministic stand-in for XXH3 (any deterministic bundle
satisfies the contract the repository relies on). -/
def hash0 : HashModel :=
  { h64 := fun b => (b.foldl (fun a x => a * 31 + x + 1) 7) % 2 ^ 64
    h128hi := fun b => (b.foldl (fun a x => a * 3 + x + 7) 1) % 2 ^ 64
    h128lo := fun b => (b.length + b.foldl (fun a x => a + 2 * x) 5) % 2 ^ 64
    h64_lt := fun _ => Nat.mod_lt _ (by norm_num)
    h128hi_lt := fun _ => Nat.mod_lt _ (by norm_num)
    h128lo_lt := fun _ => Nat.mod_lt _ (by norm_num) }

/-- The `None` codec (mode byte 0; `Compress`/`Decompress` copy). -/
def codec0 : CodecModel :=
  { mode := 0, level := 0
    compressBody := id
    decompressD := fun _ b n => some (b.take n)
    mode_lt := by norm_num
    level_lt := by norm_num
    roundtrip := fun b _ => by simp
    roundtrip_empty := by simp }

/-- A concrete non-`None` codec (mode byte 2, i.e. Zstd's slot) whose
compressor prepends a marker byte; satisfies the round-trip contract. -/
def codec2 : CodecModel :=
  { mode := 2, level := 1
    compressBody := fun b => 7 :: b
    decompressD := fun m b n =>
      if m = 2 then
        match b with
        | [] => if n = 0 then some [] else none
        | _ :: t => if t.length = n then some t else none
      else none
    mode_lt := by norm_num
    level_lt := by norm_num
    roundtrip := fun b _ => by simp
    roundtrip_empty := by simp }

/-- 16-byte id with distinguishing last byte. -/
def uid (n : Nat) : Bytes := List.replicate 15 0 ++ [n]

/-- Sample asset: payload `[1,2,3,4]`, one compressed bulk chunk. -/
def sampleAsset1 : AssetPackEntry :=
  { id := uid 1, assetKind := uid 2, name := [97, 98], variantKey := []
    cookedPayloadType := uid 3, cookedSchemaVersion := 7
    cookedBytes := [1, 2, 3, 4]
    bulk := [{ semantic := 1, subIndex := 99, bCompress := true, bytes := [170, 187] }] }

/-- Sample asset: empty payload, a variant key, no bulk. -/
def sampleAsset2 : AssetPackEntry :=
  { id := uid 4, assetKind := uid 2, name := [99], variantKey := [104, 100, 114]
    cookedPayloadType := uid 3, cookedSchemaVersion := 7
    cookedBytes := [], bulk := [] }

/-- Asset whose name contains an interior NUL byte. -/
def sampleAssetNul : AssetPackEntry :=
  { id := uid 9, assetKind := uid 2, name := [0, 97], variantKey := []
    cookedPayloadType := uid 3, cookedSchemaVersion := 1
    cookedBytes := [5], bulk := [] }

/-- The reader-side view the writer's authoring record should round-trip
to (spec's "identical `AssetInfo` for each asset"). -/
def authoredInfo (a : AssetPackEntry) : AssetInfo :=
  { id := a.id, assetKind := a.assetKind, cookedPayloadType := a.cookedPayloadType,
    schemaVersion := a.cookedSchemaVersion, name := a.name,
    variantKey := a.variantKey, bulkChunkCount := a.bulk.length }

end SnPak

namespace IncCache

/-- Entry pair agreeing on every stored comparison field. -/
def c4old : CacheEntry :=
  { sourceHash := 1, dependenciesHash := 2, intermediatePayloadHash := 0,
    cookedPayloadHash := 0, buildOptionsHash := 3, importerName := "imp",
    importerPluginVersion := "1", cookerName := "cook", cookerPluginVersion := "1",
    bValid := true }

def c4new : CacheEntry := c4old

def c4deps : List DependencyInfo := [{ filePath := "dep.png", fileHash := 10 }]

/-- Filesystem in which `dep.png` now hashes to 11 (≠ recorded 10). -/
def c4fs : String → Option Nat := fun p => if p = "dep.png" then some 11 else none

end IncCache

/-! # Theorems -/

namespace SnPak

@[simp] theorem encLE_length (n k : Nat) : (encLE n k).length = k := by
  induction k generalizing n with
  | zero => rfl
  | succ k ih => simp [encLE, ih]

theorem decLE_encLE_append (n k : Nat) (rest : List Nat) (h : n < 256 ^ k) :
    decLE (encLE n k ++ rest) k = n := by
  induction k generalizing n with
  | zero => simp at h; simp [h, decLE]
  | succ k ih =>
    simp only [encLE, List.cons_append, decLE]
    have hdiv : n / 256 < 256 ^ k := by
      apply Nat.div_lt_of_lt_mul
      rw [Nat.mul_comm]
      simpa [Nat.pow_succ] using h
    rw [show (encLE (n / 256) k).append rest = encLE (n / 256) k ++ rest from rfl,
      ih (n / 256) hdiv, Nat.mod_mod_of_dvd _ (by norm_num)]
    omega

theorem drop_append_len {α : Type} (a b : List α) : (a ++ b).drop a.length = b := by
  simp

theorem take_append_len {α : Type} (a b : List α) : (a ++ b).take a.length = a := by
  simp

theorem drop_append_eq {α : Type} (a b : List α) (k : Nat) (h : a.length = k) :
    (a ++ b).drop k = b := by
  subst h; simp

theorem pN_enc (n k : Nat) (rest : Bytes) (h : n < 256 ^ k) :
    pN k (encLE n k ++ rest) = (n, rest) := by
  unfold pN
  rw [decLE_encLE_append n k rest h, drop_append_eq _ _ _ (encLE_length n k)]

theorem pB_exact (a rest : Bytes) (k : Nat) (h : a.length = k) :
    pB k (a ++ rest) = (a, rest) := by
  unfold pB
  subst h
  rw [drop_append_len, take_append_len]

@[simp] theorem encPakHeader_length (h : PakHeader) (hWF : h.WF) :
    (encPakHeader h).length = 180 := by
  obtain ⟨h1, h2, -⟩ := hWF
  simp [encPakHeader, h1, h2]

theorem parse_encPakHeader (h : PakHeader) (rest : Bytes) (hWF : h.WF) :
    parsePakHeader (encPakHeader h ++ rest) = h := by
  obtain ⟨h1, h2, h3, h4, h5, h6, h7, h8, h9, h10, h11, h12, h13, h14, h15, h16, h17, h18⟩ := hWF
  unfold parsePakHeader encPakHeader
  simp only [List.append_assoc]
  rw [pB_exact _ _ _ h1]
  rw [pN_enc _ _ _ (by norm_num at h3 ⊢; exact h3)]
  rw [pN_enc _ _ _ (by norm_num at h4 ⊢; exact h4)]
  rw [pN_enc _ _ _ (by norm_num at h5 ⊢; exact h5)]
  rw [pN_enc _ _ _ (by norm_num at h6 ⊢; exact h6)]
  rw [pN_enc _ _ _ (by norm_num at h7 ⊢; exact h7)]
  rw [pN_enc _ _ _ (by norm_num at h8 ⊢; exact h8)]
  rw [pN_enc _ _ _ (by norm_num at h9 ⊢; exact h9)]
  rw [pN_enc _ _ _ (by norm_num at h10 ⊢; exact h10)]
  rw [pN_enc _ _ _ (by norm_num at h11 ⊢; exact h11)]
  rw [pN_enc _ _ _ (by norm_num at h12 ⊢; exact h12)]
  rw [pN_enc _ _ _ (by norm_num at h13 ⊢; exact h13)]
  rw [pN_enc _ _ _ (by norm_num at h14 ⊢; exact h14)]
  rw [pN_enc _ _ _ (by norm_num at h15 ⊢; exact h15)]
  rw [pN_enc _ _ _ (by norm_num at h16 ⊢; exact h16)]
  rw [pN_enc _ _ _ (by norm_num at h17 ⊢; exact h17)]
  rw [pN_enc _ _ _ (by norm_num at h18 ⊢; exact h18)]
  rw [pB_exact _ _ _ h2]

@[simp] theorem encStrHeader_length (h : StrHeader) (hWF : h.WF) :
    (encStrHeader h).length = 40 := by
  obtain ⟨h1, -⟩ := hWF
  simp [encStrHeader, h1]

theorem parse_encStrHeader (h : StrHeader) (rest : Bytes) (hWF : h.WF) :
    parseStrHeader (encStrHeader h ++ rest) = h := by
  obtain ⟨h1, h2, h3, h4, h5, h6, h7⟩ := hWF
  unfold parseStrHeader encStrHeader
  simp only [List.append_assoc]
  rw [pB_exact _ _ _ h1]
  rw [pN_enc _ _ _ (by norm_num at h2 ⊢; exact h2)]
  rw [pN_enc _ _ _ (by norm_num at h3 ⊢; exact h3)]
  rw [pN_enc _ _ _ (by norm_num at h4 ⊢; exact h4)]
  rw [pN_enc _ _ _ (by norm_num at h5 ⊢; exact h5)]
  rw [pN_enc _ _ _ (by norm_num at h6 ⊢; exact h6)]
  rw [pN_enc _ _ _ (by norm_num at h7 ⊢; exact h7)]

@[simp] theorem encIdxHeader_length (h : IdxHeader) (hWF : h.WF) :
    (encIdxHeader h).length = 88 := by
  obtain ⟨h1, h2, -⟩ := hWF
  simp [encIdxHeader, h1, h2]

theorem parse_encIdxHeader (h : IdxHeader) (rest : Bytes) (hWF : h.WF) :
    parseIdxHeader (encIdxHeader h ++ rest) = h := by
  obtain ⟨h1, h2, h3, h4, h5, h6, h7, h8, h9, h10⟩ := hWF
  unfold parseIdxHeader encIdxHeader
  simp only [List.append_assoc]
  rw [pB_exact _ _ _ h1]
  rw [pN_enc _ _ _ (by norm_num at h3 ⊢; exact h3)]
  rw [pN_enc _ _ _ (by norm_num at h4 ⊢; exact h4)]
  rw [pN_enc _ _ _ (by norm_num at h5 ⊢; exact h5)]
  rw [pN_enc _ _ _ (by norm_num at h6 ⊢; exact h6)]
  rw [pN_enc _ _ _ (by norm_num at h7 ⊢; exact h7)]
  rw [pN_enc _ _ _ (by norm_num at h8 ⊢; exact h8)]
  rw [pN_enc _ _ _ (by norm_num at h9 ⊢; exact h9)]
  rw [pN_enc _ _ _ (by norm_num at h10 ⊢; exact h10)]
  rw [pB_exact _ _ _ h2]

@[simp] theorem encIdxEntry_length (e : IdxEntry) (hWF : e.WF) :
    (encIdxEntry e).length = 128 := by
  obtain ⟨h1, h2, h3, -⟩ := hWF
  simp [encIdxEntry, h1, h2, h3]

theorem parse_encIdxEntry (e : IdxEntry) (rest : Bytes) (hWF : e.WF) :
    parseIdxEntry (encIdxEntry e ++ rest) = e := by
  obtain ⟨h1, h2, h3, h4, h5, h6, h7, h8, h9, h10, h11, h12, h13, h14, h15, h16, h17, h18⟩ := hWF
  unfold parseIdxEntry encIdxEntry
  simp only [List.append_assoc]
  rw [pB_exact _ _ _ h1, pB_exact _ _ _ h2, pB_exact _ _ _ h3]
  rw [pN_enc _ _ _ (by norm_num at h4 ⊢; exact h4)]
  rw [pN_enc _ _ _ (by norm_num at h5 ⊢; exact h5)]
  rw [pN_enc _ _ _ (by norm_num at h6 ⊢; exact h6)]
  rw [pN_enc _ _ _ (by norm_num at h7 ⊢; exact h7)]
  rw [pN_enc _ _ _ (by norm_num at h8 ⊢; exact h8)]
  rw [pN_enc _ _ _ (by norm_num at h9 ⊢; exact h9)]
  rw [pN_enc _ _ _ (by norm_num at h10 ⊢; exact h10)]
  rw [pN_enc _ _ _ (by norm_num at h11 ⊢; exact h11)]
  rw [pN_enc _ _ _ (by norm_num at h12 ⊢; exact h12)]
  rw [pN_enc _ _ _ (by norm_num at h13 ⊢; exact h13)]
  rw [pN_enc _ _ _ (by norm_num at h14 ⊢; exact h14)]
  rw [pN_enc _ _ _ (by norm_num at h15 ⊢; exact h15)]
  rw [pN_enc _ _ _ (by norm_num at h16 ⊢; exact h16)]
  rw [pN_enc _ _ _ (by norm_num at h17 ⊢; exact h17)]
  rw [pN_enc _ _ _ (by norm_num at h18 ⊢; exact h18)]

@[simp] theorem encBulkEntry_length (e : BulkEntry) (hWF : e.WF) :
    (encBulkEntry e).length = 56 := by
  obtain ⟨-, -, -, -, -, -, h7, -, -⟩ := hWF
  simp [encBulkEntry, h7]

theorem parse_encBulkEntry (e : BulkEntry) (rest : Bytes) (hWF : e.WF) :
    parseBulkEntry (encBulkEntry e ++ rest) = e := by
  obtain ⟨h1, h2, h3, h4, h5, h6, h7, h8, h9⟩ := hWF
  unfold parseBulkEntry encBulkEntry
  simp only [List.append_assoc]
  rw [pN_enc _ _ _ (by norm_num at h1 ⊢; exact h1)]
  rw [pN_enc _ _ _ (by norm_num at h2 ⊢; exact h2)]
  rw [pN_enc _ _ _ (by norm_num at h3 ⊢; exact h3)]
  rw [pN_enc _ _ _ (by norm_num at h4 ⊢; exact h4)]
  rw [pN_enc _ _ _ (by norm_num at h5 ⊢; exact h5)]
  rw [pN_enc _ _ _ (by norm_num at h6 ⊢; exact h6)]
  rw [pB_exact _ _ _ h7]
  rw [pN_enc _ _ _ (by norm_num at h8 ⊢; exact h8)]
  rw [pN_enc _ _ _ (by norm_num at h9 ⊢; exact h9)]

@[simp] theorem encChunkHeader_length (h : ChunkHeader) (hWF : h.WF) :
    (encChunkHeader h).length = 80 := by
  obtain ⟨h1, -, h3, h4, -⟩ := hWF
  simp [encChunkHeader, h1, h3, h4]

theorem parse_encChunkHeader (h : ChunkHeader) (rest : Bytes) (hWF : h.WF) :
    parseChunkHeader (encChunkHeader h ++ rest) = h := by
  obtain ⟨h1, h2, h3, h4, h5, h6, h7, h8, h9, h10, h11, h12⟩ := hWF
  unfold parseChunkHeader encChunkHeader
  simp only [List.append_assoc]
  rw [pB_exact _ _ _ h1]
  rw [pN_enc _ _ _ (by norm_num at h2 ⊢; exact h2)]
  rw [pB_exact _ _ _ h3, pB_exact _ _ _ h4]
  rw [pN_enc _ _ _ (by norm_num at h5 ⊢; exact h5)]
  rw [pN_enc _ _ _ (by norm_num at h6 ⊢; exact h6)]
  rw [pN_enc _ _ _ (by norm_num at h7 ⊢; exact h7)]
  rw [pN_enc _ _ _ (by norm_num at h8 ⊢; exact h8)]
  rw [pN_enc _ _ _ (by norm_num at h9 ⊢; exact h9)]
  rw [pN_enc _ _ _ (by norm_num at h10 ⊢; exact h10)]
  rw [pN_enc _ _ _ (by norm_num at h11 ⊢; exact h11)]
  rw [pN_enc _ _ _ (by norm_num at h12 ⊢; exact h12)]

end SnPak

namespace IncCache

theorem hasDependencyChanged_iff (fs : String → Option Nat) (deps : List DependencyInfo) :
    hasDependencyChanged fs deps = true ↔
      ∃ d ∈ deps, ∀ h, fs d.filePath = some h → h ≠ d.fileHash := by
  unfold hasDependencyChanged
  rw [List.any_eq_true]
  constructor
  · rintro ⟨d, hd, hcond⟩
    refine ⟨d, hd, ?_⟩
    intro h hfs
    rw [hfs] at hcond
    simpa [bne_iff_ne] using hcond
  · rintro ⟨d, hd, hcond⟩
    refine ⟨d, hd, ?_⟩
    cases hfs : fs d.filePath with
    | none => simp
    | some h => simpa [bne_iff_ne] using hcond h hfs

end IncCache

/-- C4 (counterexample): with identical stored fields but a recorded
dependency whose current file hash differs from the recorded one,
`NeedsRebuild(new, old)` returns `false` — it performs no dependency
check, contradicting the claim that it returns true in this situation. -/
theorem needsRebuild_ignores_changed_dependency :
    IncCache.hasDependencyChanged IncCache.c4fs IncCache.c4deps = true ∧
    IncCache.needsRebuild IncCache.c4new IncCache.c4old = false := by
  constructor
  · decide
  · decide

/-- C4 (amended): `NeedsRebuild(new, old)` returns true exactly when the
old entry is invalid or one of the six stored comparisons (source hash,
deps hash, options hash, importer name/version, cooker name/version)
differs; the live dependency checks (vanished file, or current hash
differing from the recorded one) are performed by the separate
`NeedsRebuildWithDependencies`, which conversely does not compare the
stored `deps_hash`. -/
theorem needsRebuild_characterization :
    (∀ n o : IncCache.CacheEntry,
      IncCache.needsRebuild n o = true ↔
        (o.bValid = false ∨ n.sourceHash ≠ o.sourceHash ∨
         n.dependenciesHash ≠ o.dependenciesHash ∨
         n.buildOptionsHash ≠ o.buildOptionsHash ∨
         n.importerName ≠ o.importerName ∨
         n.importerPluginVersion ≠ o.importerPluginVersion ∨
         n.cookerName ≠ o.cookerName ∨
         n.cookerPluginVersion ≠ o.cookerPluginVersion)) ∧
    (∀ (fs : String → Option Nat) (old : IncCache.CacheEntry)
       (deps : List IncCache.DependencyInfo) (sh oh : Nat) (inm inv cn cv : String),
      IncCache.needsRebuildWithDependencies fs old deps sh oh inm inv cn cv = true ↔
        (old.bValid = false ∨ sh ≠ old.sourceHash ∨ oh ≠ old.buildOptionsHash ∨
         inm ≠ old.importerName ∨ inv ≠ old.importerPluginVersion ∨
         cn ≠ old.cookerName ∨ cv ≠ old.cookerPluginVersion ∨
         ∃ d ∈ deps, ∀ h, fs d.filePath = some h → h ≠ d.fileHash)) := by
  constructor
  · intro n o
    unfold IncCache.needsRebuild
    split_ifs with h1 h2 h3 h4 h5 h6 <;>
      simp_all [bne_iff_ne, Bool.not_eq_true] <;> tauto
  · intro fs old deps sh oh inm inv cn cv
    unfold IncCache.needsRebuildWithDependencies
    rw [← IncCache.hasDependencyChanged_iff fs deps]
    split_ifs with h1 h2 h3 h4 h5 h6 <;>
      simp_all [bne_iff_ne, Bool.not_eq_true] <;> tauto

/-- C4 (witness for the amended claim): a vanished dependency makes
`NeedsRebuildWithDependencies` return true even with all stored fields
equal, and `NeedsRebuild` returns true on a differing source hash. -/
theorem needsRebuild_characterization_witness :
    IncCache.needsRebuildWithDependencies (fun _ => none) IncCache.c4old
      IncCache.c4deps 1 3 "imp" "1" "cook" "1" = true ∧
    IncCache.needsRebuild
      { IncCache.c4old with sourceHash := 99 } IncCache.c4old = true := by
  constructor
  · exact (needsRebuild_characterization.2 (fun _ => none) IncCache.c4old
      IncCache.c4deps 1 3 "imp" "1" "cook" "1").mpr
      (by right; right; right; right; right; right; right
          exact ⟨IncCache.c4deps.head (by decide), by decide, by intro h hh; cases hh⟩)
  · exact (needsRebuild_characterization.1 _ _).mpr (by right; left; decide)

/-- C3: the claim (a linked token's `IsCancelled` returns true whenever
either parent is cancelled at the time of the call) is right per the spec,
and the code is wrong: `CreateLinked` only propagates parents already
cancelled at construction.  Evaluating the model at the failing input:
both parents uncancelled at construction, parent A cancelled afterwards —
A reads cancelled but the linked token still reads uncancelled. -/
theorem createLinked_misses_later_parent_cancellation :
    AsyncLoad.ctIsCancelled
        (AsyncLoad.ctCancel (AsyncLoad.ctCreateLinked [false, false] 0 1).1 0) 0 = true ∧
    AsyncLoad.ctIsCancelled
        (AsyncLoad.ctCancel (AsyncLoad.ctCreateLinked [false, false] 0 1).1 0)
        (AsyncLoad.ctCreateLinked [false, false] 0 1).2 = false := by
  constructor
  · decide
  · decide

/-- C9: `GetAssetInfo` on an entry whose `NameStringId` is out of range of
the loaded string table, or whose `VariantStringId` is neither the
`0xFFFFFFFF` sentinel nor a valid index, succeeds with an empty `Name`
(respectively empty `VariantKey`) instead of returning an error. -/
theorem getAssetInfo_out_of_range_ids (st : SnPak.ReaderState) (i : Nat)
    (hi : i < st.indexEntries.length) :
    ∃ info, SnPak.getAssetInfo st i = .ok info ∧
      ((st.indexEntries.getD i default).nameStringId ≥ st.stringTable.length →
        info.name = []) ∧
      ((st.indexEntries.getD i default).variantStringId ≠ SnPak.kVariantNone ∧
       (st.indexEntries.getD i default).variantStringId ≥ st.stringTable.length →
        info.variantKey = []) := by
  unfold SnPak.getAssetInfo
  rw [if_neg (by omega)]
  refine ⟨_, rfl, ?_, ?_⟩
  · intro hn
    simp only
    rw [if_neg (by omega)]
  · rintro ⟨hv1, hv2⟩
    simp only
    rw [if_neg (by intro hcon; exact absurd hcon.2 (by omega))]

/-- C9 (witness): a concrete reader state with one entry whose
`NameStringId` (7) and `VariantStringId` (9) both fall outside the
two-string table. -/
theorem getAssetInfo_out_of_range_ids_witness :
    ∃ info,
      SnPak.getAssetInfo
        { file := [], header := SnPak.parsePakHeader [],
          stringTable := [[97], [98]],
          indexEntries := [{ (default : SnPak.IdxEntry) with
            nameStringId := 7, variantStringId := 9 }],
          bulkEntries := [], validatedFileSize := 0 } 0 = .ok info ∧
      info.name = [] ∧ info.variantKey = [] := by
  obtain ⟨info, hok, hn, hv⟩ :=
    getAssetInfo_out_of_range_ids
      { file := [], header := SnPak.parsePakHeader [],
        stringTable := [[97], [98]],
        indexEntries := [{ (default : SnPak.IdxEntry) with
          nameStringId := 7, variantStringId := 9 }],
        bulkEntries := [], validatedFileSize := 0 } 0 (by decide)
    
  exact ⟨info, hok, hn (by decide), hv (by decide)⟩

namespace Cache

theorem evictLoop_evicted_spec (cfg : CacheConfig) (now : Nat)
    (hpol : cfg.bEvictOnlyUnreferenced = true) :
    ∀ (l : List CEntry) (u : Nat), ∀ e ∈ (evictLoop cfg now l u).1,
      e.refCount = 0 ∧ cfg.minAgeBeforeEviction ≤ now - e.lastAccess := by
  intro l
  induction l with
  | nil => intro u e he; simp [evictLoop] at he
  | cons a rest ih =>
    intro u e he
    unfold evictLoop at he
    by_cases hstop : ¬ u > cfg.targetUsage
    · rw [if_pos hstop] at he; simp at he
    · rw [if_neg hstop] at he
      by_cases hskip : cfg.bEvictOnlyUnreferenced ∧ a.refCount > 0
      · rw [if_pos hskip] at he
        simp only at he
        exact ih u e he
      · rw [if_neg hskip] at he
        by_cases hyoung : now - a.lastAccess < cfg.minAgeBeforeEviction
        · rw [if_pos hyoung] at he; simp at he
        · rw [if_neg hyoung] at he
          simp only [List.mem_cons] at he
          rcases he with rfl | he
          · constructor
            · by_contra hrc
              exact hskip ⟨hpol, by omega⟩
            · omega
          · exact ih _ e he

theorem evictLoop_perm (cfg : CacheConfig) (now : Nat) :
    ∀ (l : List CEntry) (u : Nat),
      l.Perm ((evictLoop cfg now l u).1 ++ (evictLoop cfg now l u).2.1) := by
  intro l
  induction l with
  | nil => intro u; simp [evictLoop]
  | cons a rest ih =>
    intro u
    unfold evictLoop
    by_cases hstop : ¬ u > cfg.targetUsage
    · rw [if_pos hstop]; simp
    · rw [if_neg hstop]
      by_cases hskip : cfg.bEvictOnlyUnreferenced ∧ a.refCount > 0
      · rw [if_pos hskip]
        simp only
        refine ((ih u).cons a).trans ?_
        exact (List.perm_middle).symm
      · rw [if_neg hskip]
        by_cases hyoung : now - a.lastAccess < cfg.minAgeBeforeEviction
        · rw [if_pos hyoung]; simp
        · rw [if_neg hyoung]
          simp only [List.cons_append]
          exact (ih _).cons a

theorem evictLoop_usage (cfg : CacheConfig) (now : Nat) :
    ∀ (l : List CEntry) (u : Nat), sizeSum l ≤ u →
      sizeSum (evictLoop cfg now l u).1 ≤ u ∧
      (evictLoop cfg now l u).2.2 = u - sizeSum (evictLoop cfg now l u).1 := by
  intro l
  induction l with
  | nil => intro u _; simp [evictLoop, sizeSum]
  | cons a rest ih =>
    intro u hu
    have hu' : a.sizeBytes + sizeSum rest ≤ u := by simpa [sizeSum] using hu
    unfold evictLoop
    by_cases hstop : ¬ u > cfg.targetUsage
    · rw [if_pos hstop]; simp [sizeSum]
    · rw [if_neg hstop]
      by_cases hskip : cfg.bEvictOnlyUnreferenced ∧ a.refCount > 0
      · rw [if_pos hskip]
        obtain ⟨ih1, ih2⟩ := ih u (by omega)
        rcases hE : evictLoop cfg now rest u with ⟨ev, kept, u1⟩
        rw [hE] at ih1 ih2
        simp only [hE]
        exact ⟨ih1, ih2⟩
      · rw [if_neg hskip]
        by_cases hyoung : now - a.lastAccess < cfg.minAgeBeforeEviction
        · rw [if_pos hyoung]; simp [sizeSum]
        · rw [if_neg hyoung]
          obtain ⟨ih1, ih2⟩ := ih (u - a.sizeBytes) (by omega)
          rcases hE : evictLoop cfg now rest (u - a.sizeBytes) with ⟨ev, kept, u1⟩
          rw [hE] at ih1 ih2
          simp only [hE]
          constructor
          · simp only [sizeSum, List.map_cons, List.sum_cons] at ih1 ⊢
            omega
          · simp only [sizeSum, List.map_cons, List.sum_cons] at ih1 ih2 ⊢
            omega

theorem sizeSum_perm {l l' : List CEntry} (h : l.Perm l') : sizeSum l = sizeSum l' := by
  unfold sizeSum
  exact (h.map CEntry.sizeBytes).sum_eq

/-- C5: under the evict-only-unreferenced policy, every entry the `Evict`
walk removes has `RefCount = 0` and age at least `MinAgeBeforeEviction`;
below the eviction threshold `Evict` removes nothing and returns 0; and
every cached entry is either kept or was removed by the walk. -/
theorem evict_age_refcount_threshold (cfg : CacheConfig) (now : Nat) (s : CacheState)
    (hpol : cfg.bEvictOnlyUnreferenced = true) :
    (s.memUsage < cfg.evictionThresholdBytes → evict cfg now s = (0, s)) ∧
    (∀ e ∈ (evictLoop cfg now s.entries.reverse s.memUsage).1,
      e.refCount = 0 ∧ cfg.minAgeBeforeEviction ≤ now - e.lastAccess) ∧
    (∀ e ∈ s.entries, e ∈ (evict cfg now s).2.entries ∨
      e ∈ (evictLoop cfg now s.entries.reverse s.memUsage).1) := by
  refine ⟨?_, fun e he => evictLoop_evicted_spec cfg now hpol _ _ e he, ?_⟩
  · intro hlt
    unfold evict
    rw [if_pos hlt]
  · intro e he
    by_cases hlt : s.memUsage < cfg.evictionThresholdBytes
    · left
      unfold evict
      rw [if_pos hlt]
      exact he
    · have hperm := evictLoop_perm cfg now s.entries.reverse s.memUsage
      have hmem : e ∈ (evictLoop cfg now s.entries.reverse s.memUsage).1 ++
          (evictLoop cfg now s.entries.reverse s.memUsage).2.1 :=
        hperm.mem_iff.mp (by simpa using he)
      rw [List.mem_append] at hmem
      rcases hmem with hmem | hmem
      · right; exact hmem
      · left
        unfold evict
        rw [if_neg hlt]
        simpa using hmem

/-- C5 (witness): below the threshold `Evict` is the identity returning 0,
and with usage 120 above the threshold the walk's evictions all satisfy
the refcount/age guarantees. -/
theorem evict_age_refcount_threshold_witness :
    evict cfgW 50 { entries := [entSmall], memUsage := 80 } =
      (0, { entries := [entSmall], memUsage := 80 }) ∧
    ∀ e ∈ (evictLoop cfgW 50 ([entBig] : List CEntry).reverse 120).1,
      e.refCount = 0 ∧ cfgW.minAgeBeforeEviction ≤ 50 - e.lastAccess := by
  constructor
  · exact (evict_age_refcount_threshold cfgW 50 _ rfl).1 (by decide)
  · exact fun e he =>
      (evict_age_refcount_threshold cfgW 50
        { entries := [entBig], memUsage := 120 } rfl).2.1 e he

theorem findKey_remove_sizeSum (k : Nat) :
    ∀ (l : List CEntry) (old : CEntry), findKey l k = some old →
      old.sizeBytes ≤ sizeSum l ∧
      sizeSum (removeKeyOnce l k) = sizeSum l - old.sizeBytes := by
  intro l
  induction l with
  | nil => intro old h; simp [findKey] at h
  | cons a rest ih =>
    intro old h
    unfold findKey at h
    unfold removeKeyOnce
    by_cases ha : a.key = k
    · rw [if_pos ha] at h
      cases h
      rw [if_pos ha]
      simp [sizeSum]
    · rw [if_neg ha] at h
      rw [if_neg ha]
      obtain ⟨ih1, ih2⟩ := ih old h
      constructor
      · simp only [sizeSum, List.map_cons, List.sum_cons]
        simp only [sizeSum] at ih1
        omega
      · simp only [sizeSum, List.map_cons, List.sum_cons]
        simp only [sizeSum] at ih1 ih2
        omega

theorem evict_preserves_sizeSum (cfg : CacheConfig) (now : Nat) (s : CacheState)
    (hu : s.memUsage = sizeSum s.entries) :
    (evict cfg now s).2.memUsage = sizeSum (evict cfg now s).2.entries := by
  unfold evict
  by_cases hlt : s.memUsage < cfg.evictionThresholdBytes
  · rw [if_pos hlt]; exact hu
  · rw [if_neg hlt]
    simp only
    have hrev : sizeSum s.entries.reverse = sizeSum s.entries :=
      sizeSum_perm (List.reverse_perm s.entries)
    have hperm := evictLoop_perm cfg now s.entries.reverse s.memUsage
    have hsplit : sizeSum s.entries.reverse =
        sizeSum (evictLoop cfg now s.entries.reverse s.memUsage).1 +
        sizeSum (evictLoop cfg now s.entries.reverse s.memUsage).2.1 := by
      rw [sizeSum_perm hperm]
      simp [sizeSum]
    obtain ⟨h1, h2⟩ := evictLoop_usage cfg now s.entries.reverse s.memUsage
      (by rw [hrev, ← hu])
    rw [h2]
    have hkept : sizeSum (evictLoop cfg now s.entries.reverse s.memUsage).2.1.reverse =
        sizeSum (evictLoop cfg now s.entries.reverse s.memUsage).2.1 :=
      sizeSum_perm (List.reverse_perm _)
    rw [hkept]
    omega

/-- C10: `InsertEntry` with a key already cached replaces the entry
unconditionally — no `RefCount` check — subtracting the old entry's size
and adding the new entry's size; and the memory-usage counter stays the
sum of `SizeBytes` over the cached entries. -/
theorem insertEntry_replaces_and_keeps_sum (cfg : CacheConfig) (now : Nat)
    (s : CacheState) (e : CEntry) :
    (s.memUsage = sizeSum s.entries →
      (insertEntry cfg now s e).memUsage = sizeSum (insertEntry cfg now s e).entries) ∧
    (∀ old, findKey s.entries e.key = some old →
      s.memUsage + e.sizeBytes ≤ cfg.evictionThresholdBytes →
      insertEntry cfg now s e =
        { entries := e :: removeKeyOnce s.entries e.key,
          memUsage := s.memUsage - old.sizeBytes + e.sizeBytes }) := by
  constructor
  · intro hu
    unfold insertEntry
    set s1 := if s.memUsage + e.sizeBytes > cfg.evictionThresholdBytes then
        (evict cfg now s).2 else s with hs1
    have hu1 : s1.memUsage = sizeSum s1.entries := by
      rw [hs1]
      by_cases hev : s.memUsage + e.sizeBytes > cfg.evictionThresholdBytes
      · rw [if_pos hev]; exact evict_preserves_sizeSum cfg now s hu
      · rw [if_neg hev]; exact hu
    cases hf : findKey s1.entries e.key with
    | none => simp only [hf, sizeSum, List.map_cons, List.sum_cons]
              simp only [sizeSum] at hu1
              omega
    | some old =>
      obtain ⟨hle, hrm⟩ := findKey_remove_sizeSum e.key s1.entries old hf
      simp only [hf, sizeSum, List.map_cons, List.sum_cons]
      simp only [sizeSum] at hu1 hle hrm
      omega
  · intro old hf hnoev
    have hcond : ¬ s.memUsage + e.sizeBytes > cfg.evictionThresholdBytes := by omega
    simp only [insertEntry, if_neg hcond, hf]

/-- C10 (witness): the cached entry with `RefCount = 5` under key 1 is
replaced by the new size-4 entry and the counter moves to `10 - 10 + 4`;
the sum invariant holds at the result. -/
theorem insertEntry_replaces_and_keeps_sum_witness :
    insertEntry cfgW 50 { entries := [entRef], memUsage := 10 } entNew =
      { entries := [entNew], memUsage := 4 } ∧
    (insertEntry cfgW 50 { entries := [entRef], memUsage := 10 } entNew).memUsage =
      sizeSum (insertEntry cfgW 50 { entries := [entRef], memUsage := 10 } entNew).entries := by
  constructor
  · have := (insertEntry_replaces_and_keeps_sum cfgW 50
      { entries := [entRef], memUsage := 10 } entNew).2 entRef (by decide) (by decide)
    rw [this]
    decide
  · exact (insertEntry_replaces_and_keeps_sum cfgW 50 _ entNew).1 (by decide)

end Cache

namespace Manager

/-- C6 (counterexample): mounting packs `pA` then `pB` (equal priority 5,
distinct paths) can legally leave the list `[pB, pA]` — `std::sort` makes
no stability promise — which is not the insertion order `[pA, pB]`, so
"packs of equal Priority kept in their insertion order" fails. -/
theorem mountPack_equal_priority_order_not_stable :
    ReachSeq [pA, pB] [pB, pA] ∧ [pB, pA] ≠ [pA, pB] := by
  constructor
  · have h1 : ReachSeq [pA] [pA] := by
      have := @ReachSeq.step [] [] pA [pA] ReachSeq.nil
        (by intro q hq; simp at hq) (by decide) (by decide)
      simpa using this
    have h2 := @ReachSeq.step [pA] [pA] pB [pB, pA] h1
      (by intro q hq; simp at hq; rw [hq]; decide) (by decide) (by decide)
    simpa using h2
  · decide

theorem lookupName_cons (p : MountedPack) (rest : List MountedPack) (name : List Nat) :
    lookupName (p :: rest) name =
      if matchesName p name then some p else lookupName rest name := by
  rw [show lookupName (p :: rest) name =
      (if p.mountPoint ≠ [] then
        if p.mountPoint.isPrefixOf name then
          if (name.drop p.mountPoint.length) ∈ p.names then some p
          else lookupName rest name
        else lookupName rest name
      else if name ∈ p.names then some p else lookupName rest name) from rfl]
  unfold matchesName
  split_ifs <;> simp_all

theorem lookupName_eq_find (l : List MountedPack) (name : List Nat) :
    lookupName l name = l.find? (fun p => matchesName p name) := by
  induction l with
  | nil => rfl
  | cons p rest ih =>
    rw [lookupName_cons, List.find?_cons]
    cases hb : matchesName p name <;> simp [hb, ih]

/-- C6 (amended): every mount-list state reachable by `MountPack` calls is
a permutation of the mounted packs sorted by non-increasing priority (the
relative order of equal priorities is whatever `std::sort` produced); the
name lookup walks that list in order returning the first matching pack; in
particular the returned pack's priority is at least that of every other
pack matching the name. -/
theorem mountList_sorted_and_first_match_wins :
    (∀ ps s, ReachSeq ps s → s.Perm ps ∧ sortedByPriority s) ∧
    (∀ (l : List MountedPack) (name : List Nat),
      lookupName l name = l.find? (fun p => matchesName p name)) ∧
    (∀ (l : List MountedPack) (name : List Nat) (p : MountedPack),
      sortedByPriority l → p ∈ l → matchesName p name = true →
      ∃ q, lookupName l name = some q ∧ matchesName q name = true ∧
        p.priority ≤ q.priority) := by
  refine ⟨?_, lookupName_eq_find, ?_⟩
  · intro ps s h
    induction h with
    | nil => exact ⟨List.Perm.refl _, List.Pairwise.nil⟩
    | step hreach hpath hperm hsort ih =>
      refine ⟨?_, hsort⟩
      exact hperm.symm.trans (ih.1.append (List.Perm.refl _))
  · intro l
    induction l with
    | nil => intro name p _ hp; simp at hp
    | cons a rest ih =>
      intro name p hsort hp hm
      unfold sortedByPriority at hsort
      rw [List.pairwise_cons] at hsort
      by_cases ha : matchesName a name = true
      · refine ⟨a, ?_, ha, ?_⟩
        · rw [lookupName_cons, if_pos ha]
        · rcases List.mem_cons.mp hp with rfl | hp2
          · exact le_refl _
          · exact hsort.1 p hp2
      · rcases List.mem_cons.mp hp with rfl | hp2
        · exact absurd hm ha
        · obtain ⟨q, hq1, hq2, hq3⟩ := ih name p hsort.2 hp2 hm
          refine ⟨q, ?_, hq2, hq3⟩
          rw [lookupName_cons, if_neg ha]
          exact hq1

/-- C6 (witness for the amended claim): the reachable state `[pB, pA]` is
a sorted permutation of the mounts, and looking up the shared name in it
returns a pack whose priority is ≥ `pA`'s. -/
theorem mountList_sorted_and_first_match_wins_witness :
    [pB, pA].Perm [pA, pB] ∧ sortedByPriority [pB, pA] ∧
    (∃ q, lookupName [pB, pA] [1] = some q ∧ matchesName q [1] = true ∧
      pA.priority ≤ q.priority) := by
  obtain ⟨h1, h2⟩ := mountList_sorted_and_first_match_wins.1 [pA, pB] [pB, pA]
    mountPack_equal_priority_order_not_stable.1
  refine ⟨h1, h2, ?_⟩
  exact mountList_sorted_and_first_match_wins.2.2 [pB, pA] [1] pA h2
    (by decide) (by decide)

end Manager

namespace SnPak

/-- C7: `Open` fails (and no open reader state is produced) on every file
smaller than the 180-byte pack header, and on every file whose header
`FileSize` field exceeds the actual file size. -/
theorem snOpen_rejects_short_files_and_oversized_filesize (H : HashModel) (f : Bytes) :
    (f.length < 180 → ∃ e, snOpen H f = .error e) ∧
    ((parsePakHeader (f.take 180)).fileSize > f.length → ∃ e, snOpen H f = .error e) := by
  constructor
  · intro h
    unfold snOpen
    rw [if_pos h]
    exact ⟨_, rfl⟩
  · intro h
    unfold snOpen
    by_cases hlen : f.length < 180
    · rw [if_pos hlen]; exact ⟨_, rfl⟩
    · rw [if_neg hlen]
      have hre : readExact f 0 180 = some (f.take 180) := by
        unfold readExact
        rw [if_pos (by omega)]
        rfl
      rw [hre]
      simp only []
      by_cases h1 : (parsePakHeader (f.take 180)).magic ≠ kSnPakMagic
      · rw [if_pos h1]; exact ⟨_, rfl⟩
      · rw [if_neg h1]
        by_cases h2 : (parsePakHeader (f.take 180)).version ≠ kSnPakVersion
        · rw [if_pos h2]; exact ⟨_, rfl⟩
        · rw [if_neg h2]
          by_cases h3 : (parsePakHeader (f.take 180)).headerSize ≠ 180
          · rw [if_pos h3]; exact ⟨_, rfl⟩
          · rw [if_neg h3]
            by_cases h4 : (parsePakHeader (f.take 180)).endianMarker ≠ kEndianMarker
            · rw [if_pos h4]; exact ⟨_, rfl⟩
            · rw [if_neg h4]
              rw [if_pos h]
              exact ⟨_, rfl⟩

set_option maxRecDepth 4000 in
/-- C7 (witness): the empty file is rejected, and a 180-byte file of
`0xFF` bytes (whose parsed `FileSize` is astronomically larger than 180)
is rejected. -/
theorem snOpen_rejects_short_files_and_oversized_filesize_witness :
    (∃ e, snOpen hash0 [] = .error e) ∧
    (∃ e, snOpen hash0 (List.replicate 180 255) = .error e) := by
  constructor
  · exact (snOpen_rejects_short_files_and_oversized_filesize hash0 []).1 (by decide)
  · exact (snOpen_rejects_short_files_and_oversized_filesize hash0
      (List.replicate 180 255)).2 (by decide)

end SnPak

namespace SnPak

theorem writeAt_end (f d : Bytes) : writeAt f f.length d = f ++ d := by
  unfold writeAt
  rw [List.take_length, List.drop_eq_nil_of_le (by omega), List.append_nil]

theorem parsePakHeader_lengths (l : Bytes) (hl : 180 ≤ l.length) :
    (parsePakHeader l).magic.length = 8 ∧ (parsePakHeader l).reserved.length = 64 := by
  unfold parsePakHeader pB pN
  simp only [List.length_take, List.length_drop]
  omega

theorem encPakHeader_length_of_parsed (l : Bytes) (hl : 180 ≤ l.length) :
    (encPakHeader (parsePakHeader l)).length = 180 := by
  obtain ⟨h1, h2⟩ := parsePakHeader_lengths l hl
  simp [encPakHeader, h1, h2]

theorem encPakHeader_length_fields (h : PakHeader) :
    (encPakHeader h).length = h.magic.length + 108 + h.reserved.length := by
  simp [encPakHeader]
  omega

theorem writeAt_zero (f d : Bytes) : writeAt f 0 d = d ++ f.drop d.length := by
  unfold writeAt
  simp

theorem frame_of_shape (old app hdrB out : Bytes) (hlen : 180 ≤ old.length)
    (hhl : hdrB.length = 180)
    (hout : hdrB ++ (old ++ app).drop hdrB.length = out) :
    old.length ≤ out.length ∧
    ∀ i, 180 ≤ i → i < old.length → out.getD i 0 = old.getD i 0 := by
  have hd : (old ++ app).drop hdrB.length = old.drop 180 ++ app := by
    rw [hhl]
    exact List.drop_append_of_le_length hlen
  rw [hd] at hout
  constructor
  · rw [← hout]
    simp only [List.length_append, List.length_drop]
    omega
  · intro i hi1 hi2
    rw [← hout]
    rw [List.getD_append_right _ _ _ _ (by omega : hdrB.length ≤ i), hhl]
    rw [List.getD_append _ _ _ _ (by simp [List.length_drop]; omega)]
    simp only [List.getD_eq_getElem?_getD, List.getElem?_drop]
    rw [show 180 + (i - 180) = i from by omega]

/-- C8: when `AppendUpdate` on an existing valid pack succeeds, the output
file is at least as long as the original and every byte of the original
file from offset 180 (the end of the pack header) up to the original end
of file is unchanged: all new string-block, chunk and index bytes land at
or beyond the original end of file and the only in-place write is the
header rewrite. -/
theorem snAppendUpdate_frame (c : CodecModel) (H : HashModel)
    (assets : List AssetPackEntry) (old out : Bytes)
    (hok : snAppendUpdate c H assets old = .ok out) :
    old.length ≤ out.length ∧
    ∀ i, 180 ≤ i → i < old.length → out.getD i 0 = old.getD i 0 := by
  unfold snAppendUpdate at hok
  cases hre : readExact old 0 180 with
  | none => rw [hre] at hok; cases hok
  | some hb =>
    rw [hre] at hok
    simp only [] at hok
    have hlen : 180 ≤ old.length := by
      unfold readExact at hre
      by_cases hc : 0 + 180 ≤ old.length
      · omega
      · rw [if_neg hc] at hre; cases hre
    have hhb : hb = old.take 180 := by
      unfold readExact at hre
      rw [if_pos (by omega)] at hre
      injection hre with h
      rw [← h]
      rfl
    by_cases h1 : (parsePakHeader hb).magic ≠ kSnPakMagic
    · rw [if_pos h1] at hok; cases hok
    · rw [if_neg h1] at hok
      by_cases h2 : (parsePakHeader hb).version ≠ kSnPakVersion
      · rw [if_pos h2] at hok; cases hok
      · rw [if_neg h2] at hok
        by_cases h3 : (parsePakHeader hb).headerSize ≠ 180
        · rw [if_pos h3] at hok; cases hok
        · rw [if_neg h3] at hok
          by_cases h4 : (parsePakHeader hb).endianMarker ≠ kEndianMarker
          · rw [if_pos h4] at hok; cases hok
          · rw [if_neg h4] at hok
            by_cases h5 : (parsePakHeader hb).fileSize > old.length
            · rw [if_pos h5] at hok; cases hok
            · rw [if_neg h5] at hok
              injection hok with hout
              have hbl : hb.length = 180 := by
                rw [hhb, List.length_take]
                omega
              rw [writeAt_end, writeAt_end, writeAt_end, writeAt_zero,
                List.append_assoc, List.append_assoc] at hout
              refine frame_of_shape old _ _ out hlen ?_ hout
              rw [encPakHeader_length_fields]
              have := parsePakHeader_lengths hb (by omega)
              simp only []
              omega

end SnPak

namespace SnPak

set_option maxRecDepth 8000 in
/-- C8 (witness): appending `sampleAsset2` onto the fresh pack holding
`sampleAsset1` succeeds and leaves bytes 180..EOF of the original pack
unchanged. -/
theorem snAppendUpdate_frame_witness :
    ∃ out, snAppendUpdate codec0 hash0 [sampleAsset2] (snWrite codec0 hash0 [sampleAsset1]) =
        .ok out ∧
      (snWrite codec0 hash0 [sampleAsset1]).length ≤ out.length ∧
      ∀ i, 180 ≤ i → i < (snWrite codec0 hash0 [sampleAsset1]).length →
        out.getD i 0 = (snWrite codec0 hash0 [sampleAsset1]).getD i 0 := by
  rcases hA : snAppendUpdate codec0 hash0 [sampleAsset2] (snWrite codec0 hash0 [sampleAsset1])
    with e | out
  · have hok : (snAppendUpdate codec0 hash0 [sampleAsset2]
        (snWrite codec0 hash0 [sampleAsset1])).isOk = true := by decide
    rw [hA] at hok
    simp [Except.isOk, Except.toBool] at hok
  · obtain ⟨h1, h2⟩ := snAppendUpdate_frame codec0 hash0 [sampleAsset2] _ out hA
    exact ⟨out, rfl, h1, h2⟩

end SnPak

namespace SnPak

/-! ### Placement helpers: reading back bytes the writer placed -/

theorem checkRange_of_le {v off n : Nat} (h : off + n ≤ v) : checkRange v off n = true := by
  unfold checkRange
  rw [if_neg (by omega), if_neg (by omega)]

theorem drop_shift {f x r : Bytes} {off : Nat} (hd : f.drop off = x ++ r) :
    f.drop (off + x.length) = r := by
  rw [← List.drop_drop, hd, drop_append_len]

theorem readExact_of_place {f x r : Bytes} {off : Nat}
    (hd : f.drop off = x ++ r) (hoff : off ≤ f.length) :
    readExact f off x.length = some x := by
  unfold readExact
  have hlen : f.length - off = x.length + r.length := by
    rw [← List.length_drop, hd, List.length_append]
  rw [if_pos (by omega), hd, take_append_len]

theorem seekAndReadExact_of_place {f x r : Bytes} {off : Nat}
    (hd : f.drop off = x ++ r) (hb : off + x.length ≤ f.length) :
    seekAndReadExact f f.length off x.length = some x := by
  unfold seekAndReadExact
  rw [checkRange_of_le hb, if_pos rfl]
  exact readExact_of_place hd (by omega)

@[simp] theorem catBytes_nil : catBytes [] = [] := rfl

@[simp] theorem catBytes_cons (x : Bytes) (xs : List Bytes) :
    catBytes (x :: xs) = x ++ catBytes xs := rfl

theorem catBytes_length (ls : List Bytes) :
    (catBytes ls).length = (ls.map List.length).sum := by
  induction ls with
  | nil => rfl
  | cons x xs ih => simp [ih]

theorem catBytes_enc4_length (os : List Nat) :
    (catBytes (os.map (encLE · 4))).length = 4 * os.length := by
  induction os with
  | nil => rfl
  | cons o os ih =>
    simp [ih]
    omega

theorem mem_addString_self (tbl : List Bytes) (s : Bytes) : s ∈ addString tbl s := by
  unfold addString
  by_cases h : s ∈ tbl
  · rw [if_pos h]; exact h
  · rw [if_neg h]; simp

theorem mem_addString_of_mem {tbl : List Bytes} {t : Bytes} (s : Bytes) (h : t ∈ tbl) :
    t ∈ addString tbl s := by
  unfold addString
  by_cases hs : s ∈ tbl
  · rw [if_pos hs]; exact h
  · rw [if_neg hs]; simp [h]

theorem collectStrings_go_mono (assets : List AssetPackEntry) :
    ∀ (tbl : List Bytes) (t : Bytes), t ∈ tbl →
      t ∈ assets.foldl
        (fun tbl a =>
          let tbl := addString tbl a.name
          if a.variantKey ≠ [] then addString tbl a.variantKey else tbl)
        tbl := by
  induction assets with
  | nil => intro tbl t h; exact h
  | cons a rest ih =>
    intro tbl t h
    apply ih
    simp only
    by_cases hv : a.variantKey ≠ []
    · rw [if_pos hv]; exact mem_addString_of_mem _ (mem_addString_of_mem _ h)
    · rw [if_neg hv]; exact mem_addString_of_mem _ h

theorem collectStrings_mem (assets : List AssetPackEntry) :
    ∀ a ∈ assets, a.name ∈ collectStrings assets ∧
      (a.variantKey ≠ [] → a.variantKey ∈ collectStrings assets) := by
  unfold collectStrings
  suffices h : ∀ (tbl : List Bytes), ∀ a ∈ assets,
      a.name ∈ assets.foldl
        (fun tbl a =>
          let tbl := addString tbl a.name
          if a.variantKey ≠ [] then addString tbl a.variantKey else tbl) tbl ∧
      (a.variantKey ≠ [] → a.variantKey ∈ assets.foldl
        (fun tbl a =>
          let tbl := addString tbl a.name
          if a.variantKey ≠ [] then addString tbl a.variantKey else tbl) tbl) by
    exact h []
  induction assets with
  | nil => intro tbl a ha; simp at ha
  | cons b rest ih =>
    intro tbl a ha
    rcases List.mem_cons.mp ha with rfl | ha2
    · constructor
      · rw [List.foldl_cons]
        apply collectStrings_go_mono
        show a.name ∈ (if a.variantKey ≠ [] then
          addString (addString tbl a.name) a.variantKey else addString tbl a.name)
        by_cases hv : a.variantKey ≠ []
        · rw [if_pos hv]; exact mem_addString_of_mem _ (mem_addString_self _ _)
        · rw [if_neg hv]; exact mem_addString_self _ _
      · intro hv
        rw [List.foldl_cons]
        apply collectStrings_go_mono
        show a.variantKey ∈ (if a.variantKey ≠ [] then
          addString (addString tbl a.name) a.variantKey else addString tbl a.name)
        rw [if_pos hv]
        exact mem_addString_self _ _
    · exact ih _ a ha2

theorem addString_preserves {tbl : List Bytes} {P : Bytes → Prop} {s : Bytes}
    (htbl : ∀ t ∈ tbl, P t) (hs : P s) : ∀ t ∈ addString tbl s, P t := by
  intro t ht
  unfold addString at ht
  by_cases hc : s ∈ tbl
  · rw [if_pos hc] at ht; exact htbl t ht
  · rw [if_neg hc] at ht
    rcases List.mem_append.mp ht with ht | ht
    · exact htbl t ht
    · simp at ht
      rw [ht]
      exact hs

theorem collectStrings_sources (assets : List AssetPackEntry) (P : Bytes → Prop)
    (has : ∀ a ∈ assets, P a.name ∧ P a.variantKey) :
    ∀ t ∈ collectStrings assets, P t := by
  unfold collectStrings
  suffices key : ∀ (as2 : List AssetPackEntry) (tbl : List Bytes),
      (∀ t ∈ tbl, P t) →
      (∀ a ∈ as2, P a.name ∧ P a.variantKey) →
      ∀ t ∈ as2.foldl
        (fun tbl a =>
          let tbl := addString tbl a.name
          if a.variantKey ≠ [] then addString tbl a.variantKey else tbl) tbl,
        P t by
    exact key assets [] (by simp) has
  intro as2
  induction as2 with
  | nil => intro tbl htbl _ t ht; exact htbl t ht
  | cons b rest ih =>
    intro tbl htbl has2 t ht
    refine ih _ ?_ (fun a ha => has2 a (List.mem_cons_of_mem b ha)) t ht
    intro u hu
    simp only at hu
    have hstep : ∀ v ∈ addString tbl b.name, P v :=
      addString_preserves htbl (has2 b (List.mem_cons_self b rest)).1
    by_cases hvv : b.variantKey ≠ []
    · rw [if_pos hvv] at hu
      exact addString_preserves hstep (has2 b (List.mem_cons_self b rest)).2 u hu
    · rw [if_neg hvv] at hu
      exact hstep u hu

theorem strId_spec {tbl : List Bytes} {s : Bytes} (h : s ∈ tbl) :
    strId tbl s < tbl.length ∧ tbl.getD (strId tbl s) [] = s := by
  induction tbl with
  | nil => simp at h
  | cons t ts ih =>
    unfold strId
    by_cases ht : t = s
    · rw [if_pos ht]
      exact ⟨by simp, by simp [ht]⟩
    · rw [if_neg ht]
      have hs : s ∈ ts := by
        rcases List.mem_cons.mp h with rfl | h2
        · exact absurd rfl ht
        · exact h2
      obtain ⟨ih1, ih2⟩ := ih hs
      refine ⟨by simp; omega, by simpa using ih2⟩

end SnPak

namespace SnPak

theorem strOffsets_length : ∀ (tbl : List Bytes) (acc : Nat),
    (strOffsets tbl acc).length = tbl.length := by
  intro tbl
  induction tbl with
  | nil => intro acc; rfl
  | cons s ss ih => intro acc; simp [strOffsets, ih]

theorem strDataLen_cons (s : Bytes) (ss : List Bytes) :
    strDataLen (s :: ss) = s.length + 1 + strDataLen ss := by
  simp [strDataLen]

theorem strOffsets_le : ∀ (tbl : List Bytes) (acc : Nat),
    ∀ o ∈ strOffsets tbl acc, acc ≤ o ∧ o ≤ acc + strDataLen tbl := by
  intro tbl
  induction tbl with
  | nil => intro acc o ho; simp [strOffsets] at ho
  | cons s ss ih =>
    intro acc o ho
    rw [show strOffsets (s :: ss) acc = acc :: strOffsets ss (acc + (s.length + 1)) from rfl]
      at ho
    rcases List.mem_cons.mp ho with rfl | ho2
    · exact ⟨le_refl _, by omega⟩
    · obtain ⟨h1, h2⟩ := ih _ o ho2
      rw [strDataLen_cons]
      exact ⟨by omega, by omega⟩

theorem stringData_length (tbl : List Bytes) :
    (catBytes (tbl.map (· ++ [0]))).length = strDataLen tbl := by
  induction tbl with
  | nil => rfl
  | cons s ss ih =>
    rw [List.map_cons, catBytes_cons, List.length_append, ih, strDataLen_cons]
    simp

theorem encStrHeader_length_fields (h : StrHeader) :
    (encStrHeader h).length = h.magic.length + 36 := by
  simp [encStrHeader]

theorem buildStringBlock_length (H : HashModel) (tbl : List Bytes) :
    (buildStringBlock H tbl).length = 40 + 4 * tbl.length + strDataLen tbl := by
  unfold buildStringBlock
  rw [List.length_append, List.length_append, encStrHeader_length_fields,
    catBytes_enc4_length, strOffsets_length, stringData_length]
  simp [strHeaderOf, kStringMagic]

theorem parseU32sN_cat : ∀ (os : List Nat) (rest : Bytes), (∀ o ∈ os, o < 2 ^ 32) →
    parseU32sN os.length (catBytes (os.map (encLE · 4)) ++ rest) = os := by
  intro os
  induction os with
  | nil => intro rest _; rfl
  | cons o os ih =>
    intro rest hlt
    rw [List.map_cons, catBytes_cons, List.append_assoc]
    show decLE _ 4 :: parseU32sN os.length _ = o :: os
    rw [decLE_encLE_append o 4 _ (by
      have := hlt o (List.mem_cons_self o os)
      norm_num at this ⊢
      exact this)]
    rw [drop_append_eq _ _ _ (encLE_length o 4)]
    rw [ih rest (fun x hx => hlt x (List.mem_cons_of_mem o hx))]

theorem findIdx_zero_append (s r : Bytes) (hs : ∀ b ∈ s, b ≠ 0) :
    (s ++ 0 :: r).findIdx (· = 0) = s.length := by
  induction s with
  | nil => simp [List.findIdx_cons]
  | cons b bs ih =>
    rw [List.cons_append, List.findIdx_cons]
    have hb : b ≠ 0 := hs b (List.mem_cons_self b bs)
    simp only [show (decide (b = 0)) = false from by simpa using hb, cond_false]
    rw [ih (fun x hx => hs x (List.mem_cons_of_mem b hx))]
    simp

theorem parseStrings_of_cat : ∀ (tbl : List Bytes) (acc : Nat) (data : Bytes),
    data.drop acc = catBytes (tbl.map (· ++ [0])) →
    (∀ s ∈ tbl, ∀ b ∈ s, b ≠ 0) →
    acc + strDataLen tbl = data.length →
    parseStrings data (strOffsets tbl acc) = .ok tbl := by
  intro tbl
  induction tbl with
  | nil => intro acc data _ _ _; rfl
  | cons s ss ih =>
    intro acc data hplace hnul hlen
    rw [strDataLen_cons] at hlen
    rw [show strOffsets (s :: ss) acc = acc :: strOffsets ss (acc + (s.length + 1)) from rfl]
    unfold parseStrings
    rw [if_neg (by omega)]
    have hsd : data.drop acc = s ++ 0 :: catBytes (ss.map (· ++ [0])) := by
      rw [hplace, List.map_cons, catBytes_cons, List.append_assoc]
      rfl
    rw [hsd, findIdx_zero_append s _ (hnul s (List.mem_cons_self s ss))]
    rw [if_neg (by simp [List.length_append])]
    rw [ih (acc + (s.length + 1)) data ?_
      (fun t ht => hnul t (List.mem_cons_of_mem s ht)) (by omega)]
    · rw [take_append_len]
    · have := @drop_shift data (s ++ [0]) (catBytes (ss.map (· ++ [0])))
        acc (by rw [hsd]; simp)
      simpa [List.length_append] using this

end SnPak

namespace SnPak

theorem strHeaderOf_WF (H : HashModel) (tbl : List Bytes)
    (hc : tbl.length < 2 ^ 32) (hb : 40 + 4 * tbl.length + strDataLen tbl < 2 ^ 64) :
    (strHeaderOf H tbl).WF := by
  refine ⟨by simp [strHeaderOf, kStringMagic], by norm_num [strHeaderOf], ?_,
    by simpa [strHeaderOf] using hc, by norm_num [strHeaderOf],
    by simpa [strHeaderOf] using H.h128hi_lt _, by simpa [strHeaderOf] using H.h128lo_lt _⟩
  simp only [strHeaderOf, stringData_length]
  exact hb

theorem readStringTable_of_placed (H : HashModel) (f : Bytes) (hdr : PakHeader)
    (tbl : List Bytes) (r : Bytes)
    (hplace : f.drop hdr.stringTableOffset = buildStringBlock H tbl ++ r)
    (hsize : hdr.stringTableSize = (buildStringBlock H tbl).length)
    (hb : hdr.stringTableOffset + (buildStringBlock H tbl).length ≤ f.length)
    (hf64 : f.length < 2 ^ 64)
    (hcap : tbl.length ≤ kMaxStringCount)
    (hnul : ∀ s ∈ tbl, ∀ b ∈ s, b ≠ 0)
    (hdata32 : strDataLen tbl < 2 ^ 32) :
    readStringTable H f f.length hdr = .ok tbl := by
  have hlenB := buildStringBlock_length H tbl
  have hdl := stringData_length tbl
  have hWFsh : (strHeaderOf H tbl).WF := by
    refine strHeaderOf_WF H tbl (by unfold kMaxStringCount at hcap; omega) (by omega)
  have hx40 : (encStrHeader (strHeaderOf H tbl)).length = 40 := by
    rw [encStrHeader_length_fields]
    simp [strHeaderOf, kStringMagic]
  have hplace2 : f.drop hdr.stringTableOffset =
      encStrHeader (strHeaderOf H tbl) ++
        (catBytes ((strOffsets tbl 0).map (encLE · 4)) ++
          (catBytes (tbl.map (· ++ [0])) ++ r)) := by
    rw [hplace]
    unfold buildStringBlock
    simp [List.append_assoc]
  unfold readStringTable
  rw [if_neg (not_not_intro (by rw [hsize]; exact checkRange_of_le hb))]
  rw [if_neg (by rw [hsize, hlenB]; omega)]
  have hseek : seekAndReadExact f f.length hdr.stringTableOffset 40 =
      some (encStrHeader (strHeaderOf H tbl)) := by
    rw [← hx40]
    exact seekAndReadExact_of_place hplace2 (by omega)
  have hparse : parseStrHeader (encStrHeader (strHeaderOf H tbl)) = strHeaderOf H tbl := by
    have := parse_encStrHeader (strHeaderOf H tbl) [] hWFsh
    rwa [List.append_nil] at this
  simp only [hseek, hparse]
  have hC1 : ¬ ((strHeaderOf H tbl).magic ≠ kStringMagic) := by simp [strHeaderOf]
  have hC2 : ¬ ((strHeaderOf H tbl).version ≠ 1) := by simp [strHeaderOf]
  have hC3 : ¬ ((strHeaderOf H tbl).blockSize ≠ hdr.stringTableSize) := by
    rw [hsize, hlenB]
    simp [strHeaderOf, stringData_length]
  have hC4 : ¬ ((strHeaderOf H tbl).stringCount > kMaxStringCount) := by
    simp only [strHeaderOf]
    omega
  have hC5 : ¬ ((strHeaderOf H tbl).blockSize < 40 + 4 * (strHeaderOf H tbl).stringCount) := by
    simp only [strHeaderOf, stringData_length]
    omega
  have hC6 : ¬¬ (checkRange f.length hdr.stringTableOffset (strHeaderOf H tbl).blockSize = true) := by
    apply not_not_intro
    have : (strHeaderOf H tbl).blockSize = 40 + 4 * tbl.length + strDataLen tbl := by
      simp only [strHeaderOf, stringData_length]
    rw [this]
    exact checkRange_of_le (by omega)
  rw [if_neg hC1, if_neg hC2, if_neg hC3, if_neg hC4, if_neg hC5, if_neg hC6]
  have hro : readExact f (hdr.stringTableOffset + 40)
      (4 * (strHeaderOf H tbl).stringCount) =
      some (catBytes ((strOffsets tbl 0).map (encLE · 4))) := by
    have hoffB : f.drop (hdr.stringTableOffset + 40) =
        catBytes ((strOffsets tbl 0).map (encLE · 4)) ++
          (catBytes (tbl.map (· ++ [0])) ++ r) := by
      have := drop_shift hplace2
      rwa [hx40] at this
    have hlen4 : (catBytes ((strOffsets tbl 0).map (encLE · 4))).length =
        4 * (strHeaderOf H tbl).stringCount := by
      rw [catBytes_enc4_length, strOffsets_length]
      simp [strHeaderOf]
    rw [← hlen4]
    exact readExact_of_place hoffB (by omega)
  simp only [hro]
  have hds : (strHeaderOf H tbl).blockSize - 40 - 4 * (strHeaderOf H tbl).stringCount =
      strDataLen tbl := by
    simp only [strHeaderOf, stringData_length]
    omega
  rw [hds]
  have hrd : readExact f (hdr.stringTableOffset + 40 + 4 * (strHeaderOf H tbl).stringCount)
      (strDataLen tbl) = some (catBytes (tbl.map (· ++ [0]))) := by
    have hoffB : f.drop (hdr.stringTableOffset + 40) =
        catBytes ((strOffsets tbl 0).map (encLE · 4)) ++
          (catBytes (tbl.map (· ++ [0])) ++ r) := by
      have := drop_shift hplace2
      rwa [hx40] at this
    have hdataPlace : f.drop (hdr.stringTableOffset + 40 + 4 * (strHeaderOf H tbl).stringCount) =
        catBytes (tbl.map (· ++ [0])) ++ r := by
      have h1 := drop_shift hoffB
      rw [catBytes_enc4_length, strOffsets_length] at h1
      have h2 : hdr.stringTableOffset + 40 + 4 * (strHeaderOf H tbl).stringCount =
          hdr.stringTableOffset + 40 + 4 * tbl.length := by simp [strHeaderOf]
      rw [h2]
      exact h1
    rw [← stringData_length tbl]
    exact readExact_of_place hdataPlace (by omega)
  simp only [hrd]
  have hC7 : ¬ (H.h128hi (catBytes (tbl.map (· ++ [0]))) ≠ (strHeaderOf H tbl).hashHi ∨
      H.h128lo (catBytes (tbl.map (· ++ [0]))) ≠ (strHeaderOf H tbl).hashLo) := by
    simp [strHeaderOf]
  rw [if_neg hC7]
  have hcount : (strHeaderOf H tbl).stringCount = (strOffsets tbl 0).length := by
    rw [strOffsets_length]
    simp [strHeaderOf]
  rw [hcount]
  have hoffs0 : ∀ o ∈ strOffsets tbl 0, o < 2 ^ 32 := by
    intro o ho
    have := strOffsets_le tbl 0 o ho
    omega
  have hu32 : parseU32sN (strOffsets tbl 0).length
      (catBytes ((strOffsets tbl 0).map (encLE · 4))) = strOffsets tbl 0 := by
    have := parseU32sN_cat (strOffsets tbl 0) [] hoffs0
    rwa [List.append_nil] at this
  rw [hu32]
  exact parseStrings_of_cat tbl 0 (catBytes (tbl.map (· ++ [0]))) (by simp)
    hnul (by rw [stringData_length]; omega)

end SnPak

namespace SnPak

theorem catBytes_encIdxEntry_length (es : List IdxEntry) (hWF : ∀ e ∈ es, e.WF) :
    (catBytes (es.map encIdxEntry)).length = 128 * es.length := by
  induction es with
  | nil => rfl
  | cons e es ih =>
    rw [List.map_cons, catBytes_cons, List.length_append,
      encIdxEntry_length e (hWF e (List.mem_cons_self e es)),
      ih (fun x hx => hWF x (List.mem_cons_of_mem e hx))]
    simp
    omega

theorem catBytes_encBulkEntry_length (bs : List BulkEntry) (hWF : ∀ b ∈ bs, b.WF) :
    (catBytes (bs.map encBulkEntry)).length = 56 * bs.length := by
  induction bs with
  | nil => rfl
  | cons b bs ih =>
    rw [List.map_cons, catBytes_cons, List.length_append,
      encBulkEntry_length b (hWF b (List.mem_cons_self b bs)),
      ih (fun x hx => hWF x (List.mem_cons_of_mem b hx))]
    simp
    omega

theorem parseEntriesN_cat : ∀ (es : List IdxEntry) (rest : Bytes), (∀ e ∈ es, e.WF) →
    parseEntriesN es.length (catBytes (es.map encIdxEntry) ++ rest) = es := by
  intro es
  induction es with
  | nil => intro rest _; rfl
  | cons e es ih =>
    intro rest hWF
    rw [List.map_cons, catBytes_cons, List.append_assoc]
    show parseIdxEntry _ :: parseEntriesN es.length _ = e :: es
    rw [parse_encIdxEntry e _ (hWF e (List.mem_cons_self e es))]
    rw [drop_append_eq _ _ _ (encIdxEntry_length e (hWF e (List.mem_cons_self e es)))]
    rw [ih rest (fun x hx => hWF x (List.mem_cons_of_mem e hx))]

theorem parseBulksN_cat : ∀ (bs : List BulkEntry) (rest : Bytes), (∀ b ∈ bs, b.WF) →
    parseBulksN bs.length (catBytes (bs.map encBulkEntry) ++ rest) = bs := by
  intro bs
  induction bs with
  | nil => intro rest _; rfl
  | cons b bs ih =>
    intro rest hWF
    rw [List.map_cons, catBytes_cons, List.append_assoc]
    show parseBulkEntry _ :: parseBulksN bs.length _ = b :: bs
    rw [parse_encBulkEntry b _ (hWF b (List.mem_cons_self b bs))]
    rw [drop_append_eq _ _ _ (encBulkEntry_length b (hWF b (List.mem_cons_self b bs)))]
    rw [ih rest (fun x hx => hWF x (List.mem_cons_of_mem b hx))]

theorem encIdxHeader_length_fields (h : IdxHeader) :
    (encIdxHeader h).length = h.magic.length + 52 + h.reserved.length := by
  simp [encIdxHeader]
  omega

theorem idxHeaderOf_WF (H : HashModel) (entries : List IdxEntry) (bulks : List BulkEntry)
    (prevOff prevSize : Nat) (hec : entries.length < 2 ^ 32) (hbc : bulks.length < 2 ^ 32)
    (hbs : 88 + entries.length * 128 + bulks.length * 56 < 2 ^ 64)
    (hpo : prevOff < 2 ^ 64) (hps : prevSize < 2 ^ 64) :
    (idxHeaderOf H entries bulks prevOff prevSize).WF := by
  refine ⟨by simp [idxHeaderOf, kIndexMagic], by simp [idxHeaderOf],
    by norm_num [idxHeaderOf], by simpa [idxHeaderOf] using hbs,
    by simpa [idxHeaderOf] using hec, by simpa [idxHeaderOf] using hbc,
    by simpa [idxHeaderOf] using H.h128hi_lt _, by simpa [idxHeaderOf] using H.h128lo_lt _,
    by simpa [idxHeaderOf] using hpo, by simpa [idxHeaderOf] using hps⟩

theorem encIdxHeaderOf_length (H : HashModel) (entries : List IdxEntry)
    (bulks : List BulkEntry) (prevOff prevSize : Nat) :
    (encIdxHeader (idxHeaderOf H entries bulks prevOff prevSize)).length = 88 := by
  rw [encIdxHeader_length_fields]
  simp [idxHeaderOf, kIndexMagic]

theorem buildIndexBlock_length (H : HashModel) (entries : List IdxEntry)
    (bulks : List BulkEntry) (prevOff prevSize : Nat)
    (hWFe : ∀ e ∈ entries, e.WF) (hWFb : ∀ b ∈ bulks, b.WF) :
    (buildIndexBlock H entries bulks prevOff prevSize).length =
      88 + entries.length * 128 + bulks.length * 56 := by
  unfold buildIndexBlock
  rw [List.length_append, List.length_append, encIdxHeaderOf_length,
    catBytes_encIdxEntry_length entries hWFe, catBytes_encBulkEntry_length bulks hWFb]
  omega

theorem readIndex_of_placed (H : HashModel) (f : Bytes) (hdr : PakHeader)
    (entries : List IdxEntry) (bulks : List BulkEntry) (prevOff prevSize : Nat) (r : Bytes)
    (hplace : f.drop hdr.indexOffset = buildIndexBlock H entries bulks prevOff prevSize ++ r)
    (hsize : hdr.indexSize = (buildIndexBlock H entries bulks prevOff prevSize).length)
    (hb : hdr.indexOffset + (buildIndexBlock H entries bulks prevOff prevSize).length ≤ f.length)
    (hf64 : f.length < 2 ^ 64)
    (hhashHi : hdr.indexHashHi = H.h128hi (buildIndexBlock H entries bulks prevOff prevSize))
    (hhashLo : hdr.indexHashLo = H.h128lo (buildIndexBlock H entries bulks prevOff prevSize))
    (hec : entries.length ≤ kMaxEntryCount) (hbc : bulks.length ≤ kMaxBulkEntryCount)
    (hWFe : ∀ e ∈ entries, e.WF) (hWFb : ∀ b ∈ bulks, b.WF)
    (hpo : prevOff < 2 ^ 64) (hps : prevSize < 2 ^ 64) :
    readIndex H f f.length hdr = .ok (entries, bulks) := by
  have hlenB := buildIndexBlock_length H entries bulks prevOff prevSize hWFe hWFb
  have hWFih : (idxHeaderOf H entries bulks prevOff prevSize).WF := by
    refine idxHeaderOf_WF H entries bulks prevOff prevSize
      (by unfold kMaxEntryCount at hec; omega)
      (by unfold kMaxBulkEntryCount at hbc; omega) (by omega) hpo hps
  have hx88 := encIdxHeaderOf_length H entries bulks prevOff prevSize
  have hplace2 : f.drop hdr.indexOffset =
      encIdxHeader (idxHeaderOf H entries bulks prevOff prevSize) ++
        (catBytes (entries.map encIdxEntry) ++ (catBytes (bulks.map encBulkEntry) ++ r)) := by
    rw [hplace]
    unfold buildIndexBlock
    simp [List.append_assoc]
  unfold readIndex
  rw [if_neg (not_not_intro (by rw [hsize]; exact checkRange_of_le hb))]
  rw [if_neg (by rw [hsize, hlenB]; omega)]
  have hseek : seekAndReadExact f f.length hdr.indexOffset 88 =
      some (encIdxHeader (idxHeaderOf H entries bulks prevOff prevSize)) := by
    rw [← hx88]
    exact seekAndReadExact_of_place hplace2 (by omega)
  have hparse : parseIdxHeader (encIdxHeader (idxHeaderOf H entries bulks prevOff prevSize)) =
      idxHeaderOf H entries bulks prevOff prevSize := by
    have := parse_encIdxHeader (idxHeaderOf H entries bulks prevOff prevSize) [] hWFih
    rwa [List.append_nil] at this
  simp only [hseek, hparse]
  have hC1 : ¬ ((idxHeaderOf H entries bulks prevOff prevSize).magic ≠ kIndexMagic) := by
    simp [idxHeaderOf]
  have hC2 : ¬ ((idxHeaderOf H entries bulks prevOff prevSize).version ≠ 1) := by
    simp [idxHeaderOf]
  have hC3 : ¬ ((idxHeaderOf H entries bulks prevOff prevSize).blockSize ≠ hdr.indexSize) := by
    rw [hsize, hlenB]
    simp [idxHeaderOf]
  have hC4 : ¬ ((idxHeaderOf H entries bulks prevOff prevSize).entryCount > kMaxEntryCount) := by
    simp only [idxHeaderOf]
    omega
  have hC5 : ¬ ((idxHeaderOf H entries bulks prevOff prevSize).bulkEntryCount >
      kMaxBulkEntryCount) := by
    simp only [idxHeaderOf]
    omega
  have hC6 : ¬ ((idxHeaderOf H entries bulks prevOff prevSize).blockSize ≠
      88 + (idxHeaderOf H entries bulks prevOff prevSize).entryCount * 128 +
        (idxHeaderOf H entries bulks prevOff prevSize).bulkEntryCount * 56) := by
    simp [idxHeaderOf]
  have hC7 : ¬¬ (checkRange f.length hdr.indexOffset
      (idxHeaderOf H entries bulks prevOff prevSize).blockSize = true) := by
    apply not_not_intro
    have : (idxHeaderOf H entries bulks prevOff prevSize).blockSize =
        88 + entries.length * 128 + bulks.length * 56 := by simp [idxHeaderOf]
    rw [this]
    exact checkRange_of_le (by omega)
  rw [if_neg hC1, if_neg hC2, if_neg hC3, if_neg hC4, if_neg hC5, if_neg hC6, if_neg hC7]
  have hentPlace : f.drop (hdr.indexOffset + 88) =
      catBytes (entries.map encIdxEntry) ++ (catBytes (bulks.map encBulkEntry) ++ r) := by
    have := drop_shift hplace2
    rwa [hx88] at this
  have hentLen : (catBytes (entries.map encIdxEntry)).length =
      (idxHeaderOf H entries bulks prevOff prevSize).entryCount * 128 := by
    rw [catBytes_encIdxEntry_length entries hWFe]
    simp [idxHeaderOf]
    omega
  have hre : readExact f (hdr.indexOffset + 88)
      ((idxHeaderOf H entries bulks prevOff prevSize).entryCount * 128) =
      some (catBytes (entries.map encIdxEntry)) := by
    rw [← hentLen]
    exact readExact_of_place hentPlace (by omega)
  simp only [hre]
  have hbulkPlace : f.drop (hdr.indexOffset + 88 +
      (idxHeaderOf H entries bulks prevOff prevSize).entryCount * 128) =
      catBytes (bulks.map encBulkEntry) ++ r := by
    have h1 := drop_shift hentPlace
    rw [hentLen] at h1
    exact h1
  have hbulkLen : (catBytes (bulks.map encBulkEntry)).length =
      (idxHeaderOf H entries bulks prevOff prevSize).bulkEntryCount * 56 := by
    rw [catBytes_encBulkEntry_length bulks hWFb]
    simp [idxHeaderOf]
    omega
  have hrb : readExact f (hdr.indexOffset + 88 +
      (idxHeaderOf H entries bulks prevOff prevSize).entryCount * 128)
      ((idxHeaderOf H entries bulks prevOff prevSize).bulkEntryCount * 56) =
      some (catBytes (bulks.map encBulkEntry)) := by
    rw [← hbulkLen]
    exact readExact_of_place hbulkPlace (by omega)
  simp only [hrb]
  have hC8 : ¬ (H.h128hi (catBytes (entries.map encIdxEntry) ++
        catBytes (bulks.map encBulkEntry)) ≠
      (idxHeaderOf H entries bulks prevOff prevSize).entriesHashHi ∨
      H.h128lo (catBytes (entries.map encIdxEntry) ++ catBytes (bulks.map encBulkEntry)) ≠
      (idxHeaderOf H entries bulks prevOff prevSize).entriesHashLo) := by
    simp [idxHeaderOf]
  rw [if_neg hC8]
  have hC9 : ¬ (H.h128hi (encIdxHeader (idxHeaderOf H entries bulks prevOff prevSize) ++
        catBytes (entries.map encIdxEntry) ++ catBytes (bulks.map encBulkEntry)) ≠
      hdr.indexHashHi ∨
      H.h128lo (encIdxHeader (idxHeaderOf H entries bulks prevOff prevSize) ++
        catBytes (entries.map encIdxEntry) ++ catBytes (bulks.map encBulkEntry)) ≠
      hdr.indexHashLo) := by
    rw [hhashHi, hhashLo]
    unfold buildIndexBlock
    simp
  rw [if_neg hC9]
  have hpe : parseEntriesN (idxHeaderOf H entries bulks prevOff prevSize).entryCount
      (catBytes (entries.map encIdxEntry)) = entries := by
    have h1 : (idxHeaderOf H entries bulks prevOff prevSize).entryCount = entries.length := by
      simp [idxHeaderOf]
    rw [h1]
    have := parseEntriesN_cat entries [] hWFe
    rwa [List.append_nil] at this
  have hpb : parseBulksN (idxHeaderOf H entries bulks prevOff prevSize).bulkEntryCount
      (catBytes (bulks.map encBulkEntry)) = bulks := by
    have h1 : (idxHeaderOf H entries bulks prevOff prevSize).bulkEntryCount = bulks.length := by
      simp [idxHeaderOf]
    rw [h1]
    have := parseBulksN_cat bulks [] hWFb
    rwa [List.append_nil] at this
  rw [hpe, hpb]

end SnPak

namespace SnPak

/-! ### Writer-loop characterization (`AssetPackWriter::Write` main loop) -/

theorem drop_within {f B s : Bytes} {off d : Nat} (h : f.drop off = B ++ s)
    (hd : d ≤ B.length) : f.drop (off + d) = B.drop d ++ s := by
  have h1 : f.drop (off + d) = (f.drop off).drop d := by
    rw [List.drop_drop]
  rw [h1, h, List.drop_append_eq_append_drop, Nat.sub_eq_zero_of_le hd, List.drop_zero]

theorem sum_take_get_le {α : Type} (g : α → Nat) :
    ∀ (l : List α) (k : Nat) (hk : k < l.length),
      ((l.take k).map g).sum + g (l.get ⟨k, hk⟩) ≤ (l.map g).sum := by
  intro l
  induction l with
  | nil => intro k hk; simp at hk
  | cons a t ih =>
    intro k hk
    cases k with
    | zero => simp
    | succ k =>
      rw [List.take_succ_cons, List.map_cons, List.map_cons]
      have := ih k (by simpa using hk)
      simp only [List.sum_cons, List.get_cons_succ]
      omega

theorem getD_append_mid {α : Type} (pre mid post : List α) (j : Nat) (d : α)
    (hj : j < mid.length) :
    (pre ++ mid ++ post).getD (pre.length + j) d = mid.getD j d := by
  rw [List.append_assoc]
  unfold List.getD
  rw [List.get?_append_right (by omega)]
  rw [show pre.length + j - pre.length = j from by omega]
  rw [List.get?_append hj]

theorem strId_le : ∀ (tbl : List Bytes) (s : Bytes), strId tbl s ≤ tbl.length := by
  intro tbl
  induction tbl with
  | nil => intro s; simp [strId]
  | cons t ts ih =>
    intro s
    unfold strId
    split_ifs
    · simp
    · have := ih s
      simp
      omega

theorem bulkMode_lt (c : CodecModel) (bc : Bool) : bulkMode c bc < 2 ^ 8 := by
  unfold bulkMode
  split_ifs
  · exact c.mode_lt
  · norm_num

theorem bulkLevel_lt (c : CodecModel) (bc : Bool) : bulkLevel c bc < 2 ^ 8 := by
  unfold bulkLevel
  split_ifs
  · exact c.level_lt
  · norm_num

theorem bulkChunkHeaderOf_WF (c : CodecModel) (H : HashModel) (a : AssetPackEntry)
    (b : BulkChunk) (hid : a.id.length = 16) (hpt : a.cookedPayloadType.length = 16)
    (hc : (bulkCompressed c b).length < 2 ^ 64) (hu : b.bytes.length < 2 ^ 64) :
    (bulkChunkHeaderOf c H a b).WF := by
  refine ⟨by simp [bulkChunkHeaderOf, kChunkMagic], by norm_num [bulkChunkHeaderOf],
    by simpa [bulkChunkHeaderOf] using hid, by simpa [bulkChunkHeaderOf] using hpt,
    by norm_num [bulkChunkHeaderOf],
    by simpa [bulkChunkHeaderOf] using bulkMode_lt c b.bCompress,
    by norm_num [bulkChunkHeaderOf], ?_,
    by simpa [bulkChunkHeaderOf] using hc, by simpa [bulkChunkHeaderOf] using hu,
    by simpa [bulkChunkHeaderOf] using H.h128hi_lt _,
    by simpa [bulkChunkHeaderOf] using H.h128lo_lt _⟩
  have := bulkLevel_lt c b.bCompress
  simp only [bulkChunkHeaderOf]
  omega

theorem payloadChunkHeaderOf_WF (c : CodecModel) (H : HashModel) (a : AssetPackEntry)
    (hid : a.id.length = 16) (hpt : a.cookedPayloadType.length = 16)
    (hsv : a.cookedSchemaVersion < 2 ^ 32)
    (hc : (packCompress c a.cookedBytes).length < 2 ^ 64)
    (hu : a.cookedBytes.length < 2 ^ 64) :
    (payloadChunkHeaderOf c H a).WF := by
  refine ⟨by simp [payloadChunkHeaderOf, kChunkMagic], by norm_num [payloadChunkHeaderOf],
    by simpa [payloadChunkHeaderOf] using hid, by simpa [payloadChunkHeaderOf] using hpt,
    by simpa [payloadChunkHeaderOf] using hsv,
    by simpa [payloadChunkHeaderOf] using c.mode_lt,
    by norm_num [payloadChunkHeaderOf], ?_,
    by simpa [payloadChunkHeaderOf] using hc, by simpa [payloadChunkHeaderOf] using hu,
    by simpa [payloadChunkHeaderOf] using H.h128hi_lt _,
    by simpa [payloadChunkHeaderOf] using H.h128lo_lt _⟩
  have := c.level_lt
  simp only [payloadChunkHeaderOf]
  omega

theorem writeBulks_cons (c : CodecModel) (H : HashModel) (a : AssetPackEntry)
    (b : BulkChunk) (rest : List BulkChunk) (i off : Nat) :
    writeBulks c H a (b :: rest) i off =
      ((encChunkHeader (bulkChunkHeaderOf c H a b) ++ bulkCompressed c b) ++
         (writeBulks c H a rest (i + 1) (off + (80 + (bulkCompressed c b).length))).1,
       mkBulkEntry c H b i off ::
         (writeBulks c H a rest (i + 1) (off + (80 + (bulkCompressed c b).length))).2) :=
  rfl

theorem bulkSizes_cons (c : CodecModel) (b : BulkChunk) (bs : List BulkChunk) :
    bulkSizes c (b :: bs) = 80 + (bulkCompressed c b).length + bulkSizes c bs := by
  simp [bulkSizes]

theorem writeBulks_bytes_indep (c : CodecModel) (H : HashModel) (a : AssetPackEntry) :
    ∀ (bs : List BulkChunk) (i off i2 off2 : Nat),
      (writeBulks c H a bs i off).1 = (writeBulks c H a bs i2 off2).1 := by
  intro bs
  induction bs with
  | nil => intro i off i2 off2; rfl
  | cons b rest ih =>
    intro i off i2 off2
    rw [writeBulks_cons, writeBulks_cons]
    simp only
    rw [ih (i + 1) (off + (80 + (bulkCompressed c b).length)) (i2 + 1)
      (off2 + (80 + (bulkCompressed c b).length))]

theorem writeBulks_len (c : CodecModel) (H : HashModel) (a : AssetPackEntry) :
    ∀ (bs : List BulkChunk) (i off : Nat),
      (writeBulks c H a bs i off).2.length = bs.length := by
  intro bs
  induction bs with
  | nil => intro i off; rfl
  | cons b rest ih =>
    intro i off
    rw [writeBulks_cons]
    simp [ih]

theorem writeBulks_bytes_length (c : CodecModel) (H : HashModel) (a : AssetPackEntry) :
    ∀ (bs : List BulkChunk) (i off : Nat),
      (∀ b ∈ bs, (bulkChunkHeaderOf c H a b).WF) →
      (writeBulks c H a bs i off).1.length = bulkSizes c bs := by
  intro bs
  induction bs with
  | nil => intro i off _; rfl
  | cons b rest ih =>
    intro i off hWF
    rw [writeBulks_cons, bulkSizes_cons]
    simp only [List.length_append]
    rw [encChunkHeader_length _ (hWF b (List.mem_cons_self b rest)),
      ih (i + 1) (off + (80 + (bulkCompressed c b).length))
        (fun x hx => hWF x (List.mem_cons_of_mem b hx))]

theorem writeBulks_getD (c : CodecModel) (H : HashModel) (a : AssetPackEntry) :
    ∀ (bs : List BulkChunk) (i off j : Nat) (hj : j < bs.length),
      (writeBulks c H a bs i off).2.getD j default =
        mkBulkEntry c H (bs.get ⟨j, hj⟩) (i + j) (off + bulkSizes c (bs.take j)) := by
  intro bs
  induction bs with
  | nil => intro i off j hj; simp at hj
  | cons b rest ih =>
    intro i off j hj
    rw [writeBulks_cons]
    cases j with
    | zero =>
      simp [bulkSizes]
    | succ j =>
      simp only [List.getD_cons_succ, List.get_cons_succ]
      rw [ih (i + 1) (off + (80 + (bulkCompressed c b).length)) j (by simpa using hj)]
      rw [List.take_succ_cons, bulkSizes_cons]
      rw [show i + 1 + j = i + (j + 1) from by omega,
        show off + (80 + (bulkCompressed c b).length) + bulkSizes c (rest.take j) =
          off + (80 + (bulkCompressed c b).length + bulkSizes c (rest.take j)) from by omega]

theorem writeBulks_drop (c : CodecModel) (H : HashModel) (a : AssetPackEntry) :
    ∀ (bs : List BulkChunk) (i off j : Nat) (hj : j < bs.length),
      (∀ b ∈ bs, (bulkChunkHeaderOf c H a b).WF) →
      ∃ r, (writeBulks c H a bs i off).1.drop (bulkSizes c (bs.take j)) =
        encChunkHeader (bulkChunkHeaderOf c H a (bs.get ⟨j, hj⟩)) ++
          (bulkCompressed c (bs.get ⟨j, hj⟩) ++ r) := by
  intro bs
  induction bs with
  | nil => intro i off j hj; simp at hj
  | cons b rest ih =>
    intro i off j hj hWF
    rw [writeBulks_cons]
    cases j with
    | zero =>
      refine ⟨(writeBulks c H a rest (i + 1) (off + (80 + (bulkCompressed c b).length))).1, ?_⟩
      simp [bulkSizes, List.append_assoc]
    | succ j =>
      obtain ⟨r, hr⟩ := ih (i + 1) (off + (80 + (bulkCompressed c b).length)) j
        (by simpa using hj) (fun x hx => hWF x (List.mem_cons_of_mem b hx))
      refine ⟨r, ?_⟩
      rw [List.take_succ_cons, bulkSizes_cons]
      simp only [List.get_cons_succ]
      have hlen : (encChunkHeader (bulkChunkHeaderOf c H a b) ++ bulkCompressed c b).length =
          80 + (bulkCompressed c b).length := by
        rw [List.length_append, encChunkHeader_length _ (hWF b (List.mem_cons_self b rest))]
      rw [List.drop_append_eq_append_drop,
        List.drop_eq_nil_of_le (by rw [hlen]; omega), List.nil_append,
        show 80 + (bulkCompressed c b).length + bulkSizes c (rest.take j) -
          (encChunkHeader (bulkChunkHeaderOf c H a b) ++ bulkCompressed c b).length =
          bulkSizes c (rest.take j) from by rw [hlen]; omega]
      exact hr

end SnPak

namespace SnPak

theorem bulkHeaders_WF_of (c : CodecModel) (H : HashModel) (a : AssetPackEntry)
    (hWF : a.WF) (hcaps : sizeCaps c a) :
    ∀ b ∈ a.bulk, (bulkChunkHeaderOf c H a b).WF := by
  intro b hb
  obtain ⟨h1, h2, h3, h4, h5, h6, h7⟩ := hWF
  obtain ⟨c1, c2, c3⟩ := hcaps
  refine bulkChunkHeaderOf_WF c H a b h1 h3 ?_ ?_
  · have := (c3 b hb).1
    unfold kMaxBlockSize at this
    omega
  · have := (c3 b hb).2
    unfold kMaxBlockSize at this
    omega

theorem payloadHeader_WF_of (c : CodecModel) (H : HashModel) (a : AssetPackEntry)
    (hWF : a.WF) (hcaps : sizeCaps c a) : (payloadChunkHeaderOf c H a).WF := by
  obtain ⟨h1, h2, h3, h4, h5, h6, h7⟩ := hWF
  obtain ⟨c1, c2, c3⟩ := hcaps
  refine payloadChunkHeaderOf_WF c H a h1 h3 h4 ?_ ?_
  · unfold kMaxBlockSize at c1
    omega
  · unfold kMaxBlockSize at c2
    omega

theorem assetBytes_length (c : CodecModel) (H : HashModel) (a : AssetPackEntry)
    (hWF : a.WF) (hcaps : sizeCaps c a) :
    (assetBytes c H a).length = assetSize c a := by
  unfold assetBytes assetSize bulkBytesOf
  rw [List.length_append, List.length_append,
    encChunkHeader_length _ (payloadHeader_WF_of c H a hWF hcaps),
    writeBulks_bytes_length c H a a.bulk 0 0 (bulkHeaders_WF_of c H a hWF hcaps)]

theorem writeAssets_cons (c : CodecModel) (H : HashModel) (tbl : List Bytes)
    (a : AssetPackEntry) (rest : List AssetPackEntry) (off bulkAcc : Nat) :
    writeAssets c H tbl (a :: rest) off bulkAcc =
      (((encChunkHeader (payloadChunkHeaderOf c H a) ++ packCompress c a.cookedBytes) ++
          (writeBulks c H a a.bulk 0
            (off + (80 + (packCompress c a.cookedBytes).length))).1) ++
         (writeAssets c H tbl rest (off + assetSize c a) (bulkAcc + a.bulk.length)).1,
       mkIndexEntry c H tbl a off bulkAcc ::
         (writeAssets c H tbl rest (off + assetSize c a) (bulkAcc + a.bulk.length)).2.1,
       (writeBulks c H a a.bulk 0
           (off + (80 + (packCompress c a.cookedBytes).length))).2 ++
         (writeAssets c H tbl rest (off + assetSize c a) (bulkAcc + a.bulk.length)).2.2) :=
  rfl

theorem writeAssets_bytes_eq (c : CodecModel) (H : HashModel) (tbl : List Bytes) :
    ∀ (assets : List AssetPackEntry) (off acc : Nat),
      (writeAssets c H tbl assets off acc).1 = catBytes (assets.map (assetBytes c H)) := by
  intro assets
  induction assets with
  | nil => intro off acc; rfl
  | cons a rest ih =>
    intro off acc
    rw [writeAssets_cons]
    simp only [List.map_cons, catBytes_cons]
    rw [ih (off + assetSize c a) (acc + a.bulk.length)]
    rw [writeBulks_bytes_indep c H a a.bulk 0
      (off + (80 + (packCompress c a.cookedBytes).length)) 0 0]
    rw [show assetBytes c H a =
      (encChunkHeader (payloadChunkHeaderOf c H a) ++ packCompress c a.cookedBytes) ++
        (writeBulks c H a a.bulk 0 0).1 from rfl]

theorem writeAssets_entries_len (c : CodecModel) (H : HashModel) (tbl : List Bytes) :
    ∀ (assets : List AssetPackEntry) (off acc : Nat),
      (writeAssets c H tbl assets off acc).2.1.length = assets.length := by
  intro assets
  induction assets with
  | nil => intro off acc; rfl
  | cons a rest ih =>
    intro off acc
    rw [writeAssets_cons]
    simp [ih]

theorem totalBulk_cons (a : AssetPackEntry) (rest : List AssetPackEntry) :
    totalBulk (a :: rest) = a.bulk.length + totalBulk rest := by
  simp [totalBulk]

theorem writeAssets_bulks_len (c : CodecModel) (H : HashModel) (tbl : List Bytes) :
    ∀ (assets : List AssetPackEntry) (off acc : Nat),
      (writeAssets c H tbl assets off acc).2.2.length = totalBulk assets := by
  intro assets
  induction assets with
  | nil => intro off acc; rfl
  | cons a rest ih =>
    intro off acc
    rw [writeAssets_cons, totalBulk_cons]
    simp only [List.length_append]
    rw [writeBulks_len, ih]

theorem writeAssets_entry_getD (c : CodecModel) (H : HashModel) (tbl : List Bytes) :
    ∀ (assets : List AssetPackEntry) (off acc k : Nat) (hk : k < assets.length),
      (writeAssets c H tbl assets off acc).2.1.getD k default =
        mkIndexEntry c H tbl (assets.get ⟨k, hk⟩)
          (off + ((assets.take k).map (assetSize c)).sum)
          (acc + totalBulk (assets.take k)) := by
  intro assets
  induction assets with
  | nil => intro off acc k hk; simp at hk
  | cons a rest ih =>
    intro off acc k hk
    rw [writeAssets_cons]
    cases k with
    | zero =>
      simp [totalBulk]
    | succ k =>
      simp only [List.getD_cons_succ, List.get_cons_succ]
      rw [ih (off + assetSize c a) (acc + a.bulk.length) k (by simpa using hk)]
      rw [List.take_succ_cons, totalBulk_cons, List.map_cons]
      rw [show off + assetSize c a + ((rest.take k).map (assetSize c)).sum =
        off + (assetSize c a + ((rest.take k).map (assetSize c)).sum) from by omega]
      rw [show acc + a.bulk.length + totalBulk (rest.take k) =
        acc + (a.bulk.length + totalBulk (rest.take k)) from by omega]
      rw [List.sum_cons]

theorem writeAssets_entry_ids (c : CodecModel) (H : HashModel) (tbl : List Bytes) :
    ∀ (assets : List AssetPackEntry) (off acc : Nat),
      ((writeAssets c H tbl assets off acc).2.1).map (fun e => e.assetId) =
        assets.map (fun a => a.id) := by
  intro assets
  induction assets with
  | nil => intro off acc; rfl
  | cons a rest ih =>
    intro off acc
    rw [writeAssets_cons]
    simp only [List.map_cons]
    rw [ih (off + assetSize c a) (acc + a.bulk.length)]
    rfl

end SnPak

namespace SnPak

theorem writeAssets_bulks_decomp (c : CodecModel) (H : HashModel) (tbl : List Bytes) :
    ∀ (assets : List AssetPackEntry) (off acc k : Nat) (hk : k < assets.length),
      ∃ pre post,
        (writeAssets c H tbl assets off acc).2.2 =
          (pre ++ (writeBulks c H (assets.get ⟨k, hk⟩) (assets.get ⟨k, hk⟩).bulk 0
            (off + ((assets.take k).map (assetSize c)).sum +
              (80 + (packCompress c (assets.get ⟨k, hk⟩).cookedBytes).length))).2) ++ post ∧
        pre.length = totalBulk (assets.take k) := by
  intro assets
  induction assets with
  | nil => intro off acc k hk; simp at hk
  | cons a rest ih =>
    intro off acc k hk
    rw [writeAssets_cons]
    cases k with
    | zero =>
      refine ⟨[], (writeAssets c H tbl rest (off + assetSize c a) (acc + a.bulk.length)).2.2,
        ?_, by simp [totalBulk]⟩
      rw [show (a :: rest).get ⟨0, hk⟩ = a from rfl]
      simp only [List.take_zero, List.map_nil, List.sum_nil, List.nil_append]
      rw [show off + 0 + (80 + (packCompress c a.cookedBytes).length) =
        off + (80 + (packCompress c a.cookedBytes).length) from by omega]
    | succ k =>
      obtain ⟨pre, post, hEq, hLen⟩ := ih (off + assetSize c a) (acc + a.bulk.length) k
        (by simpa using hk)
      refine ⟨(writeBulks c H a a.bulk 0
          (off + (80 + (packCompress c a.cookedBytes).length))).2 ++ pre, post, ?_, ?_⟩
      · simp only [List.get_cons_succ, List.take_succ_cons, List.map_cons, List.sum_cons]
        rw [show off + (assetSize c a + ((rest.take k).map (assetSize c)).sum) =
          off + assetSize c a + ((rest.take k).map (assetSize c)).sum from by omega]
        rw [hEq]
        simp [List.append_assoc]
      · rw [List.length_append, writeBulks_len, hLen, List.take_succ_cons, totalBulk_cons]

theorem writeAssets_place (c : CodecModel) (H : HashModel) (tbl : List Bytes) :
    ∀ (assets : List AssetPackEntry) (off acc k : Nat) (hk : k < assets.length),
      (∀ a ∈ assets, a.WF) → (∀ a ∈ assets, sizeCaps c a) →
      ∃ r, (writeAssets c H tbl assets off acc).1.drop
          (((assets.take k).map (assetSize c)).sum) =
        assetBytes c H (assets.get ⟨k, hk⟩) ++ r := by
  intro assets
  induction assets with
  | nil => intro off acc k hk; simp at hk
  | cons a rest ih =>
    intro off acc k hk hWF hcaps
    rw [writeAssets_cons]
    cases k with
    | zero =>
      refine ⟨(writeAssets c H tbl rest (off + assetSize c a) (acc + a.bulk.length)).1, ?_⟩
      simp only [List.take_zero, List.map_nil, List.sum_nil, List.drop_zero,
        List.get_cons_zero]
      rw [writeBulks_bytes_indep c H a a.bulk 0
        (off + (80 + (packCompress c a.cookedBytes).length)) 0 0]
      rfl
    | succ k =>
      obtain ⟨r, hr⟩ := ih (off + assetSize c a) (acc + a.bulk.length) k
        (by simpa using hk) (fun x hx => hWF x (List.mem_cons_of_mem a hx))
        (fun x hx => hcaps x (List.mem_cons_of_mem a hx))
      refine ⟨r, ?_⟩
      simp only [List.get_cons_succ, List.take_succ_cons, List.map_cons, List.sum_cons]
      have hhead : ((encChunkHeader (payloadChunkHeaderOf c H a) ++
          packCompress c a.cookedBytes) ++
          (writeBulks c H a a.bulk 0
            (off + (80 + (packCompress c a.cookedBytes).length))).1).length =
          assetSize c a := by
        rw [writeBulks_bytes_indep c H a a.bulk 0
          (off + (80 + (packCompress c a.cookedBytes).length)) 0 0]
        exact assetBytes_length c H a (hWF a (List.mem_cons_self a rest))
          (hcaps a (List.mem_cons_self a rest))
      rw [List.drop_append_eq_append_drop,
        List.drop_eq_nil_of_le (by rw [hhead]; omega), List.nil_append, hhead,
        show assetSize c a + ((rest.take k).map (assetSize c)).sum - assetSize c a =
          ((rest.take k).map (assetSize c)).sum from by omega]
      exact hr

theorem mkIndexEntry_WF (c : CodecModel) (H : HashModel) (tbl : List Bytes)
    (a : AssetPackEntry) (off bulkStart : Nat)
    (hWF : a.WF) (hcaps : sizeCaps c a) (htbl : tbl.length < 2 ^ 32)
    (hoff : off < 2 ^ 64) (hbc : bulkStart + a.bulk.length < 2 ^ 32) :
    (mkIndexEntry c H tbl a off bulkStart).WF := by
  obtain ⟨h1, h2, h3, h4, h5, h6, h7⟩ := hWF
  obtain ⟨c1, c2, c3⟩ := hcaps
  unfold kMaxBlockSize at c1 c2
  have hn := strId_le tbl a.name
  have hv := strId_le tbl a.variantKey
  refine ⟨by simpa [mkIndexEntry] using h1, by simpa [mkIndexEntry] using h2,
    by simpa [mkIndexEntry] using h3, by simpa [mkIndexEntry] using h4,
    by simp only [mkIndexEntry]; omega,
    by simpa [mkIndexEntry] using H.h64_lt a.name, ?_, ?_,
    by simpa [mkIndexEntry] using hoff,
    by simp only [mkIndexEntry]; omega,
    by simp only [mkIndexEntry]; omega,
    by simpa [mkIndexEntry] using c.mode_lt, ?_,
    ?_, ?_, ?_,
    by simpa [mkIndexEntry] using H.h128hi_lt a.cookedBytes,
    by simpa [mkIndexEntry] using H.h128lo_lt a.cookedBytes⟩
  · simp only [mkIndexEntry]
    split_ifs
    · omega
    · norm_num [kVariantNone]
  · simp only [mkIndexEntry]
    split_ifs
    · exact H.h64_lt a.variantKey
    · norm_num
  · simp only [mkIndexEntry]
    split_ifs
    · norm_num [kFlagHasBulk]
    · norm_num
  · have := c.level_lt
    simp only [mkIndexEntry]
    omega
  · simp only [mkIndexEntry]
    split_ifs
    · omega
    · norm_num
  · simp only [mkIndexEntry]
    split_ifs
    · omega
    · norm_num

theorem mkBulkEntry_WF (c : CodecModel) (H : HashModel) (b : BulkChunk) (i off : Nat)
    (hsem : b.semantic < 2 ^ 32) (hi : i < 2 ^ 32) (hoff : off < 2 ^ 64)
    (hc : (bulkCompressed c b).length ≤ kMaxBlockSize)
    (hu : b.bytes.length ≤ kMaxBlockSize) :
    (mkBulkEntry c H b i off).WF := by
  unfold kMaxBlockSize at hc hu
  refine ⟨by simpa [mkBulkEntry] using hsem, by simpa [mkBulkEntry] using hi,
    by simpa [mkBulkEntry] using hoff,
    by simp only [mkBulkEntry]; omega,
    by simp only [mkBulkEntry]; omega,
    by simpa [mkBulkEntry] using bulkMode_lt c b.bCompress,
    by simp [mkBulkEntry],
    by simpa [mkBulkEntry] using H.h128hi_lt b.bytes,
    by simpa [mkBulkEntry] using H.h128lo_lt b.bytes⟩

theorem writeBulks_entries_WF (c : CodecModel) (H : HashModel) (a : AssetPackEntry) :
    ∀ (bs : List BulkChunk) (i off : Nat),
      (∀ b ∈ bs, b.semantic < 2 ^ 32 ∧ (bulkCompressed c b).length ≤ kMaxBlockSize ∧
        b.bytes.length ≤ kMaxBlockSize) →
      i + bs.length < 2 ^ 32 → off + bulkSizes c bs < 2 ^ 64 →
      ∀ be ∈ (writeBulks c H a bs i off).2, be.WF := by
  intro bs
  induction bs with
  | nil => intro i off _ _ _ be hbe; simp [writeBulks] at hbe
  | cons b rest ih =>
    intro i off hyp hi hoff be hbe
    rw [writeBulks_cons] at hbe
    rw [bulkSizes_cons] at hoff
    rcases List.mem_cons.mp hbe with rfl | hbe2
    · obtain ⟨s1, s2, s3⟩ := hyp b (List.mem_cons_self b rest)
      exact mkBulkEntry_WF c H b i off s1 (by simp at hi; omega) (by omega) s2 s3
    · exact ih (i + 1) (off + (80 + (bulkCompressed c b).length))
        (fun x hx => hyp x (List.mem_cons_of_mem b hx))
        (by simp at hi; omega) (by omega) be hbe2

theorem writeAssets_bulks_WF (c : CodecModel) (H : HashModel) (tbl : List Bytes) :
    ∀ (assets : List AssetPackEntry) (off acc : Nat),
      (∀ a ∈ assets, a.WF) → (∀ a ∈ assets, sizeCaps c a) →
      (∀ a ∈ assets, a.bulk.length < 2 ^ 32) →
      off + ((assets.map (assetSize c)).sum) < 2 ^ 64 →
      ∀ be ∈ (writeAssets c H tbl assets off acc).2.2, be.WF := by
  intro assets
  induction assets with
  | nil => intro off acc _ _ _ _ be hbe; simp [writeAssets] at hbe
  | cons a rest ih =>
    intro off acc hWF hcaps hbl hoff be hbe
    rw [writeAssets_cons] at hbe
    simp only [List.map_cons, List.sum_cons] at hoff
    rcases List.mem_append.mp hbe with hbe1 | hbe2
    · obtain ⟨w1, w2, w3, w4, w5, w6, w7⟩ := hWF a (List.mem_cons_self a rest)
      obtain ⟨q1, q2, q3⟩ := hcaps a (List.mem_cons_self a rest)
      refine writeBulks_entries_WF c H a a.bulk 0
        (off + (80 + (packCompress c a.cookedBytes).length))
        (fun b hb => ⟨w7 b hb, (q3 b hb).1, (q3 b hb).2⟩)
        (by have := hbl a (List.mem_cons_self a rest); omega)
        (by unfold assetSize at hoff; omega) be hbe1
    · exact ih (off + assetSize c a) (acc + a.bulk.length)
        (fun x hx => hWF x (List.mem_cons_of_mem a hx))
        (fun x hx => hcaps x (List.mem_cons_of_mem a hx))
        (fun x hx => hbl x (List.mem_cons_of_mem a hx))
        (by omega) be hbe2

theorem writeAssets_entries_WF (c : CodecModel) (H : HashModel) (tbl : List Bytes) :
    ∀ (assets : List AssetPackEntry) (off acc : Nat),
      (∀ a ∈ assets, a.WF) → (∀ a ∈ assets, sizeCaps c a) →
      tbl.length < 2 ^ 32 →
      acc + totalBulk assets < 2 ^ 32 →
      off + ((assets.map (assetSize c)).sum) < 2 ^ 64 →
      ∀ e ∈ (writeAssets c H tbl assets off acc).2.1, e.WF := by
  intro assets
  induction assets with
  | nil => intro off acc _ _ _ _ _ e he; simp [writeAssets] at he
  | cons a rest ih =>
    intro off acc hWF hcaps htbl hacc hoff e he
    rw [writeAssets_cons] at he
    rw [totalBulk_cons] at hacc
    simp only [List.map_cons, List.sum_cons] at hoff
    rcases List.mem_cons.mp he with rfl | he2
    · exact mkIndexEntry_WF c H tbl a off acc (hWF a (List.mem_cons_self a rest))
        (hcaps a (List.mem_cons_self a rest)) htbl (by omega) (by omega)
    · exact ih (off + assetSize c a) (acc + a.bulk.length)
        (fun x hx => hWF x (List.mem_cons_of_mem a hx))
        (fun x hx => hcaps x (List.mem_cons_of_mem a hx))
        htbl (by omega) (by omega) e he2

theorem idLookupFrom_none : ∀ (entries : List IdxEntry) (i : Nat) (id : Bytes),
    id ∉ entries.map (fun e => e.assetId) → idLookupFrom i entries id = none := by
  intro entries
  induction entries with
  | nil => intro i id _; rfl
  | cons e rest ih =>
    intro i id hid
    simp only [List.map_cons, List.mem_cons, not_or] at hid
    unfold idLookupFrom
    rw [ih (i + 1) id hid.2]
    rw [if_neg (fun h => hid.1 h.symm)]

theorem idLookupFrom_get : ∀ (entries : List IdxEntry) (i k : Nat) (hk : k < entries.length),
    ((entries.map (fun e => e.assetId)).Nodup) →
    idLookupFrom i entries (entries.get ⟨k, hk⟩).assetId = some (i + k) := by
  intro entries
  induction entries with
  | nil => intro i k hk; simp at hk
  | cons e rest ih =>
    intro i k hk hnd
    rw [List.map_cons, List.nodup_cons] at hnd
    cases k with
    | zero =>
      rw [show (e :: rest).get ⟨0, hk⟩ = e from rfl]
      unfold idLookupFrom
      rw [idLookupFrom_none rest (i + 1) e.assetId hnd.1]
      simp
    | succ k =>
      simp only [List.get_cons_succ]
      unfold idLookupFrom
      rw [ih (i + 1) k (by simpa using hk) hnd.2]
      rw [show i + 1 + k = i + (k + 1) from by omega]

theorem idLookup_get (entries : List IdxEntry) (k : Nat) (hk : k < entries.length)
    (hnd : (entries.map (fun e => e.assetId)).Nodup) :
    idLookup entries (entries.get ⟨k, hk⟩).assetId = some k := by
  unfold idLookup
  rw [idLookupFrom_get entries 0 k hk hnd]
  simp

end SnPak

namespace SnPak

theorem loadChunk_of_placed (c : CodecModel) (H : HashModel) (st : ReaderState)
    (off m : Nat) (raw r : Bytes) (ch : ChunkHeader)
    (expectedEntry : Option IdxEntry) (expectedBulk : Option BulkEntry)
    (expectedBulkAssetId : Option Bytes)
    (hv : st.validatedFileSize = st.file.length)
    (hplace : st.file.drop off = encChunkHeader ch ++ (compressWithMode c m raw ++ r))
    (hb : off + (80 + (compressWithMode c m raw).length) ≤ st.file.length)
    (hm : m = 0 ∨ m = c.mode)
    (hWF : ch.WF)
    (hmag : ch.magic = kChunkMagic) (hver : ch.version = 1)
    (hcomp : ch.compression = m)
    (hsc : ch.sizeCompressed = (compressWithMode c m raw).length)
    (hsu : ch.sizeUncompressed = raw.length)
    (hhi : ch.hashHi = H.h128hi raw) (hlo : ch.hashLo = H.h128lo raw)
    (hcap1 : (compressWithMode c m raw).length ≤ kMaxBlockSize)
    (hcap2 : raw.length ≤ kMaxBlockSize)
    (hid1 : ∀ e, expectedEntry = some e →
      (ch.chunkKind != 0) = false ∧ (ch.assetId != e.assetId) = false ∧
      (ch.payloadType != e.cookedPayloadType) = false ∧
      (ch.schemaVersion != e.cookedSchemaVersion) = false ∧
      (ch.compression != e.compression) = false)
    (hid2 : ∀ be, expectedBulk = some be →
      (ch.chunkKind != 1) = false ∧ (ch.compression != be.compression) = false ∧
      ∀ aid, expectedBulkAssetId = some aid → (ch.assetId != aid) = false) :
    loadChunk c H st off (80 + (compressWithMode c m raw).length) raw.length
      expectedEntry expectedBulk expectedBulkAssetId = .ok raw := by
  have hx80 : (encChunkHeader ch).length = 80 := encChunkHeader_length ch hWF
  unfold loadChunk
  rw [hv]
  rw [if_neg (not_not_intro (checkRange_of_le hb))]
  rw [if_neg (by omega)]
  have hseek : seekAndReadExact st.file st.file.length off 80 = some (encChunkHeader ch) := by
    rw [← hx80]
    exact seekAndReadExact_of_place hplace (by omega)
  have hparse : parseChunkHeader (encChunkHeader ch) = ch := by
    have := parse_encChunkHeader ch [] hWF
    rwa [List.append_nil] at this
  simp only [hseek, hparse]
  rw [if_neg (not_not_intro hmag), if_neg (not_not_intro hver),
    if_neg (not_not_intro hsu)]
  have hC4 : ¬ (ch.sizeCompressed ≠ 80 + (compressWithMode c m raw).length - 80) := by
    rw [hsc]
    omega
  rw [if_neg hC4]
  rw [if_neg (show ¬ (ch.sizeCompressed > kMaxBlockSize) from by rw [hsc]; omega)]
  rw [if_neg (show ¬ (ch.sizeUncompressed > kMaxBlockSize) from by rw [hsu]; omega)]
  split
  case isTrue hbad =>
    exfalso
    cases expectedEntry with
    | none => simp at hbad
    | some e =>
      obtain ⟨g1, g2, g3, g4, g5⟩ := hid1 e rfl
      simp [g1, g2, g3, g4, g5] at hbad
  case isFalse hg1 =>
  split
  case isTrue hbad =>
    exfalso
    cases expectedBulk with
    | none => simp at hbad
    | some be =>
      obtain ⟨g1, g2, g3⟩ := hid2 be rfl
      simp only [g1, g2, Bool.false_or] at hbad
      cases expectedBulkAssetId with
      | none => simp at hbad
      | some aid => simp [g3 aid rfl] at hbad
  case isFalse hg2 =>
  by_cases h0 : ch.compression = 0
  · have hm0 : m = 0 := hcomp.symm.trans h0
    have hcw : compressWithMode c m raw = raw := by
      rw [hm0]
      unfold compressWithMode
      rw [if_pos (Or.inl rfl)]
    rw [if_pos h0]
    have hCd : ¬ (ch.sizeCompressed ≠ ch.sizeUncompressed) := by
      rw [hsc, hsu, hcw]
      exact not_not_intro rfl
    rw [if_neg hCd]
    have hdrop : st.file.drop (off + 80) = raw ++ r := by
      have h1 := drop_shift hplace
      rw [hx80] at h1
      rwa [hcw] at h1
    have hre : readExact st.file (off + 80) ch.sizeUncompressed = some raw := by
      rw [hsu]
      exact readExact_of_place hdrop (by omega)
    simp only [hre]
    rw [if_neg (by rw [hhi, hlo]; simp)]
  · have hmc : m = c.mode := by
      rcases hm with h | h
      · exact absurd (hcomp.trans h) h0
      · exact h
    have hc0 : c.mode ≠ 0 := by
      rw [← hmc]
      intro hh
      exact h0 (hcomp.trans hh)
    rw [if_neg h0]
    have hdrop : st.file.drop (off + 80) = compressWithMode c m raw ++ r := by
      have h1 := drop_shift hplace
      rwa [hx80] at h1
    have hre : readExact st.file (off + 80) ch.sizeCompressed =
        some (compressWithMode c m raw) := by
      rw [hsc]
      exact readExact_of_place hdrop (by omega)
    simp only [hre]
    by_cases hraw : raw = []
    · have hcw : compressWithMode c m raw = [] := by
        rw [hraw]
        simp [compressWithMode]
      have hdec : c.decompressD ch.compression (compressWithMode c m raw)
          ch.sizeUncompressed = some raw := by
        rw [hcomp, hcw, hsu, hraw, hmc]
        simpa using c.roundtrip_empty
      simp only [hdec]
      rw [if_neg (by rw [hhi, hlo]; simp)]
    · have hcw : compressWithMode c m raw = c.compressBody raw := by
        unfold compressWithMode
        rw [if_neg (by
          push_neg
          refine ⟨by rw [hmc]; exact hc0, by simpa using hraw⟩)]
      have hdec : c.decompressD ch.compression (compressWithMode c m raw)
          ch.sizeUncompressed = some raw := by
        rw [hcomp, hcw, hsu, hmc]
        exact c.roundtrip raw hraw
      simp only [hdec]
      rw [if_neg (by rw [hhi, hlo]; simp)]

end SnPak

namespace SnPak

theorem freshHeader_WF (H : HashModel) (s cl il : Nat) (ib : Bytes)
    (hfs : 180 + s + cl + il < 2 ^ 64) : (freshHeader H s cl il ib).WF := by
  refine ⟨by simp [freshHeader, kSnPakMagic], by simp [freshHeader],
    by norm_num [freshHeader, kSnPakVersion], by norm_num [freshHeader],
    by norm_num [freshHeader, kEndianMarker],
    by simpa [freshHeader] using hfs,
    by simp only [freshHeader]; omega,
    by simp only [freshHeader]; omega,
    by simp only [freshHeader]; omega,
    by simp only [freshHeader]; omega,
    by norm_num [freshHeader], by norm_num [freshHeader],
    by simpa [freshHeader] using H.h128hi_lt ib,
    by simpa [freshHeader] using H.h128lo_lt ib,
    by norm_num [freshHeader], by norm_num [freshHeader],
    by norm_num [freshHeader], by norm_num [freshHeader]⟩

theorem writeAssets_bytes_length (c : CodecModel) (H : HashModel) (tbl : List Bytes)
    (assets : List AssetPackEntry) (off acc : Nat)
    (hWF : ∀ a ∈ assets, a.WF) (hcaps : ∀ a ∈ assets, sizeCaps c a) :
    (writeAssets c H tbl assets off acc).1.length = (assets.map (assetSize c)).sum := by
  rw [writeAssets_bytes_eq, catBytes_length, List.map_map]
  congr 1
  refine List.map_congr_left ?_
  intro a ha
  exact assetBytes_length c H a (hWF a ha) (hcaps a ha)

theorem bulkLen_le_totalBulk :
    ∀ (assets : List AssetPackEntry) (a : AssetPackEntry), a ∈ assets →
      a.bulk.length ≤ totalBulk assets := by
  intro assets
  induction assets with
  | nil => intro a ha; simp at ha
  | cons x rest ih =>
    intro a ha
    rw [totalBulk_cons]
    rcases List.mem_cons.mp ha with rfl | ha2
    · omega
    · have := ih a ha2
      omega

theorem snOpen_snWrite (c : CodecModel) (H : HashModel) (assets : List AssetPackEntry)
    (hWF : ∀ a ∈ assets, a.WF) (hcaps : ∀ a ∈ assets, sizeCaps c a)
    (hec : assets.length ≤ kMaxEntryCount)
    (hbc : totalBulk assets ≤ kMaxBulkEntryCount)
    (hsc : (collectStrings assets).length ≤ kMaxStringCount)
    (hsd : strDataLen (collectStrings assets) < 2 ^ 32)
    (hfl : (snWrite c H assets).length < 2 ^ 64) :
    ∃ st, snOpen H (snWrite c H assets) = .ok st ∧
      st.file = snWrite c H assets ∧
      st.stringTable = collectStrings assets ∧
      st.indexEntries = (writeAssets c H (collectStrings assets) assets
        (180 + (buildStringBlock H (collectStrings assets)).length) 0).2.1 ∧
      st.bulkEntries = (writeAssets c H (collectStrings assets) assets
        (180 + (buildStringBlock H (collectStrings assets)).length) 0).2.2 ∧
      st.validatedFileSize = (snWrite c H assets).length := by
  set tbl := collectStrings assets with htbl
  set strB := buildStringBlock H tbl with hstrB
  set W := writeAssets c H tbl assets (180 + strB.length) 0 with hW
  set idxB := buildIndexBlock H W.2.1 W.2.2 0 0 with hidxB
  set hdr := freshHeader H strB.length W.1.length idxB.length idxB with hhdr
  set out := snWrite c H assets with hout0
  have houtA : out = encPakHeader hdr ++ strB ++ W.1 ++ idxB := rfl
  have hout : out = encPakHeader hdr ++ (strB ++ (W.1 ++ idxB)) := by
    rw [houtA]
    simp [List.append_assoc]
  have hlen180 : (encPakHeader hdr).length = 180 := by
    rw [encPakHeader_length_fields, hhdr]
    simp [freshHeader, kSnPakMagic]
  have houtlen : out.length = 180 + strB.length + W.1.length + idxB.length := by
    rw [hout]
    simp only [List.length_append, hlen180]
    omega
  have hfl2 : out.length < 2 ^ 64 := hfl
  have htbl32 : tbl.length < 2 ^ 32 := by
    unfold kMaxStringCount at hsc
    omega
  have hWFa : ∀ a ∈ assets, a.WF := hWF
  have hsum : (assets.map (assetSize c)).sum = W.1.length := by
    rw [hW, writeAssets_bytes_length c H tbl assets _ _ hWF hcaps]
  have helen : W.2.1.length = assets.length := by
    rw [hW, writeAssets_entries_len]
  have hblen : W.2.2.length = totalBulk assets := by
    rw [hW, writeAssets_bulks_len]
  have hilen : idxB.length = 88 + W.2.1.length * 128 + W.2.2.length * 56 := by
    rw [hidxB]
    refine buildIndexBlock_length H W.2.1 W.2.2 0 0 ?_ ?_
    · rw [hW]
      refine writeAssets_entries_WF c H tbl assets _ _ hWF hcaps htbl32 ?_ ?_
      · unfold kMaxBulkEntryCount at hbc
        omega
      · omega
    · rw [hW]
      refine writeAssets_bulks_WF c H tbl assets _ _ hWF hcaps ?_ ?_
      · intro a ha
        have h1 := bulkLen_le_totalBulk assets a ha
        unfold kMaxBulkEntryCount at hbc
        omega
      · omega
  have hWFhdr : hdr.WF := by
    rw [hhdr]
    refine freshHeader_WF H strB.length W.1.length idxB.length idxB (by omega)
  have hre : readExact out 0 180 = some (encPakHeader hdr) := by
    rw [← hlen180]
    have hd0 : out.drop 0 = encPakHeader hdr ++ (strB ++ (W.1 ++ idxB)) := by
      rw [List.drop_zero]
      exact hout
    exact readExact_of_place hd0 (by omega)
  have hparse : parsePakHeader (encPakHeader hdr) = hdr := by
    have := parse_encPakHeader hdr [] hWFhdr
    rwa [List.append_nil] at this
  have hdrop180 : out.drop 180 = strB ++ (W.1 ++ idxB) := by
    rw [hout]
    exact drop_append_eq _ _ _ hlen180
  have hRST : readStringTable H out out.length hdr = .ok tbl := by
    refine readStringTable_of_placed H out hdr tbl (W.1 ++ idxB) ?_ ?_ ?_ hfl2 hsc ?_ hsd
    · rw [show hdr.stringTableOffset = 180 from by rw [hhdr]; simp [freshHeader]]
      exact hdrop180
    · rw [hhdr]
      simp [freshHeader]
    · rw [show hdr.stringTableOffset = 180 from by rw [hhdr]; simp [freshHeader]]
      rw [← hstrB]
      omega
    · refine collectStrings_sources assets (fun s => ∀ b ∈ s, b ≠ 0) ?_
      intro a ha
      obtain ⟨-, -, -, -, w5, w6, -⟩ := hWFa a ha
      exact ⟨w5, w6⟩
  have hdropIdx : out.drop (180 + strB.length + W.1.length) = idxB ++ [] := by
    rw [List.append_nil]
    have h1 : out.drop (180 + strB.length) = W.1 ++ idxB := by
      have := @drop_within _ _ _ _ strB.length hdrop180 (by omega)
      rwa [List.drop_length] at this
    have h2 := @drop_within _ _ _ _ W.1.length h1 (by omega)
    rwa [List.drop_length] at h2
  have hRI : readIndex H out out.length hdr = .ok (W.2.1, W.2.2) := by
    refine readIndex_of_placed H out hdr W.2.1 W.2.2 0 0 [] ?_ ?_ ?_ hfl2 ?_ ?_ ?_ ?_ ?_ ?_
      (by norm_num) (by norm_num)
    · rw [show hdr.indexOffset = 180 + strB.length + W.1.length from by
        rw [hhdr]; simp [freshHeader]]
      rw [← hidxB]
      exact hdropIdx
    · rw [hhdr, hidxB]
      simp [freshHeader]
    · rw [show hdr.indexOffset = 180 + strB.length + W.1.length from by
        rw [hhdr]; simp [freshHeader]]
      rw [← hidxB]
      omega
    · rw [hhdr, hidxB]
      simp [freshHeader]
    · rw [hhdr, hidxB]
      simp [freshHeader]
    · rw [helen]
      exact hec
    · rw [hblen]
      exact hbc
    · rw [hW]
      refine writeAssets_entries_WF c H tbl assets _ _ hWF hcaps htbl32 ?_ (by omega)
      unfold kMaxBulkEntryCount at hbc
      omega
    · rw [hW]
      refine writeAssets_bulks_WF c H tbl assets _ _ hWF hcaps ?_ (by omega)
      intro a ha
      have h1 := bulkLen_le_totalBulk assets a ha
      unfold kMaxBulkEntryCount at hbc
      omega
  refine ⟨⟨out, hdr, tbl, W.2.1, W.2.2, hdr.fileSize⟩, ?_, rfl, rfl, rfl, rfl, ?_⟩
  · unfold snOpen
    rw [if_neg (by omega)]
    simp only [hre, hparse]
    rw [if_neg (show ¬ (hdr.magic ≠ kSnPakMagic) from by rw [hhdr]; simp [freshHeader])]
    rw [if_neg (show ¬ (hdr.version ≠ kSnPakVersion) from by rw [hhdr]; simp [freshHeader])]
    rw [if_neg (show ¬ (hdr.headerSize ≠ 180) from by rw [hhdr]; simp [freshHeader])]
    rw [if_neg (show ¬ (hdr.endianMarker ≠ kEndianMarker) from by
      rw [hhdr]; simp [freshHeader])]
    have hfseq : hdr.fileSize = out.length := by
      rw [houtlen, hhdr]
      simp [freshHeader]
    rw [if_neg (show ¬ (hdr.fileSize > out.length) from by omega)]
    rw [hfseq, hRST]
    simp only
    rw [hRI]
  · show hdr.fileSize = out.length
    rw [houtlen, hhdr]
    simp [freshHeader]

end SnPak

namespace SnPak

theorem getD_eq_get {α : Type} : ∀ (l : List α) (d : α) (k : Nat) (hk : k < l.length),
    l.getD k d = l.get ⟨k, hk⟩ := by
  intro l
  induction l with
  | nil => intro d k hk; simp at hk
  | cons x xs ih =>
    intro d k hk
    cases k with
    | zero => rfl
    | succ k => exact ih d k (by simpa using hk)

theorem idLookup_write (c : CodecModel) (H : HashModel) (tbl : List Bytes)
    (assets : List AssetPackEntry) (off acc : Nat) (k : Nat) (hk : k < assets.length)
    (hnodup : (assets.map (fun a => a.id)).Nodup) :
    idLookup (writeAssets c H tbl assets off acc).2.1 (assets.get ⟨k, hk⟩).id = some k := by
  have hlen : k < (writeAssets c H tbl assets off acc).2.1.length := by
    rw [writeAssets_entries_len]
    exact hk
  have hnd : (((writeAssets c H tbl assets off acc).2.1).map (fun e => e.assetId)).Nodup := by
    rw [writeAssets_entry_ids]
    exact hnodup
  have hgid : ((writeAssets c H tbl assets off acc).2.1.get ⟨k, hlen⟩).assetId =
      (assets.get ⟨k, hk⟩).id := by
    rw [← getD_eq_get _ default k hlen, writeAssets_entry_getD c H tbl assets off acc k hk]
    rfl
  have h1 := idLookup_get _ k hlen hnd
  rwa [hgid] at h1

theorem getAssetInfo_write (c : CodecModel) (H : HashModel) (assets : List AssetPackEntry)
    (st : ReaderState) (k : Nat) (hk : k < assets.length) {off acc : Nat}
    (hWF : ∀ a ∈ assets, a.WF)
    (hsc : (collectStrings assets).length ≤ kMaxStringCount)
    (hstr : st.stringTable = collectStrings assets)
    (hidx : st.indexEntries = (writeAssets c H (collectStrings assets) assets
      off acc).2.1) :
    getAssetInfo st k = .ok (authoredInfo (assets.get ⟨k, hk⟩)) := by
  set tbl := collectStrings assets with htbl
  set a := assets.get ⟨k, hk⟩ with ha
  have hamem : a ∈ assets := by
    rw [ha]
    exact List.get_mem assets k hk
  have hklen : k < st.indexEntries.length := by
    rw [hidx, writeAssets_entries_len]
    exact hk
  have hgetE : st.indexEntries.getD k default =
      mkIndexEntry c H tbl a (off +
        ((assets.take k).map (assetSize c)).sum) (acc + totalBulk (assets.take k)) := by
    rw [hidx, writeAssets_entry_getD c H tbl assets off acc k hk]
  have hname : a.name ∈ tbl := (collectStrings_mem assets a hamem).1
  obtain ⟨hnlt, hngd⟩ := strId_spec hname
  unfold getAssetInfo
  rw [if_neg (by omega)]
  simp only [hgetE, hstr, mkIndexEntry, authoredInfo]
  rw [if_pos hnlt, hngd]
  have hbulkc : (if a.bulk ≠ [] then a.bulk.length else 0) = a.bulk.length := by
    split_ifs with h
    · rfl
    · push_neg at h
      rw [h]
      rfl
  rw [hbulkc]
  by_cases hv : a.variantKey = []
  · simp [hv]
  · have hvmem : a.variantKey ∈ tbl := (collectStrings_mem assets a hamem).2 hv
    obtain ⟨hvlt, hvgd⟩ := strId_spec hvmem
    have hne : strId tbl a.variantKey ≠ kVariantNone := by
      unfold kMaxStringCount at hsc
      unfold kVariantNone
      omega
    simp [hv, hne, hvlt, hvgd]
    simpa [List.getD_eq_getElem?_getD, List.getElem?_eq_getElem hvlt] using hvgd

end SnPak

namespace SnPak

theorem loadCookedPayload_write (c : CodecModel) (H : HashModel)
    (assets : List AssetPackEntry) (st : ReaderState) (k : Nat) (hk : k < assets.length)
    (hWF : ∀ a ∈ assets, a.WF) (hcaps : ∀ a ∈ assets, sizeCaps c a)
    (hnodup : (assets.map (fun a => a.id)).Nodup)
    (hfile : st.file = snWrite c H assets)
    (hidx : st.indexEntries = (writeAssets c H (collectStrings assets) assets
      (180 + (buildStringBlock H (collectStrings assets)).length) 0).2.1)
    (hval : st.validatedFileSize = (snWrite c H assets).length) :
    loadCookedPayload c H st (assets.get ⟨k, hk⟩).id =
      .ok { payloadType := (assets.get ⟨k, hk⟩).cookedPayloadType,
            schemaVersion := (assets.get ⟨k, hk⟩).cookedSchemaVersion,
            bytes := (assets.get ⟨k, hk⟩).cookedBytes } := by
  set tbl := collectStrings assets with htbl
  set strB := buildStringBlock H tbl with hstrB
  set W := writeAssets c H tbl assets (180 + strB.length) 0 with hW
  set idxB := buildIndexBlock H W.2.1 W.2.2 0 0 with hidxB
  set hdr := freshHeader H strB.length W.1.length idxB.length idxB with hhdr
  set out := snWrite c H assets with hout0
  set a := assets.get ⟨k, hk⟩ with ha
  set Tk := ((assets.take k).map (assetSize c)).sum with hTk
  have hamem : a ∈ assets := by
    rw [ha]
    exact List.get_mem assets k hk
  have houtA : out = encPakHeader hdr ++ strB ++ W.1 ++ idxB := rfl
  have hlen180 : (encPakHeader hdr).length = 180 := by
    rw [encPakHeader_length_fields, hhdr]
    simp [freshHeader, kSnPakMagic]
  have houtlen : out.length = 180 + strB.length + W.1.length + idxB.length := by
    rw [houtA]
    simp only [List.length_append, hlen180]
  have hout2 : out = (encPakHeader hdr ++ strB) ++ (W.1 ++ idxB) := by
    rw [houtA]
    simp [List.append_assoc]
  have h1 : out.drop (180 + strB.length) = W.1 ++ idxB := by
    rw [hout2]
    exact drop_append_eq _ _ _ (by rw [List.length_append, hlen180])
  have hsum : W.1.length = (assets.map (assetSize c)).sum := by
    rw [hW, writeAssets_bytes_length c H tbl assets _ _ hWF hcaps]
  have hTk_le : Tk + assetSize c a ≤ (assets.map (assetSize c)).sum := by
    rw [hTk, ha]
    exact sum_take_get_le (assetSize c) assets k hk
  have hAS : assetSize c a =
      80 + (packCompress c a.cookedBytes).length + bulkSizes c a.bulk := rfl
  rw [hAS] at hTk_le
  obtain ⟨r0, hr0⟩ := writeAssets_place c H tbl assets (180 + strB.length) 0 k hk hWF hcaps
  rw [← hW, ← ha, ← hTk] at hr0
  have h2 : out.drop (180 + strB.length + Tk) = W.1.drop Tk ++ idxB := by
    have := @drop_within _ _ _ _ Tk h1 (by omega)
    exact this
  have hplaceA : out.drop (180 + strB.length + Tk) = assetBytes c H a ++ (r0 ++ idxB) := by
    rw [h2, hr0, List.append_assoc]
  have hchWF : (payloadChunkHeaderOf c H a).WF :=
    payloadHeader_WF_of c H a (hWF a hamem) (hcaps a hamem)
  have happx : assetBytes c H a ++ (r0 ++ idxB) =
      encChunkHeader (payloadChunkHeaderOf c H a) ++
        (packCompress c a.cookedBytes ++ (bulkBytesOf c H a ++ (r0 ++ idxB))) := by
    unfold assetBytes
    simp [List.append_assoc]
  have hplaceC : out.drop (180 + strB.length + Tk) =
      encChunkHeader (payloadChunkHeaderOf c H a) ++
        (compressWithMode c c.mode a.cookedBytes ++ (bulkBytesOf c H a ++ (r0 ++ idxB))) := by
    rw [hplaceA, happx]
    rfl
  have hbound : 180 + strB.length + Tk + (80 + (packCompress c a.cookedBytes).length) ≤
      out.length := by
    rw [houtlen]
    omega
  have hlook : idLookup st.indexEntries a.id = some k := by
    rw [hidx, ha]
    exact idLookup_write c H tbl assets _ 0 k hk hnodup
  have hgetE : st.indexEntries.getD k default =
      mkIndexEntry c H tbl a (180 + strB.length + Tk) (totalBulk (assets.take k)) := by
    rw [hidx, writeAssets_entry_getD c H tbl assets _ 0 k hk, Nat.zero_add, ← ha, ← hTk]
  have hpc : compressWithMode c c.mode a.cookedBytes = packCompress c a.cookedBytes := rfl
  have hload := loadChunk_of_placed c H st (180 + strB.length + Tk) c.mode
    a.cookedBytes (bulkBytesOf c H a ++ (r0 ++ idxB)) (payloadChunkHeaderOf c H a)
    (some (mkIndexEntry c H tbl a (180 + strB.length + Tk) (totalBulk (assets.take k))))
    none none
    (by rw [hval, hfile])
    (by rw [hfile]; exact hplaceC)
    (by rw [hfile, hpc]; exact hbound)
    (Or.inr rfl) hchWF rfl rfl rfl rfl rfl rfl rfl
    (by rw [hpc]; exact (hcaps a hamem).1)
    ((hcaps a hamem).2.1)
    (by
      intro e' he'
      injection he' with h3
      subst h3
      simp [payloadChunkHeaderOf, mkIndexEntry])
    (by
      intro be hbe
      simp at hbe)
  rw [hpc] at hload
  unfold loadCookedPayload
  simp only [hlook, hgetE]
  have hproj1 : (mkIndexEntry c H tbl a (180 + strB.length + Tk)
      (totalBulk (assets.take k))).payloadChunkOffset = 180 + strB.length + Tk := rfl
  have hproj2 : (mkIndexEntry c H tbl a (180 + strB.length + Tk)
      (totalBulk (assets.take k))).payloadChunkSizeCompressed =
      80 + (packCompress c a.cookedBytes).length := rfl
  have hproj3 : (mkIndexEntry c H tbl a (180 + strB.length + Tk)
      (totalBulk (assets.take k))).payloadChunkSizeUncompressed =
      a.cookedBytes.length := rfl
  rw [hproj1, hproj2, hproj3, hload]
  simp [mkIndexEntry]

end SnPak

namespace SnPak

theorem loadBulkChunk_write (c : CodecModel) (H : HashModel)
    (assets : List AssetPackEntry) (st : ReaderState) (k : Nat) (hk : k < assets.length)
    (j : Nat) (hj : j < (assets.get ⟨k, hk⟩).bulk.length)
    (hWF : ∀ a ∈ assets, a.WF) (hcaps : ∀ a ∈ assets, sizeCaps c a)
    (hnodup : (assets.map (fun a => a.id)).Nodup)
    (hfile : st.file = snWrite c H assets)
    (hidx : st.indexEntries = (writeAssets c H (collectStrings assets) assets
      (180 + (buildStringBlock H (collectStrings assets)).length) 0).2.1)
    (hbulkE : st.bulkEntries = (writeAssets c H (collectStrings assets) assets
      (180 + (buildStringBlock H (collectStrings assets)).length) 0).2.2)
    (hval : st.validatedFileSize = (snWrite c H assets).length) :
    loadBulkChunk c H st (assets.get ⟨k, hk⟩).id j =
      .ok ((assets.get ⟨k, hk⟩).bulk.get ⟨j, hj⟩).bytes := by
  set tbl := collectStrings assets with htbl
  set strB := buildStringBlock H tbl with hstrB
  set W := writeAssets c H tbl assets (180 + strB.length) 0 with hW
  set idxB := buildIndexBlock H W.2.1 W.2.2 0 0 with hidxB
  set hdr := freshHeader H strB.length W.1.length idxB.length idxB with hhdr
  set out := snWrite c H assets with hout0
  set a := assets.get ⟨k, hk⟩ with ha
  set b := a.bulk.get ⟨j, hj⟩ with hbg
  set Tk := ((assets.take k).map (assetSize c)).sum with hTk
  have hamem : a ∈ assets := by
    rw [ha]
    exact List.get_mem assets k hk
  have hbmem : b ∈ a.bulk := by
    rw [hbg]
    exact List.get_mem a.bulk j hj
  have hbne : a.bulk ≠ [] := by
    intro hh
    rw [hh] at hj
    simp at hj
  have houtA : out = encPakHeader hdr ++ strB ++ W.1 ++ idxB := rfl
  have hlen180 : (encPakHeader hdr).length = 180 := by
    rw [encPakHeader_length_fields, hhdr]
    simp [freshHeader, kSnPakMagic]
  have houtlen : out.length = 180 + strB.length + W.1.length + idxB.length := by
    rw [houtA]
    simp only [List.length_append, hlen180]
  have hout2 : out = (encPakHeader hdr ++ strB) ++ (W.1 ++ idxB) := by
    rw [houtA]
    simp [List.append_assoc]
  have h1 : out.drop (180 + strB.length) = W.1 ++ idxB := by
    rw [hout2]
    exact drop_append_eq _ _ _ (by rw [List.length_append, hlen180])
  have hsum : W.1.length = (assets.map (assetSize c)).sum := by
    rw [hW, writeAssets_bytes_length c H tbl assets _ _ hWF hcaps]
  have hTk_le : Tk + assetSize c a ≤ (assets.map (assetSize c)).sum := by
    rw [hTk, ha]
    exact sum_take_get_le (assetSize c) assets k hk
  have hAS : assetSize c a =
      80 + (packCompress c a.cookedBytes).length + bulkSizes c a.bulk := rfl
  rw [hAS] at hTk_le
  obtain ⟨r0, hr0⟩ := writeAssets_place c H tbl assets (180 + strB.length) 0 k hk hWF hcaps
  rw [← hW, ← ha, ← hTk] at hr0
  have h2 : out.drop (180 + strB.length + Tk) = W.1.drop Tk ++ idxB := by
    have := @drop_within _ _ _ _ Tk h1 (by omega)
    exact this
  have hplaceA : out.drop (180 + strB.length + Tk) = assetBytes c H a ++ (r0 ++ idxB) := by
    rw [h2, hr0, List.append_assoc]
  have hchWF : (payloadChunkHeaderOf c H a).WF :=
    payloadHeader_WF_of c H a (hWF a hamem) (hcaps a hamem)
  have hbHdrWF : ∀ x ∈ a.bulk, (bulkChunkHeaderOf c H a x).WF :=
    bulkHeaders_WF_of c H a (hWF a hamem) (hcaps a hamem)
  have hbchWF : (bulkChunkHeaderOf c H a b).WF := hbHdrWF b hbmem
  have hbbLen : (bulkBytesOf c H a).length = bulkSizes c a.bulk :=
    writeBulks_bytes_length c H a a.bulk 0 0 hbHdrWF
  have hBSdef : bulkSizes c (a.bulk.take j) +
      (80 + (bulkCompressed c b).length) ≤ bulkSizes c a.bulk := by
    have h5 := sum_take_get_le (fun x => 80 + (bulkCompressed c x).length) a.bulk j hj
    have e1 : bulkSizes c (a.bulk.take j) =
        ((a.bulk.take j).map (fun x => 80 + (bulkCompressed c x).length)).sum := rfl
    have e2 : bulkSizes c a.bulk =
        (a.bulk.map (fun x => 80 + (bulkCompressed c x).length)).sum := rfl
    rw [e1, e2]
    rw [← hbg] at h5
    omega
  have hABlen : (assetBytes c H a).length = assetSize c a :=
    assetBytes_length c H a (hWF a hamem) (hcaps a hamem)
  rw [hAS] at hABlen
  have hABdrop : (assetBytes c H a).drop (80 + (packCompress c a.cookedBytes).length) =
      bulkBytesOf c H a := by
    unfold assetBytes
    exact drop_append_eq _ _ _
      (by rw [List.length_append, encChunkHeader_length _ hchWF])
  have h3 : out.drop (180 + strB.length + Tk + (80 + (packCompress c a.cookedBytes).length)) =
      bulkBytesOf c H a ++ (r0 ++ idxB) := by
    have := @drop_within _ _ _ _ (80 + (packCompress c a.cookedBytes).length) hplaceA
      (by rw [hABlen]; omega)
    rwa [hABdrop] at this
  obtain ⟨r2, hr2⟩ := writeBulks_drop c H a a.bulk 0 0 j hj hbHdrWF
  have hr2B : (bulkBytesOf c H a).drop (bulkSizes c (a.bulk.take j)) =
      encChunkHeader (bulkChunkHeaderOf c H a b) ++ (bulkCompressed c b ++ r2) := hr2
  have h4 : out.drop (180 + strB.length + Tk + (80 + (packCompress c a.cookedBytes).length) +
      bulkSizes c (a.bulk.take j)) =
      encChunkHeader (bulkChunkHeaderOf c H a b) ++
        (bulkCompressed c b ++ (r2 ++ (r0 ++ idxB))) := by
    have h6 := @drop_within _ _ _ _ (bulkSizes c (a.bulk.take j)) h3 (by rw [hbbLen]; omega)
    rw [hr2B] at h6
    rw [h6]
    simp [List.append_assoc]
  have hlook : idLookup st.indexEntries a.id = some k := by
    rw [hidx, ha]
    exact idLookup_write c H tbl assets _ 0 k hk hnodup
  have hgetE : st.indexEntries.getD k default =
      mkIndexEntry c H tbl a (180 + strB.length + Tk) (totalBulk (assets.take k)) := by
    rw [hidx, writeAssets_entry_getD c H tbl assets _ 0 k hk, Nat.zero_add, ← ha, ← hTk]
  unfold loadBulkChunk
  simp only [hlook, hgetE]
  have hflag : (mkIndexEntry c H tbl a (180 + strB.length + Tk)
      (totalBulk (assets.take k))).flags = 1 := by
    simp [mkIndexEntry, hbne, kFlagHasBulk]
  have hcount : (mkIndexEntry c H tbl a (180 + strB.length + Tk)
      (totalBulk (assets.take k))).bulkCount = a.bulk.length := by
    simp [mkIndexEntry, hbne]
  have hbfi : (mkIndexEntry c H tbl a (180 + strB.length + Tk)
      (totalBulk (assets.take k))).bulkFirstIndex = totalBulk (assets.take k) := by
    simp [mkIndexEntry, hbne]
  rw [hflag, hcount, hbfi]
  rw [if_neg (by push_neg; exact ⟨by norm_num, by omega⟩)]
  have hTB := sum_take_get_le (fun x => x.bulk.length) assets k hk
  have e3 : totalBulk (assets.take k) =
      ((assets.take k).map (fun x => x.bulk.length)).sum := rfl
  have e4 : totalBulk assets = (assets.map (fun x => x.bulk.length)).sum := rfl
  have hglt : totalBulk (assets.take k) + j < totalBulk assets := by
    simp only [] at hTB
    rw [← e3, ← e4, ← ha] at hTB
    omega
  have hblen2 : st.bulkEntries.length = totalBulk assets := by
    rw [hbulkE, hW, writeAssets_bulks_len]
  rw [if_neg (by rw [hblen2]; omega)]
  obtain ⟨pre, post, hdEq, hpreLen⟩ :=
    writeAssets_bulks_decomp c H tbl assets (180 + strB.length) 0 k hk
  rw [← hW, ← ha, ← hTk] at hdEq
  have hjmid : j < (writeBulks c H a a.bulk 0
      (180 + strB.length + Tk + (80 + (packCompress c a.cookedBytes).length))).2.length := by
    rw [writeBulks_len]
    exact hj
  have hgetB : st.bulkEntries.getD (totalBulk (assets.take k) + j) default =
      mkBulkEntry c H b j (180 + strB.length + Tk +
        (80 + (packCompress c a.cookedBytes).length) + bulkSizes c (a.bulk.take j)) := by
    rw [hbulkE, hdEq, ← hpreLen]
    rw [getD_append_mid _ _ _ j default hjmid]
    rw [writeBulks_getD c H a a.bulk 0 _ j hj, Nat.zero_add, ← hbg]
  rw [hgetB]
  have hsub : (mkBulkEntry c H b j (180 + strB.length + Tk +
      (80 + (packCompress c a.cookedBytes).length) + bulkSizes c (a.bulk.take j))).subIndex =
      j := rfl
  rw [hsub]
  rw [if_neg (not_not_intro rfl)]
  have hproj1 : (mkBulkEntry c H b j (180 + strB.length + Tk +
      (80 + (packCompress c a.cookedBytes).length) + bulkSizes c (a.bulk.take j))).chunkOffset =
      180 + strB.length + Tk + (80 + (packCompress c a.cookedBytes).length) +
        bulkSizes c (a.bulk.take j) := rfl
  have hproj2 : (mkBulkEntry c H b j (180 + strB.length + Tk +
      (80 + (packCompress c a.cookedBytes).length) +
        bulkSizes c (a.bulk.take j))).sizeCompressed =
      80 + (bulkCompressed c b).length := rfl
  have hproj3 : (mkBulkEntry c H b j (180 + strB.length + Tk +
      (80 + (packCompress c a.cookedBytes).length) +
        bulkSizes c (a.bulk.take j))).sizeUncompressed = b.bytes.length := rfl
  have hassetid : (mkIndexEntry c H tbl a (180 + strB.length + Tk)
      (totalBulk (assets.take k))).assetId = a.id := rfl
  rw [hproj1, hproj2, hproj3, hassetid]
  have hcw : compressWithMode c (bulkMode c b.bCompress) b.bytes = bulkCompressed c b := rfl
  have hload := loadChunk_of_placed c H st
    (180 + strB.length + Tk + (80 + (packCompress c a.cookedBytes).length) +
      bulkSizes c (a.bulk.take j))
    (bulkMode c b.bCompress) b.bytes (r2 ++ (r0 ++ idxB)) (bulkChunkHeaderOf c H a b)
    none
    (some (mkBulkEntry c H b j (180 + strB.length + Tk +
      (80 + (packCompress c a.cookedBytes).length) + bulkSizes c (a.bulk.take j))))
    (some a.id)
    (by rw [hval, hfile])
    (by rw [hfile, hcw]; exact h4)
    (by rw [hfile, hcw, houtlen]; omega)
    (by
      unfold bulkMode
      split_ifs
      · exact Or.inr rfl
      · exact Or.inl rfl)
    hbchWF rfl rfl rfl rfl rfl rfl rfl
    (by rw [hcw]; exact ((hcaps a hamem).2.2 b hbmem).1)
    (((hcaps a hamem).2.2 b hbmem).2)
    (by
      intro e' he'
      simp at he')
    (by
      intro be' hbe'
      injection hbe' with h7
      subst h7
      refine ⟨by simp [bulkChunkHeaderOf], by simp [bulkChunkHeaderOf, mkBulkEntry], ?_⟩
      intro aid haid
      injection haid with h8
      subst h8
      simp [bulkChunkHeaderOf])
  rw [hcw] at hload
  rw [hload]

end SnPak

namespace SnPak

/-- **C1** (corrected): for every list of authored assets with pairwise-distinct
ids whose names and variant keys are free of interior NUL bytes (part of
`AssetPackEntry.WF`) and which respects the reader's documented sanity caps,
`Write` followed by `Open` succeeds, `GetAssetCount` equals the number of
authored assets, and for each authored asset the reader returns the authored
`AssetInfo` (all fields), the byte-identical cooked payload, and every bulk
chunk byte-identically. -/
theorem snpak_write_read_roundtrip (c : CodecModel) (H : HashModel)
    (assets : List AssetPackEntry)
    (hWF : ∀ a ∈ assets, a.WF) (hcaps : ∀ a ∈ assets, sizeCaps c a)
    (hnodup : (assets.map (fun a => a.id)).Nodup)
    (hec : assets.length ≤ kMaxEntryCount)
    (hbc : totalBulk assets ≤ kMaxBulkEntryCount)
    (hsc : (collectStrings assets).length ≤ kMaxStringCount)
    (hsd : strDataLen (collectStrings assets) < 2 ^ 32)
    (hfl : (snWrite c H assets).length < 2 ^ 64) :
    ∃ st, snOpen H (snWrite c H assets) = .ok st ∧
      getAssetCount st = assets.length ∧
      ∀ k (hk : k < assets.length),
        getAssetInfo st k = .ok (authoredInfo (assets.get ⟨k, hk⟩)) ∧
        loadCookedPayload c H st (assets.get ⟨k, hk⟩).id =
          .ok { payloadType := (assets.get ⟨k, hk⟩).cookedPayloadType,
                schemaVersion := (assets.get ⟨k, hk⟩).cookedSchemaVersion,
                bytes := (assets.get ⟨k, hk⟩).cookedBytes } ∧
        ∀ i (hi : i < (assets.get ⟨k, hk⟩).bulk.length),
          loadBulkChunk c H st (assets.get ⟨k, hk⟩).id i =
            .ok ((assets.get ⟨k, hk⟩).bulk.get ⟨i, hi⟩).bytes := by
  obtain ⟨st, hopen, hfile, hstr, hidx, hbulkE, hval⟩ :=
    snOpen_snWrite c H assets hWF hcaps hec hbc hsc hsd hfl
  refine ⟨st, hopen, ?_, ?_⟩
  · unfold getAssetCount
    rw [hidx, writeAssets_entries_len]
  · intro k hk
    refine ⟨getAssetInfo_write c H assets st k hk hWF hsc hstr hidx,
      loadCookedPayload_write c H assets st k hk hWF hcaps hnodup hfile hidx hval, ?_⟩
    intro i hi
    exact loadBulkChunk_write c H assets st k hk i hi hWF hcaps hnodup hfile hidx hbulkE hval

end SnPak

namespace SnPak

set_option maxRecDepth 40000 in
/-- **C1** counterexample: the original claim has no NUL-freeness restriction,
but an authored name containing an interior NUL byte (here `[0, 97]`) is
truncated by the reader's `memchr`-based string parsing: `Open` succeeds and
the asset count is right, yet the reopened `AssetInfo` carries the truncated
empty name rather than the authored one. -/
theorem snpak_roundtrip_fails_on_nul_name :
    (snOpen hash0 (snWrite codec0 hash0 [sampleAssetNul])).toOption.map
        (fun st => (getAssetCount st,
          decide ((getAssetInfo st 0).toOption = some (authoredInfo sampleAssetNul)),
          decide ((getAssetInfo st 0).toOption =
            some { authoredInfo sampleAssetNul with name := [] }))) =
      some (1, false, true) := by
  decide

set_option maxRecDepth 40000 in
/-- **C1** witness: the round-trip theorem applied to a concrete two-asset
pack (a compressed payload with one bulk chunk, and an empty-payload variant
asset) under a non-trivial codec model. -/
theorem snpak_write_read_roundtrip_witness :
    ∃ st, snOpen hash0 (snWrite codec2 hash0 [sampleAsset1, sampleAsset2]) = .ok st ∧
      getAssetCount st = [sampleAsset1, sampleAsset2].length ∧
      ∀ k (hk : k < ([sampleAsset1, sampleAsset2] : List AssetPackEntry).length),
        getAssetInfo st k = .ok (authoredInfo ([sampleAsset1, sampleAsset2].get ⟨k, hk⟩)) ∧
        loadCookedPayload codec2 hash0 st ([sampleAsset1, sampleAsset2].get ⟨k, hk⟩).id =
          .ok { payloadType := ([sampleAsset1, sampleAsset2].get ⟨k, hk⟩).cookedPayloadType,
                schemaVersion :=
                  ([sampleAsset1, sampleAsset2].get ⟨k, hk⟩).cookedSchemaVersion,
                bytes := ([sampleAsset1, sampleAsset2].get ⟨k, hk⟩).cookedBytes } ∧
        ∀ i (hi : i < ([sampleAsset1, sampleAsset2].get ⟨k, hk⟩).bulk.length),
          loadBulkChunk codec2 hash0 st ([sampleAsset1, sampleAsset2].get ⟨k, hk⟩).id i =
            .ok (([sampleAsset1, sampleAsset2].get ⟨k, hk⟩).bulk.get ⟨i, hi⟩).bytes :=
  snpak_write_read_roundtrip codec2 hash0 [sampleAsset1, sampleAsset2]
    (by decide) (by decide) (by decide) (by decide) (by decide) (by decide) (by decide)
    (by decide)

end SnPak

namespace SnPak

theorem collectStrings_singleton_len (a : AssetPackEntry) :
    (collectStrings [a]).length ≤ 2 := by
  unfold collectStrings addString
  simp only [List.foldl_cons, List.foldl_nil]
  split_ifs <;> simp

set_option maxRecDepth 8000 in
/-- **C2** (corrected): writing a pack with exactly `X` and then
`AppendUpdate`-ing it with exactly `Y` yields a pack that opens successfully,
but the reader loads only the latest index: the asset count is 1 (not 2),
`Y` is visible and `X` is not (`FindAsset` errors), while the new header's
`PreviousIndexOffset` records the old index's offset for tooling. -/
theorem snpak_appendUpdate_latest_index_wins (c : CodecModel) (H : HashModel)
    (X Y : AssetPackEntry)
    (hWFY : Y.WF) (hcapsY : sizeCaps c Y)
    (hbcY : Y.bulk.length ≤ kMaxBulkEntryCount)
    (hsdY : strDataLen (collectStrings [Y]) < 2 ^ 32)
    (hfl1 : (snWrite c H [X]).length < 2 ^ 64)
    (hfl2 : (snWrite c H [X]).length + (buildStringBlock H (collectStrings [Y])).length +
      assetSize c Y + (88 + 1 * 128 + Y.bulk.length * 56) < 2 ^ 64) :
    ∃ out st, snAppendUpdate c H [Y] (snWrite c H [X]) = .ok out ∧
      snOpen H out = .ok st ∧
      getAssetCount st = 1 ∧
      findAsset st Y.id = .ok (authoredInfo Y) ∧
      (X.id ≠ Y.id → findAsset st X.id = .error "Asset not found") ∧
      st.header.previousIndexOffset =
        180 + (buildStringBlock H (collectStrings [X])).length +
          (writeAssets c H (collectStrings [X]) [X]
            (180 + (buildStringBlock H (collectStrings [X])).length) 0).1.length := by
  have hWFY1 : ∀ a ∈ [Y], a.WF := by
    intro a ha
    rw [List.mem_singleton] at ha
    subst ha
    exact hWFY
  have hcapsY1 : ∀ a ∈ [Y], sizeCaps c a := by
    intro a ha
    rw [List.mem_singleton] at ha
    subst ha
    exact hcapsY
  set tblX := collectStrings [X] with htblX
  set strBX := buildStringBlock H tblX with hstrBX
  set WX := writeAssets c H tblX [X] (180 + strBX.length) 0 with hWX
  set idxBX := buildIndexBlock H WX.2.1 WX.2.2 0 0 with hidxBX
  set hdrX := freshHeader H strBX.length WX.1.length idxBX.length idxBX with hhdrX
  set old := snWrite c H [X] with hold
  have holdA : old = encPakHeader hdrX ++ strBX ++ WX.1 ++ idxBX := rfl
  have hlen180X : (encPakHeader hdrX).length = 180 := by
    rw [encPakHeader_length_fields, hhdrX]
    simp [freshHeader, kSnPakMagic]
  have holdlen : old.length = 180 + strBX.length + WX.1.length + idxBX.length := by
    rw [holdA]
    simp only [List.length_append, hlen180X]
  have hreOld : readExact old 0 180 = some (encPakHeader hdrX) := by
    rw [← hlen180X]
    have hd0 : old.drop 0 = encPakHeader hdrX ++ (strBX ++ (WX.1 ++ idxBX)) := by
      rw [List.drop_zero, holdA]
      simp [List.append_assoc]
    exact readExact_of_place hd0 (by omega)
  have hWFhdrX : hdrX.WF := by
    rw [hhdrX]
    exact freshHeader_WF H strBX.length WX.1.length idxBX.length idxBX (by omega)
  have hparseX : parsePakHeader (encPakHeader hdrX) = hdrX := by
    have := parse_encPakHeader hdrX [] hWFhdrX
    rwa [List.append_nil] at this
  have holdfs : hdrX.fileSize = old.length := by
    rw [holdlen, hhdrX]
    simp [freshHeader]
  set tblY := collectStrings [Y] with htblY
  set strBY := buildStringBlock H tblY with hstrBY
  set WY := writeAssets c H tblY [Y] (old.length + strBY.length) 0 with hWY
  set idxBY := buildIndexBlock H WY.2.1 WY.2.2 hdrX.indexOffset hdrX.indexSize with hidxBY
  set newHdr : PakHeader := { hdrX with
    fileSize := old.length + strBY.length + WY.1.length + idxBY.length
    indexOffset := old.length + strBY.length + WY.1.length
    indexSize := idxBY.length
    stringTableOffset := old.length
    stringTableSize := strBY.length
    indexHashHi := H.h128hi idxBY
    indexHashLo := H.h128lo idxBY
    flags := hdrX.flags ||| kFlagHasTrailingIndex
    previousIndexOffset := hdrX.indexOffset
    previousIndexSize := hdrX.indexSize } with hnewHdr
  set f1 := writeAt old old.length strBY with hf1
  set f2 := writeAt f1 f1.length WY.1 with hf2
  set f3 := writeAt f2 f2.length idxBY with hf3
  set fOut := writeAt f3 0 (encPakHeader newHdr) with hfOut
  have hC1 : ¬ (hdrX.magic ≠ kSnPakMagic) := by
    rw [hhdrX]
    simp [freshHeader]
  have hC2 : ¬ (hdrX.version ≠ kSnPakVersion) := by
    rw [hhdrX]
    simp [freshHeader]
  have hC3 : ¬ (hdrX.headerSize ≠ 180) := by
    rw [hhdrX]
    simp [freshHeader]
  have hC4 : ¬ (hdrX.endianMarker ≠ kEndianMarker) := by
    rw [hhdrX]
    simp [freshHeader]
  have hC5 : ¬ (hdrX.fileSize > old.length) := by
    rw [holdfs]
    omega
  have happ : snAppendUpdate c H [Y] old = .ok fOut := by
    unfold snAppendUpdate
    simp only [hreOld, hparseX]
    rw [if_neg hC1, if_neg hC2, if_neg hC3, if_neg hC4, if_neg hC5]
  have hnewEncLen : (encPakHeader newHdr).length = 180 := by
    rw [encPakHeader_length_fields, hnewHdr]
    show hdrX.magic.length + 108 + hdrX.reserved.length = 180
    rw [hhdrX]
    simp [freshHeader, kSnPakMagic]
  have hdrop180f3 : (((old ++ strBY) ++ WY.1) ++ idxBY).drop 180 =
      old.drop 180 ++ (strBY ++ (WY.1 ++ idxBY)) := by
    rw [List.append_assoc, List.append_assoc, List.drop_append_eq_append_drop,
      show 180 - old.length = 0 from by omega, List.drop_zero]
  have hfOutEq : fOut = encPakHeader newHdr ++
      (old.drop 180 ++ (strBY ++ (WY.1 ++ idxBY))) := by
    rw [hfOut, hf3, hf2, hf1, writeAt_end, writeAt_end, writeAt_end, writeAt_zero,
      hnewEncLen, hdrop180f3]
  have hfOut2 : fOut = (encPakHeader newHdr ++ old.drop 180) ++
      (strBY ++ (WY.1 ++ idxBY)) := by
    rw [hfOutEq, List.append_assoc]
  have hpreflen : (encPakHeader newHdr ++ old.drop 180).length = old.length := by
    rw [List.length_append, hnewEncLen, List.length_drop]
    omega
  have hfOutLen : fOut.length = old.length + strBY.length + WY.1.length + idxBY.length := by
    rw [hfOut2]
    simp only [List.length_append, hpreflen]
    omega
  have hWYlen : WY.1.length = assetSize c Y := by
    rw [hWY, writeAssets_bytes_length c H tblY [Y] _ _ hWFY1 hcapsY1]
    simp
  have hWYelen : WY.2.1.length = 1 := by
    rw [hWY, writeAssets_entries_len]
    rfl
  have htotY : totalBulk [Y] = Y.bulk.length := by
    simp [totalBulk]
  have hWYblen : WY.2.2.length = Y.bulk.length := by
    rw [hWY, writeAssets_bulks_len, htotY]
  have htblY32 : tblY.length < 2 ^ 32 := by
    have := collectStrings_singleton_len Y
    rw [← htblY] at this
    omega
  have hsumY : ([Y].map (assetSize c)).sum = assetSize c Y := by
    simp
  have hentWF : ∀ e ∈ WY.2.1, e.WF := by
    rw [hWY]
    refine writeAssets_entries_WF c H tblY [Y] _ _ hWFY1 hcapsY1 htblY32 ?_ ?_
    · rw [htotY]
      unfold kMaxBulkEntryCount at hbcY
      omega
    · rw [hsumY]
      omega
  have hbulkWF : ∀ be ∈ WY.2.2, be.WF := by
    rw [hWY]
    refine writeAssets_bulks_WF c H tblY [Y] _ _ hWFY1 hcapsY1 ?_ ?_
    · intro a ha
      rw [List.mem_singleton] at ha
      subst ha
      unfold kMaxBulkEntryCount at hbcY
      omega
    · rw [hsumY]
      omega
  have hidxBYlen : idxBY.length = 88 + WY.2.1.length * 128 + WY.2.2.length * 56 := by
    rw [hidxBY]
    exact buildIndexBlock_length H WY.2.1 WY.2.2 hdrX.indexOffset hdrX.indexSize hentWF hbulkWF
  have hidxOffX : hdrX.indexOffset = 180 + strBX.length + WX.1.length := by
    rw [hhdrX]
    simp [freshHeader]
  have hidxSizeX : hdrX.indexSize = idxBX.length := by
    rw [hhdrX]
    simp [freshHeader]
  have hWFnew : newHdr.WF := by
    rw [hnewHdr]
    obtain ⟨x1, x2, x3, x4, x5, -, -, -, -, -, x11, x12, -, -, -, x16, -, -⟩ := hWFhdrX
    refine ⟨x1, x2, x3, x4, x5, ?_, ?_, ?_, ?_, ?_, x11, x12,
      by simpa using H.h128hi_lt idxBY, by simpa using H.h128lo_lt idxBY, ?_, x16, ?_, ?_⟩
    · show old.length + strBY.length + WY.1.length + idxBY.length < 2 ^ 64
      rw [hWYlen, hidxBYlen, hWYelen, hWYblen]
      omega
    · show old.length + strBY.length + WY.1.length < 2 ^ 64
      rw [hWYlen]
      omega
    · show idxBY.length < 2 ^ 64
      rw [hidxBYlen, hWYelen, hWYblen]
      omega
    · show old.length < 2 ^ 64
      omega
    · show strBY.length < 2 ^ 64
      omega
    · show hdrX.flags ||| kFlagHasTrailingIndex < 2 ^ 32
      rw [hhdrX]
      norm_num [freshHeader, kFlagHasTrailingIndex]
    · show hdrX.indexOffset < 2 ^ 64
      rw [hidxOffX]
      omega
    · show hdrX.indexSize < 2 ^ 64
      rw [hidxSizeX]
      omega
  have hreNew : readExact fOut 0 180 = some (encPakHeader newHdr) := by
    rw [← hnewEncLen]
    have hd0 : fOut.drop 0 = encPakHeader newHdr ++
        (old.drop 180 ++ (strBY ++ (WY.1 ++ idxBY))) := by
      rw [List.drop_zero]
      exact hfOutEq
    exact readExact_of_place hd0 (by rw [hfOutLen]; omega)
  have hparseNew : parsePakHeader (encPakHeader newHdr) = newHdr := by
    have := parse_encPakHeader newHdr [] hWFnew
    rwa [List.append_nil] at this
  have hdropStr : fOut.drop old.length = strBY ++ (WY.1 ++ idxBY) := by
    rw [hfOut2]
    exact drop_append_eq _ _ _ hpreflen
  have hnfs : newHdr.fileSize = fOut.length := by
    rw [hfOutLen, hnewHdr]
  have hnulY : ∀ s ∈ tblY, ∀ b ∈ s, b ≠ 0 := by
    refine collectStrings_sources [Y] (fun s => ∀ b ∈ s, b ≠ 0) ?_
    intro a ha
    rw [List.mem_singleton] at ha
    subst ha
    obtain ⟨-, -, -, -, w5, w6, -⟩ := hWFY
    exact ⟨w5, w6⟩
  have hscY : tblY.length ≤ kMaxStringCount := by
    have := collectStrings_singleton_len Y
    rw [← htblY] at this
    unfold kMaxStringCount
    omega
  have hRST : readStringTable H fOut fOut.length newHdr = .ok tblY := by
    refine readStringTable_of_placed H fOut newHdr tblY (WY.1 ++ idxBY) ?_ ?_ ?_
      (by rw [hfOutLen, hWYlen, hidxBYlen, hWYelen, hWYblen]; omega) hscY hnulY hsdY
    · rw [show newHdr.stringTableOffset = old.length from by rw [hnewHdr]]
      exact hdropStr
    · rw [hnewHdr]
    · rw [show newHdr.stringTableOffset = old.length from by rw [hnewHdr], hfOutLen]
      rw [← hstrBY]
      omega
  have hdropIdx : fOut.drop (old.length + strBY.length + WY.1.length) = idxBY ++ [] := by
    rw [List.append_nil]
    have h1 := drop_shift hdropStr
    have h2 := drop_shift h1
    exact h2
  have hRI : readIndex H fOut fOut.length newHdr = .ok (WY.2.1, WY.2.2) := by
    refine readIndex_of_placed H fOut newHdr WY.2.1 WY.2.2 hdrX.indexOffset hdrX.indexSize
      [] ?_ ?_ ?_ (by rw [hfOutLen, hWYlen, hidxBYlen, hWYelen, hWYblen]; omega)
      ?_ ?_ (by rw [hWYelen]; unfold kMaxEntryCount; omega)
      (by rw [hWYblen]; exact hbcY) hentWF hbulkWF
      (by rw [hidxOffX]; omega) (by rw [hidxSizeX]; omega)
    · rw [show newHdr.indexOffset = old.length + strBY.length + WY.1.length from by
        rw [hnewHdr]]
      rw [← hidxBY]
      exact hdropIdx
    · rw [hnewHdr]
    · rw [show newHdr.indexOffset = old.length + strBY.length + WY.1.length from by
        rw [hnewHdr], hfOutLen]
    · rw [hnewHdr]
    · rw [hnewHdr]
  have hopen : snOpen H fOut = .ok ⟨fOut, newHdr, tblY, WY.2.1, WY.2.2, newHdr.fileSize⟩ := by
    unfold snOpen
    rw [if_neg (by rw [hfOutLen]; omega)]
    simp only [hreNew, hparseNew]
    rw [if_neg (show ¬ (newHdr.magic ≠ kSnPakMagic) from by rw [hnewHdr]; exact hC1)]
    rw [if_neg (show ¬ (newHdr.version ≠ kSnPakVersion) from by rw [hnewHdr]; exact hC2)]
    rw [if_neg (show ¬ (newHdr.headerSize ≠ 180) from by rw [hnewHdr]; exact hC3)]
    rw [if_neg (show ¬ (newHdr.endianMarker ≠ kEndianMarker) from by rw [hnewHdr]; exact hC4)]
    rw [if_neg (show ¬ (newHdr.fileSize > fOut.length) from by rw [hnfs]; omega)]
    have hRST2 : readStringTable H fOut
        (old.length + strBY.length + WY.1.length + idxBY.length) newHdr = .ok tblY := by
      rw [← hfOutLen]
      exact hRST
    have hRI2 : readIndex H fOut
        (old.length + strBY.length + WY.1.length + idxBY.length) newHdr =
        .ok (WY.2.1, WY.2.2) := by
      rw [← hfOutLen]
      exact hRI
    simp only [hRST2, hRI2]
  set st : ReaderState := ⟨fOut, newHdr, tblY, WY.2.1, WY.2.2, newHdr.fileSize⟩ with hst
  have hlookY : idLookup st.indexEntries Y.id = some 0 := by
    show idLookup WY.2.1 Y.id = some 0
    rw [hWY]
    exact idLookup_write c H tblY [Y] _ 0 0 (by norm_num) (by simp)
  have hgaiY : getAssetInfo st 0 = .ok (authoredInfo Y) := by
    have := getAssetInfo_write c H [Y] st 0 (by norm_num) hWFY1 hscY rfl
      (show st.indexEntries = (writeAssets c H (collectStrings [Y]) [Y]
        (old.length + strBY.length) 0).2.1 from by rw [← htblY, ← hWY])
    simpa using this
  refine ⟨fOut, st, happ, hopen, ?_, ?_, ?_, ?_⟩
  · show WY.2.1.length = 1
    exact hWYelen
  · unfold findAsset
    rw [hlookY]
    exact hgaiY
  · intro hne
    unfold findAsset
    have hnone : idLookup st.indexEntries X.id = none := by
      show idLookup WY.2.1 X.id = none
      unfold idLookup
      refine idLookupFrom_none WY.2.1 0 X.id ?_
      rw [hWY, writeAssets_entry_ids]
      simp [hne]
    rw [hnone]
  · show newHdr.previousIndexOffset = 180 + strBX.length + WX.1.length
    rw [hnewHdr]
    exact hidxOffX

end SnPak

namespace SnPak

set_option maxRecDepth 40000 in
/-- **C2** counterexample: the original claim promises that after `Write` with
exactly `X` and `AppendUpdate` with exactly `Y` both assets are visible with
asset count 2; concretely the reopened pack reports exactly one asset and
`FindAsset` on `X`'s id fails, while `Y` is served from the latest index. -/
theorem snpak_appendUpdate_hides_old_assets :
    ((snAppendUpdate codec0 hash0 [sampleAsset2]
        (snWrite codec0 hash0 [sampleAsset1])).toOption.bind
      (fun out => (snOpen hash0 out).toOption)).map
      (fun st => (getAssetCount st,
        decide ((findAsset st sampleAsset1.id).toOption = none),
        decide ((findAsset st sampleAsset2.id).toOption =
          some (authoredInfo sampleAsset2)))) =
      some (1, true, true) := by
  decide

set_option maxRecDepth 40000 in
/-- **C2** witness: the latest-index theorem applied to concrete assets. -/
theorem snpak_appendUpdate_latest_index_wins_witness :
    ∃ out st, snAppendUpdate codec0 hash0 [sampleAsset2]
        (snWrite codec0 hash0 [sampleAsset1]) = .ok out ∧
      snOpen hash0 out = .ok st ∧
      getAssetCount st = 1 ∧
      findAsset st sampleAsset2.id = .ok (authoredInfo sampleAsset2) ∧
      (sampleAsset1.id ≠ sampleAsset2.id →
        findAsset st sampleAsset1.id = .error "Asset not found") ∧
      st.header.previousIndexOffset =
        180 + (buildStringBlock hash0 (collectStrings [sampleAsset1])).length +
          (writeAssets codec0 hash0 (collectStrings [sampleAsset1]) [sampleAsset1]
            (180 + (buildStringBlock hash0 (collectStrings [sampleAsset1])).length)
            0).1.length :=
  snpak_appendUpdate_latest_index_wins codec0 hash0 sampleAsset1 sampleAsset2
    (by decide) (by decide) (by decide) (by decide) (by decide) (by decide)

end SnPak
